import Mathlib

/-!
# czlib `fastzlib.c`: whole-buffer compress / decompress

A shallow embedding of `vendor/github.com/DataDog/czlib/fastzlib.c` and
`fastzlib.h`.

* The zlib codec is external to the file.  It is a parameter (`Codec`): every
  entry point of zlib that the C code calls is a field, a function on the
  `z_stream` value.  A codec step also returns the bytes it stored at the
  output cursor `next_out`.
* `malloc` / `realloc` may fail; `Heap` is the oracle deciding each request.
* `ByteArray ret;` and `z_stream zst;` are uninitialised locals in C.  Their
  indeterminate initial values are parameters (`ret0`, `zst0`).
* `uint` arithmetic is arithmetic modulo `2 ^ 32`.
* The `do ... while` loops need not terminate for an arbitrary codec; they
  are run with fuel, `none` meaning that the fuel ran out.
-/

namespace Czlib

/-! ## Constants -/

/-- One byte of a buffer. -/
abbrev Byte := Fin 256

/-- Modulus of the C type `uint` (`unsigned int`, 32 bits). -/
def UINT_MOD : Nat := 2 ^ 32

/-- Line 17: `#define DEFAULTALLOC (16*1024)`. -/
def DEFAULTALLOC : Nat := 16 * 1024

/-- Line 18: `#define ERRMSG_MAX (1024*2)`. -/
def ERRMSG_MAX : Nat := 1024 * 2

/-- Status code of `zlib.h`. -/
def Z_OK : Int := 0
/-- Status code of `zlib.h`. -/
def Z_STREAM_END : Int := 1
/-- Status code of `zlib.h`. -/
def Z_STREAM_ERROR : Int := -2
/-- Status code of `zlib.h`. -/
def Z_DATA_ERROR : Int := -3
/-- Status code of `zlib.h`. -/
def Z_MEM_ERROR : Int := -4
/-- Status code of `zlib.h`. -/
def Z_BUF_ERROR : Int := -5
/-- Status code of `zlib.h`. -/
def Z_VERSION_ERROR : Int := -6
/-- Flush mode of `zlib.h`. -/
def Z_FINISH : Int := 4
/-- Compression level of `zlib.h`. -/
def Z_DEFAULT_COMPRESSION : Int := -1
/-- Compression method of `zlib.h`. -/
def Z_DEFLATED : Int := 8
/-- Strategy of `zlib.h`. -/
def Z_DEFAULT_STRATEGY : Int := 0
/-- Window bits of `zconf.h`. -/
def MAX_WBITS : Int := 15

/-! ## Data model -/

/-- The fields of zlib's `z_stream` that `fastzlib.c` reads or writes, and the
codec's private state `state`.  `next_in` is the input the cursor points at,
`next_out` is `none` for a NULL cursor and `some off` for a cursor `off` bytes
into the output block. -/
structure z_stream (σ : Type) where
  next_in : List Byte
  avail_in : Nat
  next_out : Option Nat
  avail_out : Nat
  total_out : Nat
  msg : Option String
  state : σ

/-- A `char *` into the heap: NULL, a live block with its contents (one entry
per allocated byte), or a block that has been freed. -/
inductive Ptr where
  | null
  | live (block : List Byte)
  | dangling
deriving DecidableEq, Repr

/-- The struct `ByteArray` of `fastzlib.h`: `str`, `len`, `err`. -/
structure ByteArray where
  str : Ptr
  len : Nat
  err : Option String
deriving DecidableEq, Repr

/-- The zlib entry points called by `fastzlib.c`.  Each takes the stream by
reference and returns its status with the updated stream; `inflate` and
`deflate` also return the bytes they stored at `next_out`. -/
structure Codec (σ : Type) where
  inflateInit2 : z_stream σ → Int → Int × z_stream σ
  inflate : z_stream σ → Int → Int × z_stream σ × List Byte
  inflateEnd : z_stream σ → Int × z_stream σ
  deflateInit : z_stream σ → Int → Int × z_stream σ
  deflateInit2 : z_stream σ → Int → Int → Int → Int → Int → Int × z_stream σ
  deflate : z_stream σ → Int → Int × z_stream σ × List Byte
  deflateEnd : z_stream σ → Int × z_stream σ

/-- The allocator: `ok i n` tells whether the `i`-th allocation request of a
call (0 is the `malloc`, `i + 1` the `i`-th `realloc`) succeeds when it asks
for `n` bytes; `junk k` is the indeterminate content of a fresh byte at
offset `k`. -/
structure Heap where
  ok : Nat → Nat → Bool
  junk : Nat → Byte

/-- What a call did, in order: allocator requests with their size and
success, `free`, and the codec's `init`, `step` (`inflate` / `deflate`) and
`finish` (`inflateEnd` / `deflateEnd`) calls with the status returned. -/
inductive Event where
  | malloc (size : Nat) (ok : Bool)
  | realloc (size : Nat) (ok : Bool)
  | free
  | init (status : Int)
  | step (status : Int)
  | finish (status : Int)
deriving DecidableEq, Repr

/-- The locals of a running operation: the result under construction, the
stream, and two ghost fields, the number of allocator requests made so far
and the events so far. -/
structure Frame (σ : Type) where
  ret : ByteArray
  zst : z_stream σ
  nalloc : Nat
  trace : List Event

/-- Control after a piece of code: `next` falls through to the next codec
step, `done` has executed a `return`. -/
inductive Flow (α : Type) where
  | next (f : α)
  | done (f : α)

/-! ## `zlib_error` (lines 21-53) -/

/-- The conversion `%d` of `printf` for an `int`. -/
def fmt_d (n : Int) : String := toString n

/-- The call `snprintf(buf, size, ...)` keeps at most `size - 1` characters of
the formatted text `s`. -/
def snprintf (size : Nat) (s : String) : String := String.mk (s.data.take (size - 1))

/-- Lines 22-50, the text: what `zlib_error` formats with `snprintf` into its
message buffer.  The buffer itself, the `malloc(ERRMSG_MAX)` of lines 44 and 48
that the code does not check, is modelled in `zlib_error_alloc`; where an
operation below sets `err := some (zlib_error ...)`, the run is one in which
that `malloc` was granted. -/
def zlib_error {σ : Type} (zst : z_stream σ) (err : Int) (msg : String) : String :=
  let errmsg : Option String := none
  let errmsg := if err = Z_VERSION_ERROR then some "library version mismatch" else errmsg
  let errmsg := if errmsg = none then zst.msg else errmsg
  let errmsg :=
    if errmsg = none then
      if err = Z_BUF_ERROR then some "incomplete or truncated stream"
      else if err = Z_STREAM_ERROR then some "inconsistent stream state"
      else if err = Z_DATA_ERROR then some "invalid input data"
      else errmsg
    else errmsg
  match errmsg with
  | none => snprintf ERRMSG_MAX ("Error: " ++ fmt_d err ++ " " ++ msg)
  | some orig => snprintf ERRMSG_MAX ("Error " ++ fmt_d err ++ " " ++ msg ++ ": " ++ orig)

/-! ## Memory -/

/-- Number of bytes allocated behind a pointer. -/
def Ptr.cap : Ptr → Nat
  | Ptr.live block => block.length
  | _ => 0

/-- The codec stores `bytes` at `cursor`.  A store through a NULL cursor or
past the end of the block is undefined in C; here it leaves those bytes out. -/
def Ptr.store (p : Ptr) (cursor : Option Nat) (bytes : List Byte) : Ptr :=
  match p, cursor with
  | Ptr.live block, some off =>
      Ptr.live ((block.take off ++ bytes ++ block.drop (off + bytes.length)).take block.length)
  | _, _ => p

/-- The pointer `p + off`, as a stream cursor. -/
def Ptr.cursor (p : Ptr) (off : Nat) : Option Nat :=
  match p with
  | Ptr.null => none
  | _ => some off

/-- Fresh bytes for the offsets `off, ..., off + n - 1`. -/
def Heap.fresh (h : Heap) (off n : Nat) : List Byte := (List.range' off n).map h.junk

/-- The call `malloc(size)`, as request number `i`. -/
def Heap.malloc (h : Heap) (i size : Nat) : Ptr :=
  if h.ok i size then Ptr.live (h.fresh 0 size) else Ptr.null

/-- The call `realloc(p, size)`, as request number `i`: on success the old
contents are kept up to the smaller of the two sizes; on failure NULL is
returned (and the old block stays allocated). -/
def Heap.realloc (h : Heap) (i : Nat) (p : Ptr) (size : Nat) : Ptr :=
  if h.ok i size then
    match p with
    | Ptr.live block => Ptr.live (block.take size ++ h.fresh block.length (size - block.length))
    | _ => Ptr.live (h.fresh 0 size)
  else Ptr.null

/-- The statement `if (ret.str != NULL) free(ret.str);` of the `error:` labels. -/
def free_str {σ : Type} (f : Frame σ) : Frame σ :=
  if f.ret.str = Ptr.null then f
  else { f with ret := { f.ret with str := Ptr.dangling }, trace := f.trace ++ [Event.free] }

/-- Conversion of an `int` bit pattern `g < 2 ^ 32` to `size_t` (64 bits):
sign extension. -/
def int_to_size_t (g : Nat) : Nat := if g < 2 ^ 31 then g else 2 ^ 64 - 2 ^ 32 + g

/-- Runs a loop body until it returns, for at most `fuel` passes. -/
def run_loop {α : Type} (body : α → Flow α) : Nat → α → Option α
  | 0, _ => none
  | fuel + 1, f =>
    match body f with
    | Flow.next g => run_loop body fuel g
    | Flow.done g => some g

/-- The frame before pass number `n` (from 0) of a loop started in `f`, if the
loop gets that far. -/
def reach {α : Type} (body : α → Flow α) : Nat → α → Option α
  | 0, f => some f
  | n + 1, f =>
    match body f with
    | Flow.next g => reach body n g
    | Flow.done _ => none

/-! ## `c_decompress` (lines 57-133) -/

/-- Label `error:` of `c_decompress`, lines 129-132. -/
def decompress_error {σ : Type} (f : Frame σ) (err : Int) : Frame σ :=
  let f := free_str f
  { f with ret := { f.ret with err := some (zlib_error f.zst err "while decompressing data") } }

/-- A call `inflateEnd(&zst)` whose status is dropped, then `goto error`. -/
def decompress_abort {σ : Type} (c : Codec σ) (f : Frame σ) (err : Int) : Frame σ :=
  let e := c.inflateEnd f.zst
  decompress_error { f with zst := e.2, trace := f.trace ++ [Event.finish e.1] } err

/-- Lines 62-70: the buffer and the stream handed to `inflateInit2`. -/
def decompress_setup {σ : Type} (h : Heap) (ret0 : ByteArray) (zst0 : z_stream σ)
    (input : List Byte) (length : Nat) : Frame σ :=
  let ret := { ret0 with len := DEFAULTALLOC }
  let ret := { ret with str := h.malloc 0 ret.len }
  let zst := { zst0 with avail_in := length, avail_out := DEFAULTALLOC,
                         next_out := ret.str.cursor 0, next_in := input }
  { ret := ret, zst := zst, nalloc := 1,
    trace := [Event.malloc DEFAULTALLOC (h.ok 0 DEFAULTALLOC)] }

/-- Lines 58-83: up to the first `inflate`. -/
def decompress_start {σ : Type} (c : Codec σ) (h : Heap) (ret0 : ByteArray) (zst0 : z_stream σ)
    (input : List Byte) (length : Nat) : Flow (Frame σ) :=
  let wsize := MAX_WBITS
  let f := decompress_setup h ret0 zst0 input length
  let r := c.inflateInit2 f.zst wsize
  let err := r.1
  let f := { f with zst := r.2, trace := f.trace ++ [Event.init err] }
  if err = Z_OK then Flow.next f
  else if err = Z_MEM_ERROR then Flow.done (decompress_error f err)
  else Flow.done (decompress_abort c f err)

/-- Lines 119-127: after the loop. -/
def decompress_finish {σ : Type} (c : Codec σ) (f : Frame σ) : Frame σ :=
  let e := c.inflateEnd f.zst
  let err := e.1
  let f := { f with zst := e.2, trace := f.trace ++ [Event.finish err] }
  if err ≠ Z_OK then decompress_error f err
  else { f with ret := { f.ret with len := f.zst.total_out % UINT_MOD, err := none } }

/-- Lines 103-112: double the buffer. -/
def decompress_grow {σ : Type} (c : Codec σ) (h : Heap) (f : Frame σ) (err : Int) :
    Flow (Frame σ) :=
  let size := (f.ret.len * 2) % UINT_MOD
  let str := h.realloc f.nalloc f.ret.str size
  let f := { f with ret := { f.ret with str := str }, nalloc := f.nalloc + 1,
                    trace := f.trace ++ [Event.realloc size (h.ok f.nalloc size)] }
  if str = Ptr.null then Flow.done (decompress_abort c f err)
  else
    let zst := { f.zst with next_out := str.cursor f.ret.len, avail_out := f.ret.len }
    Flow.next { f with zst := zst, ret := { f.ret with len := (f.ret.len * 2) % UINT_MOD } }

/-- Lines 86-117: one pass of the `do ... while`, followed by lines 119-127
when the pass leaves the loop. -/
def decompress_body {σ : Type} (c : Codec σ) (h : Heap) (f : Frame σ) : Flow (Frame σ) :=
  let r := c.inflate f.zst Z_FINISH
  let err := r.1
  let f := { f with zst := r.2.1, ret := { f.ret with str := f.ret.str.store f.zst.next_out r.2.2 },
                    trace := f.trace ++ [Event.step err] }
  if err = Z_STREAM_END then Flow.done (decompress_finish c f)
  else if err = Z_BUF_ERROR then
    if f.zst.avail_out > 0 then Flow.done (decompress_abort c f err)
    else decompress_grow c h f err
  else if err = Z_OK then decompress_grow c h f err
  else Flow.done (decompress_abort c f err)

/-- The function `c_decompress`, lines 57-133. -/
def c_decompress {σ : Type} (c : Codec σ) (h : Heap) (ret0 : ByteArray) (zst0 : z_stream σ)
    (input : List Byte) (length : Nat) (fuel : Nat) : Option (Frame σ) :=
  match decompress_start c h ret0 zst0 input length with
  | Flow.done f => some f
  | Flow.next f => run_loop (decompress_body c h) fuel f

/-- The frame of `c_decompress` before its `n`-th `inflate` (from 0). -/
def decompress_reach {σ : Type} (c : Codec σ) (h : Heap) (ret0 : ByteArray) (zst0 : z_stream σ)
    (input : List Byte) (length : Nat) (n : Nat) : Option (Frame σ) :=
  match decompress_start c h ret0 zst0 input length with
  | Flow.done _ => none
  | Flow.next f => reach (decompress_body c h) n f

/-! ## `c_compress` (lines 137-216) -/

/-- Label `error:` of `c_compress`, lines 213-215. -/
def compress_error {σ : Type} (f : Frame σ) : Frame σ := free_str f

/-- Lines 145-158: the buffer and the stream handed to `deflateInit`; `done`
when the `malloc` failed (lines 148-151). -/
def compress_setup {σ : Type} (h : Heap) (ret0 : ByteArray) (zst0 : z_stream σ)
    (input : List Byte) (length : Nat) : Flow (Frame σ) :=
  let zst := { zst0 with avail_out := (length + length / 1000 + 12 + 1) % UINT_MOD }
  let ret := { ret0 with str := h.malloc 0 zst.avail_out }
  let f : Frame σ := { ret := ret, zst := zst, nalloc := 1,
                       trace := [Event.malloc zst.avail_out (h.ok 0 zst.avail_out)] }
  if ret.str = Ptr.null then
    Flow.done (compress_error { f with ret := { ret with
      err := some (zlib_error zst Z_MEM_ERROR "Out of memory while compressing data.") } })
  else
    Flow.next { f with zst := { zst with next_out := ret.str.cursor 0, next_in := input,
                                         avail_in := length } }

/-- Lines 162-176 (and 261-275): the switch on the status of `deflateInit`. -/
def compress_init_switch {σ : Type} (c : Codec σ) (f : Frame σ) (err : Int) : Flow (Frame σ) :=
  if err = Z_OK then Flow.next f
  else if err = Z_MEM_ERROR then
    Flow.done (compress_error { f with ret := { f.ret with
      err := some (zlib_error f.zst err "Out of memory while compressing data") } })
  else if err = Z_STREAM_ERROR then
    Flow.done (compress_error { f with ret := { f.ret with
      err := some (zlib_error f.zst err "Bad compression level") } })
  else
    let e := c.deflateEnd f.zst
    let f := { f with zst := e.2, trace := f.trace ++ [Event.finish e.1] }
    Flow.done (compress_error { f with ret := { f.ret with
      err := some (zlib_error f.zst err "while compressing data") } })

/-- Lines 138-176: up to the `deflate`. -/
def compress_start {σ : Type} (c : Codec σ) (h : Heap) (ret0 : ByteArray) (zst0 : z_stream σ)
    (input : List Byte) (length : Nat) : Flow (Frame σ) :=
  let level := Z_DEFAULT_COMPRESSION
  match compress_setup h ret0 zst0 input length with
  | Flow.done f => Flow.done f
  | Flow.next f =>
    let r := c.deflateInit f.zst level
    compress_init_switch c { f with zst := r.2, trace := f.trace ++ [Event.init r.1] } r.1

/-- Lines 178-211: the single `deflate`, `deflateEnd` and the shrinking
`realloc`. -/
def compress_step {σ : Type} (c : Codec σ) (h : Heap) (f : Frame σ) : Frame σ :=
  let r := c.deflate f.zst Z_FINISH
  let err := r.1
  let f := { f with zst := r.2.1, ret := { f.ret with str := f.ret.str.store f.zst.next_out r.2.2 },
                    trace := f.trace ++ [Event.step err] }
  if err ≠ Z_STREAM_END then
    let f := { f with ret := { f.ret with err := some (zlib_error f.zst err "while compressing data") } }
    let e := c.deflateEnd f.zst
    compress_error { f with zst := e.2, trace := f.trace ++ [Event.finish e.1] }
  else
    let e := c.deflateEnd f.zst
    let err := e.1
    let f := { f with zst := e.2, trace := f.trace ++ [Event.finish err] }
    if err ≠ Z_OK then
      compress_error { f with ret := { f.ret with
        err := some (zlib_error f.zst err "while finishing compression") } }
    else
      { f with ret := { str := h.realloc f.nalloc f.ret.str f.zst.total_out,
                        len := f.zst.total_out % UINT_MOD, err := none },
               nalloc := f.nalloc + 1,
               trace := f.trace ++ [Event.realloc f.zst.total_out (h.ok f.nalloc f.zst.total_out)] }

/-- The function `c_compress`, lines 137-216. -/
def c_compress {σ : Type} (c : Codec σ) (h : Heap) (ret0 : ByteArray) (zst0 : z_stream σ)
    (input : List Byte) (length : Nat) : Frame σ :=
  match compress_start c h ret0 zst0 input length with
  | Flow.done f => f
  | Flow.next f => compress_step c h f

/-! ## `c_compress2` (lines 223-330) -/

/-- Label `error:` of `c_compress2`, lines 326-329. -/
def compress2_error {σ : Type} (f : Frame σ) (err : Int) : Frame σ :=
  let f := free_str f
  if f.ret.err = none then
    { f with ret := { f.ret with err := some (zlib_error f.zst err "while compressing data") } }
  else f

/-- A call `deflateEnd(&zst)` whose status is dropped, then `goto error`. -/
def compress2_abort {σ : Type} (c : Codec σ) (f : Frame σ) (err : Int) : Frame σ :=
  let e := c.deflateEnd f.zst
  compress2_error { f with zst := e.2, trace := f.trace ++ [Event.finish e.1] } err

/-- Lines 233-242: the initial size of the output buffer. -/
def compress2_initial (length : Nat) : Nat :=
  if length < DEFAULTALLOC then (length + length / 1000 + 12 + 1) % UINT_MOD
  else if length / 8 > DEFAULTALLOC then length / 8
  else DEFAULTALLOC

/-- Lines 233-255: the buffer and the stream handed to `deflateInit2`; `done`
when the `malloc` failed (lines 245-248). -/
def compress2_setup {σ : Type} (h : Heap) (ret0 : ByteArray) (zst0 : z_stream σ)
    (input : List Byte) (length : Nat) : Flow (Frame σ) :=
  let zst := { zst0 with avail_out := compress2_initial length }
  let ret := { ret0 with len := zst.avail_out }
  let ret := { ret with str := h.malloc 0 zst.avail_out }
  let f : Frame σ := { ret := ret, zst := zst, nalloc := 1,
                       trace := [Event.malloc zst.avail_out (h.ok 0 zst.avail_out)] }
  if ret.str = Ptr.null then
    Flow.done (compress2_error { f with ret := { ret with
      err := some (zlib_error zst Z_MEM_ERROR "Out of memory while compressing data.") } }
      Z_MEM_ERROR)
  else
    Flow.next { f with zst := { zst with next_out := ret.str.cursor 0, next_in := input,
                                         avail_in := length } }

/-- Lines 261-275: the switch on the status of `deflateInit2`; each failing
case sets `ret.err` itself before its `goto error`. -/
def compress2_init_switch {σ : Type} (c : Codec σ) (f : Frame σ) (err : Int) : Flow (Frame σ) :=
  if err = Z_OK then Flow.next f
  else if err = Z_MEM_ERROR then
    Flow.done (compress2_error { f with ret := { f.ret with
      err := some (zlib_error f.zst err "Out of memory while compressing data") } } err)
  else if err = Z_STREAM_ERROR then
    Flow.done (compress2_error { f with ret := { f.ret with
      err := some (zlib_error f.zst err "Bad compression level") } } err)
  else
    let e := c.deflateEnd f.zst
    let f := { f with zst := e.2, trace := f.trace ++ [Event.finish e.1] }
    Flow.done (compress2_error { f with ret := { f.ret with
      err := some (zlib_error f.zst err "while compressing data") } } err)

/-- Lines 224-275: up to the first `deflate`. -/
def compress2_start {σ : Type} (c : Codec σ) (h : Heap) (ret0 : ByteArray) (zst0 : z_stream σ)
    (input : List Byte) (length : Nat) : Flow (Frame σ) :=
  let level := Z_DEFAULT_COMPRESSION
  match compress2_setup h ret0 zst0 input length with
  | Flow.done f => Flow.done f
  | Flow.next f =>
    let r := c.deflateInit2 f.zst level Z_DEFLATED 15 8 Z_DEFAULT_STRATEGY
    compress2_init_switch c { f with zst := r.2, trace := f.trace ++ [Event.init r.1] } r.1

/-- Lines 314-324: after the loop. -/
def compress2_finish {σ : Type} (c : Codec σ) (h : Heap) (f : Frame σ) : Frame σ :=
  let e := c.deflateEnd f.zst
  let err := e.1
  let f := { f with zst := e.2, trace := f.trace ++ [Event.finish err] }
  if err ≠ Z_OK then compress2_error f err
  else
    { f with ret := { str := h.realloc f.nalloc f.ret.str f.zst.total_out,
                      len := f.zst.total_out % UINT_MOD, err := none },
             nalloc := f.nalloc + 1,
             trace := f.trace ++ [Event.realloc f.zst.total_out (h.ok f.nalloc f.zst.total_out)] }

/-- Lines 296-307: enlarge the buffer by `length/8`.  `grow` is an `int`: the
sum is taken modulo `2 ^ 32`, and `realloc` receives it converted to `size_t`. -/
def compress2_grow {σ : Type} (c : Codec σ) (h : Heap) (length : Nat) (f : Frame σ) (err : Int) :
    Flow (Frame σ) :=
  let grow := (f.ret.len + length / 8) % UINT_MOD
  let size := int_to_size_t grow
  let str := h.realloc f.nalloc f.ret.str size
  let f := { f with ret := { f.ret with str := str }, nalloc := f.nalloc + 1,
                    trace := f.trace ++ [Event.realloc size (h.ok f.nalloc size)] }
  if str = Ptr.null then Flow.done (compress2_abort c f err)
  else
    let zst := { f.zst with next_out := str.cursor f.ret.len,
                            avail_out := (grow + UINT_MOD - f.ret.len) % UINT_MOD }
    Flow.next { f with zst := zst, ret := { f.ret with len := grow } }

/-- Lines 278-312: one pass of the `do ... while`, followed by lines 314-324
when the pass leaves the loop. -/
def compress2_body {σ : Type} (c : Codec σ) (h : Heap) (length : Nat) (f : Frame σ) :
    Flow (Frame σ) :=
  let r := c.deflate f.zst Z_FINISH
  let err := r.1
  let f := { f with zst := r.2.1, ret := { f.ret with str := f.ret.str.store f.zst.next_out r.2.2 },
                    trace := f.trace ++ [Event.step err] }
  if err = Z_STREAM_END then Flow.done (compress2_finish c h f)
  else if err = Z_BUF_ERROR then
    if f.zst.avail_out > 0 then Flow.done (compress2_abort c f err)
    else compress2_grow c h length f err
  else if err = Z_OK then compress2_grow c h length f err
  else Flow.done (compress2_abort c f err)

/-- The function `c_compress2`, lines 223-330. -/
def c_compress2 {σ : Type} (c : Codec σ) (h : Heap) (ret0 : ByteArray) (zst0 : z_stream σ)
    (input : List Byte) (length : Nat) (fuel : Nat) : Option (Frame σ) :=
  match compress2_start c h ret0 zst0 input length with
  | Flow.done f => some f
  | Flow.next f => run_loop (compress2_body c h length) fuel f

/-- The frame of `c_compress2` before its `n`-th `deflate` (from 0). -/
def compress2_reach {σ : Type} (c : Codec σ) (h : Heap) (ret0 : ByteArray) (zst0 : z_stream σ)
    (input : List Byte) (length : Nat) (n : Nat) : Option (Frame σ) :=
  match compress2_start c h ret0 zst0 input length with
  | Flow.done _ => none
  | Flow.next f => reach (compress2_body c h length) n f

/-! ## Test doubles -/

/-- A codec double that forces status codes: every init returns `si`, every
step returns `ss` and stores nothing, every end returns `se`.  Init clears
`total_out` and the message, as zlib does. -/
def forcedCodec (si ss se : Int) : Codec Unit where
  inflateInit2 := fun z _ => (si, { z with total_out := 0, msg := none })
  inflate := fun z _ => (ss, z, [])
  inflateEnd := fun z => (se, z)
  deflateInit := fun z _ => (si, { z with total_out := 0, msg := none })
  deflateInit2 := fun z _ _ _ _ _ => (si, { z with total_out := 0, msg := none })
  deflate := fun z _ => (ss, z, [])
  deflateEnd := fun z => (se, z)

/-- A codec double that stores its input unchanged: the pending output is the
codec state, a step emits as much of it as `avail_out` allows and reports
`Z_STREAM_END` once nothing is pending, `Z_OK` (deflate) or `Z_BUF_ERROR`
(inflate) otherwise. -/
def storedCodec : Codec (List Byte) where
  inflateInit2 := fun z _ =>
    (Z_OK, { z with total_out := 0, msg := none, state := z.next_in.take z.avail_in })
  inflate := fun z _ =>
    let out := z.state.take z.avail_out
    (if z.state.length ≤ z.avail_out then Z_STREAM_END else Z_BUF_ERROR,
     { z with next_out := z.next_out.map (· + out.length), avail_out := z.avail_out - out.length,
              total_out := z.total_out + out.length, state := z.state.drop z.avail_out,
              next_in := [], avail_in := 0 },
     out)
  inflateEnd := fun z => (Z_OK, z)
  deflateInit := fun z _ =>
    (Z_OK, { z with total_out := 0, msg := none, state := z.next_in.take z.avail_in })
  deflateInit2 := fun z _ _ _ _ _ =>
    (Z_OK, { z with total_out := 0, msg := none, state := z.next_in.take z.avail_in })
  deflate := fun z _ =>
    let out := z.state.take z.avail_out
    (if z.state.length ≤ z.avail_out then Z_STREAM_END else Z_OK,
     { z with next_out := z.next_out.map (· + out.length), avail_out := z.avail_out - out.length,
              total_out := z.total_out + out.length, state := z.state.drop z.avail_out,
              next_in := [], avail_in := 0 },
     out)
  deflateEnd := fun z => (Z_OK, z)

/-- An allocator that grants every request and hands out zeroed bytes. -/
def Heap.always : Heap := { ok := fun _ _ => true, junk := fun _ => 0 }

/-- An allocator that refuses every request. -/
def Heap.never : Heap := { ok := fun _ _ => false, junk := fun _ => 0 }

/-- An allocator that grants the `malloc` and refuses every `realloc`. -/
def Heap.once : Heap := { ok := fun i _ => i == 0, junk := fun _ => 0 }

/-- An indeterminate `ByteArray` whose pointers happen to be NULL. -/
def ByteArray.zero : ByteArray := { str := Ptr.null, len := 0, err := none }

/-- An indeterminate `z_stream` whose fields happen to be zero. -/
def z_stream.zero {σ : Type} (s : σ) : z_stream σ :=
  { next_in := [], avail_in := 0, next_out := none, avail_out := 0, total_out := 0,
    msg := none, state := s }

/-- The bytes a result hands to the caller: `str[0:len]`. -/
def ByteArray.data (r : ByteArray) : List Byte :=
  match r.str with
  | Ptr.live block => block.take r.len
  | _ => []

/-! ## Traces -/

/-- Is the event a call of the codec's end operation? -/
def Event.isFinish : Event → Bool
  | Event.finish _ => true
  | _ => false

/-- Is the event a codec step? -/
def Event.isStep : Event → Bool
  | Event.step _ => true
  | _ => false

/-- Number of calls of the codec's end operation. -/
def ends (tr : List Event) : Nat := tr.countP Event.isFinish

/-- Number of codec steps. -/
def steps (tr : List Event) : Nat := tr.countP Event.isStep

/-- Number of codec steps made after (or without) the first call of end:
the trace from its first end event on is searched for steps. -/
def stepsAfterEnd (tr : List Event) : Nat :=
  (tr.dropWhile (fun e => !e.isFinish)).countP Event.isStep

/-- The trace `tr` extends `pre` by events that end with exactly one call of
the codec's end operation, followed by no further step. -/
def Closes (pre tr : List Event) : Prop :=
  ∃ t1 e t2, tr = pre ++ t1 ++ Event.finish e :: t2 ∧ ends t1 = 0 ∧ ends t2 = 0 ∧ steps t2 = 0

/-- The trace `tr` extends `pre` by events without a call of end. -/
def Extends (pre tr : List Event) : Prop :=
  ∃ t, tr = pre ++ t ∧ ends t = 0

/-- The bookkeeping of a codec on the counters `avail_out` and `total_out`, as
zlib documents it: init leaves `avail_out` alone and clears `total_out`, a
step lowers `avail_out` by exactly the number of bytes it adds to `total_out`,
and end leaves `total_out` alone. -/
structure Codec.Accounting {σ : Type} (c : Codec σ) : Prop where
  inflateInit2_counts : ∀ z w, (c.inflateInit2 z w).2.avail_out = z.avail_out ∧
    (c.inflateInit2 z w).2.total_out = 0
  deflateInit_counts : ∀ z l, (c.deflateInit z l).2.avail_out = z.avail_out ∧
    (c.deflateInit z l).2.total_out = 0
  deflateInit2_counts : ∀ z l m w v s, (c.deflateInit2 z l m w v s).2.avail_out = z.avail_out ∧
    (c.deflateInit2 z l m w v s).2.total_out = 0
  inflate_counts : ∀ z fl, (c.inflate z fl).2.1.avail_out ≤ z.avail_out ∧
    (c.inflate z fl).2.1.total_out = z.total_out + (z.avail_out - (c.inflate z fl).2.1.avail_out)
  deflate_counts : ∀ z fl, (c.deflate z fl).2.1.avail_out ≤ z.avail_out ∧
    (c.deflate z fl).2.1.total_out = z.total_out + (z.avail_out - (c.deflate z fl).2.1.avail_out)
  inflateEnd_counts : ∀ z, (c.inflateEnd z).2.total_out = z.total_out
  deflateEnd_counts : ∀ z, (c.deflateEnd z).2.total_out = z.total_out

/-- A step that returns OK has used up its output room, as zlib's steps do
when asked to finish. -/
def Codec.OkMeansFull {σ : Type} (c : Codec σ) : Prop :=
  (∀ z fl, (c.inflate z fl).1 = Z_OK → (c.inflate z fl).2.1.avail_out = 0) ∧
  (∀ z fl, (c.deflate z fl).1 = Z_OK → (c.deflate z fl).2.1.avail_out = 0)

/-- An allocator that grants exactly the requests below 2 GiB. -/
def Heap.below2G : Heap := { ok := fun _ n => decide (n < 2 ^ 31), junk := fun _ => 0 }

/-- The buffer of a frame is live, as large as `ret.len` says, below 2 GiB,
and large enough for what the stream has written and may still write. -/
def Frame.Fits {σ : Type} (f : Frame σ) : Prop :=
  (∃ block, f.ret.str = Ptr.live block) ∧ f.ret.str.cap = f.ret.len ∧ f.ret.len < 2 ^ 31 ∧
  f.zst.total_out + f.zst.avail_out ≤ f.ret.len

/-- The buffer of a frame is live, as large as `ret.len` says, below 2 GiB,
and exactly as large as what the stream has written and may still write. -/
def Frame.FitsExactly {σ : Type} (f : Frame σ) : Prop :=
  (∃ block, f.ret.str = Ptr.live block) ∧ f.ret.str.cap = f.ret.len ∧ f.ret.len < 2 ^ 31 ∧
  f.zst.total_out + f.zst.avail_out = f.ret.len

/-- A codec whose inflate inverts its deflate and whose steps write only at
the output cursor, within the room `avail_out` declares.  `enc` is the
compressed form of an input; `dpend z` and `ipend z` are the bytes a deflate
or inflate stream `z` has still to put out when asked to finish.

* the compressed form is no longer than the bound `c_compress` allocates;
* init succeeds, leaves the output cursor and `avail_out` alone, clears
  `total_out`, and the stream then has `enc` of its input (deflate), or the
  `b` whose `enc` is its input (inflate), to put out;
* a step stores the next `avail_out` pending bytes, or all of them if fewer,
  counts them in `avail_out` and `total_out`, and returns stream-ended when
  nothing is left pending, OK or buffer-error otherwise;
* end returns OK on a finished stream and leaves `total_out` alone;
* what is pending does not depend on where the output cursor points. -/
structure Codec.Lawful {σ : Type} (c : Codec σ) (enc : List Byte → List Byte)
    (dpend ipend : z_stream σ → List Byte) : Prop where
  enc_bound : ∀ b, (enc b).length ≤ b.length + b.length / 1000 + 13
  deflateInit_ok : ∀ z,
    (c.deflateInit z Z_DEFAULT_COMPRESSION).1 = Z_OK ∧
    dpend (c.deflateInit z Z_DEFAULT_COMPRESSION).2 = enc (z.next_in.take z.avail_in) ∧
    (c.deflateInit z Z_DEFAULT_COMPRESSION).2.avail_out = z.avail_out ∧
    (c.deflateInit z Z_DEFAULT_COMPRESSION).2.next_out = z.next_out ∧
    (c.deflateInit z Z_DEFAULT_COMPRESSION).2.total_out = 0
  deflateInit2_ok : ∀ z,
    (c.deflateInit2 z Z_DEFAULT_COMPRESSION Z_DEFLATED 15 8 Z_DEFAULT_STRATEGY).1 = Z_OK ∧
    dpend (c.deflateInit2 z Z_DEFAULT_COMPRESSION Z_DEFLATED 15 8 Z_DEFAULT_STRATEGY).2
      = enc (z.next_in.take z.avail_in) ∧
    (c.deflateInit2 z Z_DEFAULT_COMPRESSION Z_DEFLATED 15 8 Z_DEFAULT_STRATEGY).2.avail_out
      = z.avail_out ∧
    (c.deflateInit2 z Z_DEFAULT_COMPRESSION Z_DEFLATED 15 8 Z_DEFAULT_STRATEGY).2.next_out
      = z.next_out ∧
    (c.deflateInit2 z Z_DEFAULT_COMPRESSION Z_DEFLATED 15 8 Z_DEFAULT_STRATEGY).2.total_out = 0
  deflate_ok : ∀ z,
    (c.deflate z Z_FINISH).2.2 = (dpend z).take z.avail_out ∧
    dpend (c.deflate z Z_FINISH).2.1 = (dpend z).drop z.avail_out ∧
    (c.deflate z Z_FINISH).2.1.avail_out = z.avail_out - (c.deflate z Z_FINISH).2.2.length ∧
    (c.deflate z Z_FINISH).2.1.total_out = z.total_out + (c.deflate z Z_FINISH).2.2.length ∧
    ((dpend z).length ≤ z.avail_out → (c.deflate z Z_FINISH).1 = Z_STREAM_END) ∧
    (z.avail_out < (dpend z).length →
      (c.deflate z Z_FINISH).1 = Z_OK ∨ (c.deflate z Z_FINISH).1 = Z_BUF_ERROR)
  deflateEnd_ok : ∀ z, dpend z = [] →
    (c.deflateEnd z).1 = Z_OK ∧ (c.deflateEnd z).2.total_out = z.total_out
  inflateInit2_ok : ∀ z b, z.next_in.take z.avail_in = enc b →
    (c.inflateInit2 z MAX_WBITS).1 = Z_OK ∧
    ipend (c.inflateInit2 z MAX_WBITS).2 = b ∧
    (c.inflateInit2 z MAX_WBITS).2.avail_out = z.avail_out ∧
    (c.inflateInit2 z MAX_WBITS).2.next_out = z.next_out ∧
    (c.inflateInit2 z MAX_WBITS).2.total_out = 0
  inflate_ok : ∀ z,
    (c.inflate z Z_FINISH).2.2 = (ipend z).take z.avail_out ∧
    ipend (c.inflate z Z_FINISH).2.1 = (ipend z).drop z.avail_out ∧
    (c.inflate z Z_FINISH).2.1.avail_out = z.avail_out - (c.inflate z Z_FINISH).2.2.length ∧
    (c.inflate z Z_FINISH).2.1.total_out = z.total_out + (c.inflate z Z_FINISH).2.2.length ∧
    ((ipend z).length ≤ z.avail_out → (c.inflate z Z_FINISH).1 = Z_STREAM_END) ∧
    (z.avail_out < (ipend z).length →
      (c.inflate z Z_FINISH).1 = Z_OK ∨ (c.inflate z Z_FINISH).1 = Z_BUF_ERROR)
  inflateEnd_ok : ∀ z, ipend z = [] →
    (c.inflateEnd z).1 = Z_OK ∧ (c.inflateEnd z).2.total_out = z.total_out
  pend_cursor : ∀ z (cur : Option Nat) (room : Nat),
    dpend { z with next_out := cur, avail_out := room } = dpend z ∧
    ipend { z with next_out := cur, avail_out := room } = ipend z

/-- The buffer of a frame holds the first `total_out` bytes of `data`, the
cursor stands right behind them with `avail_out` bytes of room up to the end
of the buffer, and `pend`, the rest of `data`, is still to come. -/
def Frame.Holds {σ : Type} (f : Frame σ) (data pend : List Byte) : Prop :=
  ∃ block, f.ret.str = Ptr.live block ∧
    f.zst.next_out = some f.zst.total_out ∧
    f.zst.total_out + f.zst.avail_out = block.length ∧
    block.take f.zst.total_out = data.take f.zst.total_out ∧
    pend = data.drop f.zst.total_out ∧ f.zst.total_out ≤ data.length ∧
    0 < f.zst.avail_out


/-- The three branches of the initial-size policy of `c_compress2`, lines
233-242. -/
inductive SizeClass where
  | worst_case
  | eighth
  | default_chunk
deriving DecidableEq, Repr

/-- Lines 233, 236 and 239: the branch of the initial-size policy that an
input length selects. -/
def compress2_branch (length : Nat) : SizeClass :=
  if length < DEFAULTALLOC then SizeClass.worst_case
  else if length / 8 > DEFAULTALLOC then SizeClass.eighth
  else SizeClass.default_chunk

/-- The bound the worst-case size is compared with, as the specification
states it: zlib's documented `compressBound(sourceLen) = sourceLen +
(sourceLen >> 12) + (sourceLen >> 14) + (sourceLen >> 25) + 13`.  It is a
function of zlib, not of `fastzlib.c`, and is computed in 64-bit `uLong`, where
it does not wrap for a 32-bit `sourceLen`. -/
def compressBound (sourceLen : Nat) : Nat :=
  sourceLen + (sourceLen >>> 12) + (sourceLen >>> 14) + (sourceLen >>> 25) + 13

/-- The inflate side of a codec that stores what it counts: `inflateInit2`
leaves the output cursor alone, and a step stores exactly as many bytes as it
takes from `avail_out`. -/
structure Codec.InflateStores {σ : Type} (c : Codec σ) : Prop where
  init_cursor : ∀ z w, (c.inflateInit2 z w).2.next_out = z.next_out
  step_stored : ∀ z fl,
    (c.inflate z fl).2.2.length = z.avail_out - (c.inflate z fl).2.1.avail_out

/-- The output chunks of the first `n` passes of the `c_decompress` loop
started in `f`, concatenated in order: what each `inflate` stored. -/
def decompress_chunks {σ : Type} (c : Codec σ) (h : Heap) : Nat → Frame σ → List Byte
  | 0, _ => []
  | n + 1, f =>
    (c.inflate f.zst Z_FINISH).2.2 ++
      match decompress_body c h f with
      | Flow.next g => decompress_chunks c h n g
      | Flow.done _ => []

/-- The output chunks of the first `n` calls of `inflate` in a run of
`c_decompress`, concatenated in order. -/
def decompress_written {σ : Type} (c : Codec σ) (h : Heap) (ret0 : ByteArray)
    (zst0 : z_stream σ) (input : List Byte) (length : Nat) (n : Nat) : List Byte :=
  match decompress_start c h ret0 zst0 input length with
  | Flow.done _ => []
  | Flow.next f => decompress_chunks c h n f

/-- The buffer of a frame is live and `ret.len` bytes long, its first
`total_out` bytes are `acc`, and the cursor stands right behind them with
`avail_out` bytes of room up to the end of the buffer. -/
def Frame.Wrote {σ : Type} (f : Frame σ) (acc : List Byte) : Prop :=
  ∃ block, f.ret.str = Ptr.live block ∧ block.length = f.ret.len ∧
    f.zst.next_out = some f.zst.total_out ∧
    f.zst.total_out + f.zst.avail_out = f.ret.len ∧
    block.take f.zst.total_out = acc

/-- A codec double that never runs out of output: every step fills the room it
is given with zero bytes and asks for more (`inflate` with buffer-error,
`deflate` with OK). -/
def fillCodec : Codec Unit where
  inflateInit2 := fun z _ => (Z_OK, { z with total_out := 0, msg := none })
  inflate := fun z _ =>
    (Z_BUF_ERROR,
     { z with next_out := z.next_out.map (· + z.avail_out), avail_out := 0,
              total_out := z.total_out + z.avail_out },
     List.replicate z.avail_out 0)
  inflateEnd := fun z => (Z_OK, z)
  deflateInit := fun z _ => (Z_OK, { z with total_out := 0, msg := none })
  deflateInit2 := fun z _ _ _ _ _ => (Z_OK, { z with total_out := 0, msg := none })
  deflate := fun z _ =>
    (Z_OK,
     { z with next_out := z.next_out.map (· + z.avail_out), avail_out := 0,
              total_out := z.total_out + z.avail_out },
     List.replicate z.avail_out 0)
  deflateEnd := fun z => (Z_OK, z)

/-! ## `zlib_error` with its message buffer -/

/-- An allocator that refuses the first request of a call and grants every
later one. -/
def Heap.after_first : Heap := { ok := fun i _ => i != 0, junk := fun _ => 0 }

/-- The function `zlib_error`, lines 21-53, with its message buffer.  Both
branches format into `malloc(ERRMSG_MAX)` (lines 44 and 48), request number `i`
of the enclosing call, and neither checks it: when the request is refused
`snprintf` is handed NULL, which is undefined, and the call has no result
(`none`); when it is granted the result is the buffer with the formatted
text. -/
def zlib_error_alloc {σ : Type} (h : Heap) (i : Nat) (zst : z_stream σ) (err : Int)
    (msg : String) : Option String :=
  let errmsg : Option String := none
  let errmsg := if err = Z_VERSION_ERROR then some "library version mismatch" else errmsg
  let errmsg := if errmsg = none then zst.msg else errmsg
  let errmsg :=
    if errmsg = none then
      if err = Z_BUF_ERROR then some "incomplete or truncated stream"
      else if err = Z_STREAM_ERROR then some "inconsistent stream state"
      else if err = Z_DATA_ERROR then some "invalid input data"
      else errmsg
    else errmsg
  match errmsg with
  | none =>
    let buf := h.malloc i ERRMSG_MAX
    if buf = Ptr.null then none
    else some (snprintf ERRMSG_MAX ("Error: " ++ fmt_d err ++ " " ++ msg))
  | some orig =>
    let buf := h.malloc i ERRMSG_MAX
    if buf = Ptr.null then none
    else some (snprintf ERRMSG_MAX ("Error " ++ fmt_d err ++ " " ++ msg ++ ": " ++ orig))
/-! ## `zlib_error` -/

theorem snprintf_of_le (size : Nat) (s : String) (h : s.length ≤ size - 1) :
    snprintf size s = s := by
  unfold snprintf
  apply String.ext
  simp only
  exact List.take_of_length_le h

theorem snprintf_length (size : Nat) (s : String) : (snprintf size s).length ≤ size - 1 := by
  unfold snprintf
  show (List.take (size - 1) s.data).length ≤ size - 1
  rw [List.length_take]
  exact Nat.min_le_left _ _

theorem snprintf_append (size : Nat) (s t : String) (h : s.length ≤ size - 1) :
    (snprintf size (s ++ t)).data = s.data ++ t.data.take (size - 1 - s.length) := by
  unfold snprintf
  simp only [String.data_append, List.take_append_eq_append_take]
  congr 1
  exact List.take_of_length_le h

theorem fmt_d_length (n : Int) (hlo : -(2 : Int) ^ 31 ≤ n) (hhi : n < (2 : Int) ^ 31) :
    (fmt_d n).length ≤ 11 := by
  unfold fmt_d
  cases n with
  | ofNat m =>
    have hm : m < 10 ^ 10 := by
      have : (m : Int) < 2 ^ 31 := hhi
      omega
    have := Nat.repr_length m 10 (by decide) hm
    show (Nat.repr m).length ≤ 11
    omega
  | negSucc m =>
    have hm : m + 1 < 10 ^ 10 := by
      have : -(2 : Int) ^ 31 ≤ Int.negSucc m := hlo
      have h2 : Int.negSucc m = -((m : Int) + 1) := rfl
      omega
    have := Nat.repr_length (m + 1) 10 (by decide) hm
    show ("-" ++ Nat.repr (m + 1)).length ≤ 11
    rw [String.length_append]
    have : "-".length = 1 := by decide
    omega

/-- The text `zlib_error` formats, before `snprintf` cuts it. -/
theorem zlib_error_eq {σ : Type} (zst : z_stream σ) (err : Int) (msg : String) :
    zlib_error zst err msg =
      if err = Z_VERSION_ERROR then
        snprintf ERRMSG_MAX ("Error " ++ fmt_d err ++ " " ++ msg ++ ": " ++ "library version mismatch")
      else match zst.msg with
        | some m => snprintf ERRMSG_MAX ("Error " ++ fmt_d err ++ " " ++ msg ++ ": " ++ m)
        | none =>
          if err = Z_BUF_ERROR then
            snprintf ERRMSG_MAX ("Error " ++ fmt_d err ++ " " ++ msg ++ ": " ++ "incomplete or truncated stream")
          else if err = Z_STREAM_ERROR then
            snprintf ERRMSG_MAX ("Error " ++ fmt_d err ++ " " ++ msg ++ ": " ++ "inconsistent stream state")
          else if err = Z_DATA_ERROR then
            snprintf ERRMSG_MAX ("Error " ++ fmt_d err ++ " " ++ msg ++ ": " ++ "invalid input data")
          else snprintf ERRMSG_MAX ("Error: " ++ fmt_d err ++ " " ++ msg) := by
  unfold zlib_error
  by_cases hv : err = Z_VERSION_ERROR
  · simp [hv]
  · cases hm : zst.msg with
    | some m => simp [hv, hm]
    | none =>
      by_cases hb : err = Z_BUF_ERROR
      · subst hb
        simp [hm, Z_VERSION_ERROR, Z_BUF_ERROR]
      · by_cases hs : err = Z_STREAM_ERROR
        · subst hs
          simp [hm, Z_VERSION_ERROR, Z_BUF_ERROR, Z_STREAM_ERROR]
        · by_cases hd : err = Z_DATA_ERROR
          · subst hd
            simp [hm, Z_VERSION_ERROR, Z_BUF_ERROR, Z_STREAM_ERROR, Z_DATA_ERROR]
          · simp [hv, hm, hb, hs, hd]
/-- In every case `zlib_error` formats `"Error"`, then `" "` or `": "`, then
the code, then more text. -/
theorem zlib_error_form {σ : Type} (zst : z_stream σ) (err : Int) (msg : String) :
    ∃ sep rest : String, (sep = " " ∨ sep = ": ") ∧
      zlib_error zst err msg = snprintf ERRMSG_MAX (("Error" ++ sep ++ fmt_d err) ++ rest) := by
  rw [zlib_error_eq]
  split
  · exact ⟨" ", " " ++ msg ++ ": " ++ "library version mismatch", Or.inl rfl, by
      simp only [String.append_assoc]; rfl⟩
  · split
    · rename_i m _
      exact ⟨" ", " " ++ msg ++ ": " ++ m, Or.inl rfl, by simp only [String.append_assoc]; rfl⟩
    · split
      · exact ⟨" ", " " ++ msg ++ ": " ++ "incomplete or truncated stream", Or.inl rfl, by
          simp only [String.append_assoc]; rfl⟩
      · split
        · exact ⟨" ", " " ++ msg ++ ": " ++ "inconsistent stream state", Or.inl rfl, by
            simp only [String.append_assoc]; rfl⟩
        · split
          · exact ⟨" ", " " ++ msg ++ ": " ++ "invalid input data", Or.inl rfl, by
              simp only [String.append_assoc]; rfl⟩
          · exact ⟨": ", " " ++ msg, Or.inr rfl, by simp only [String.append_assoc]; rfl⟩

/-- C3: for every status code, context phrase and codec message, whenever the
formatted text fits in 2047 bytes, `zlib_error` returns
"Error <code> <context>: library version mismatch" for the version-mismatch
code whatever the codec message is; otherwise
"Error <code> <context>: <codec message>" when the codec carries a message;
otherwise "Error <code> <context>: <text>" with the fixed text of buffer-error,
stream-state-error or data-error; otherwise "Error: <code> <context>". -/
theorem zlib_error_priority {σ : Type} (zst : z_stream σ) (err : Int) (msg : String) :
    (err = Z_VERSION_ERROR →
      ("Error " ++ fmt_d err ++ " " ++ msg ++ ": " ++ "library version mismatch").length ≤ 2047 →
      zlib_error zst err msg
        = "Error " ++ fmt_d err ++ " " ++ msg ++ ": " ++ "library version mismatch") ∧
    (∀ m : String, err ≠ Z_VERSION_ERROR → zst.msg = some m →
      ("Error " ++ fmt_d err ++ " " ++ msg ++ ": " ++ m).length ≤ 2047 →
      zlib_error zst err msg = "Error " ++ fmt_d err ++ " " ++ msg ++ ": " ++ m) ∧
    (zst.msg = none → err = Z_BUF_ERROR →
      ("Error " ++ fmt_d err ++ " " ++ msg ++ ": " ++ "incomplete or truncated stream").length ≤ 2047 →
      zlib_error zst err msg
        = "Error " ++ fmt_d err ++ " " ++ msg ++ ": " ++ "incomplete or truncated stream") ∧
    (zst.msg = none → err = Z_STREAM_ERROR →
      ("Error " ++ fmt_d err ++ " " ++ msg ++ ": " ++ "inconsistent stream state").length ≤ 2047 →
      zlib_error zst err msg
        = "Error " ++ fmt_d err ++ " " ++ msg ++ ": " ++ "inconsistent stream state") ∧
    (zst.msg = none → err = Z_DATA_ERROR →
      ("Error " ++ fmt_d err ++ " " ++ msg ++ ": " ++ "invalid input data").length ≤ 2047 →
      zlib_error zst err msg
        = "Error " ++ fmt_d err ++ " " ++ msg ++ ": " ++ "invalid input data") ∧
    (zst.msg = none → err ≠ Z_VERSION_ERROR → err ≠ Z_BUF_ERROR → err ≠ Z_STREAM_ERROR →
      err ≠ Z_DATA_ERROR →
      ("Error: " ++ fmt_d err ++ " " ++ msg).length ≤ 2047 →
      zlib_error zst err msg = "Error: " ++ fmt_d err ++ " " ++ msg) := by
  refine ⟨?_, ?_, ?_, ?_, ?_, ?_⟩
  · intro hv hfit
    rw [zlib_error_eq, if_pos hv]
    exact snprintf_of_le _ _ hfit
  · intro m hv hm hfit
    rw [zlib_error_eq, if_neg hv, hm]
    exact snprintf_of_le _ _ hfit
  · intro hm he hfit
    subst he
    rw [zlib_error_eq, if_neg (by decide), hm]
    simp only [if_true]
    exact snprintf_of_le _ _ hfit
  · intro hm he hfit
    subst he
    rw [zlib_error_eq, if_neg (by decide), hm]
    simp only [if_true]
    rw [if_neg (by decide)]
    exact snprintf_of_le _ _ hfit
  · intro hm he hfit
    subst he
    rw [zlib_error_eq, if_neg (by decide), hm]
    simp only [if_true]
    rw [if_neg (by decide), if_neg (by decide)]
    exact snprintf_of_le _ _ hfit
  · intro hm hv hb hs hd hfit
    rw [zlib_error_eq, if_neg hv, hm]
    simp only [if_neg hb, if_neg hs, if_neg hd]
    exact snprintf_of_le _ _ hfit

/-- Witness of C3: one concrete call for each of the six cases. -/
theorem zlib_error_priority_witness :
    zlib_error ({ z_stream.zero () with msg := some "bad header" }) Z_VERSION_ERROR "while compressing data"
        = "Error -6 while compressing data: library version mismatch" ∧
    zlib_error ({ z_stream.zero () with msg := some "invalid stored block lengths" }) Z_DATA_ERROR
        "while decompressing data"
        = "Error -3 while decompressing data: invalid stored block lengths" ∧
    zlib_error (z_stream.zero ()) Z_BUF_ERROR "while decompressing data"
        = "Error -5 while decompressing data: incomplete or truncated stream" ∧
    zlib_error (z_stream.zero ()) Z_STREAM_ERROR "Bad compression level"
        = "Error -2 Bad compression level: inconsistent stream state" ∧
    zlib_error (z_stream.zero ()) Z_DATA_ERROR "while decompressing data"
        = "Error -3 while decompressing data: invalid input data" ∧
    zlib_error (z_stream.zero ()) Z_MEM_ERROR "Out of memory while compressing data"
        = "Error: -4 Out of memory while compressing data" :=
  ⟨(zlib_error_priority _ Z_VERSION_ERROR "while compressing data").1 rfl (by decide),
   (zlib_error_priority ({ z_stream.zero () with msg := some "invalid stored block lengths" })
      Z_DATA_ERROR "while decompressing data").2.1 "invalid stored block lengths"
      (by decide) rfl (by decide),
   (zlib_error_priority (z_stream.zero ()) Z_BUF_ERROR "while decompressing data").2.2.1
      rfl rfl (by decide),
   (zlib_error_priority (z_stream.zero ()) Z_STREAM_ERROR "Bad compression level").2.2.2.1
      rfl rfl (by decide),
   (zlib_error_priority (z_stream.zero ()) Z_DATA_ERROR "while decompressing data").2.2.2.2.1
      rfl rfl (by decide),
   (zlib_error_priority (z_stream.zero ()) Z_MEM_ERROR
      "Out of memory while compressing data").2.2.2.2.2
      rfl (by decide) (by decide) (by decide) (by decide) (by decide)⟩

/-- The text of `zlib_error`: for every `int` status code, every codec message
and every context phrase, it is a non-empty string of at most 2047 bytes that
begins with "Error" and contains the decimal rendering of the code, and that
is not the decimal rendering alone. -/
theorem zlib_error_shape {σ : Type} (zst : z_stream σ) (err : Int) (msg : String)
    (hlo : -(2 : Int) ^ 31 ≤ err) (hhi : err < (2 : Int) ^ 31) :
    zlib_error zst err msg ≠ "" ∧
    (zlib_error zst err msg).length ≤ 2047 ∧
    (zlib_error zst err msg).data.take 5 = "Error".data ∧
    (∃ pre post : List Char, (zlib_error zst err msg).data = pre ++ (fmt_d err).data ++ post) ∧
    zlib_error zst err msg ≠ fmt_d err := by
  obtain ⟨sep, rest, hsep, hz⟩ := zlib_error_form zst err msg
  have hd := fmt_d_length err hlo hhi
  have hseplen : sep.length ≤ 2 := by
    rcases hsep with h | h <;> subst h <;> decide
  have hhead : ("Error" ++ sep ++ fmt_d err).length ≤ ERRMSG_MAX - 1 := by
    rw [String.length_append, String.length_append]
    have : "Error".length = 5 := by decide
    have : ERRMSG_MAX = 2048 := by decide
    omega
  have hdata := snprintf_append ERRMSG_MAX ("Error" ++ sep ++ fmt_d err) rest hhead
  rw [← hz] at hdata
  simp only [String.data_append] at hdata
  have hlen : (zlib_error zst err msg).length
      = 5 + sep.length + (fmt_d err).length
        + (rest.data.take (ERRMSG_MAX - 1 - ("Error" ++ sep ++ fmt_d err).length)).length := by
    show (zlib_error zst err msg).data.length = _
    rw [hdata]
    simp only [List.length_append]
    rfl
  refine ⟨?_, ?_, ?_, ?_, ?_⟩
  · intro h
    rw [h] at hlen
    have : ("" : String).length = 0 := rfl
    omega
  · rw [hz]
    exact snprintf_length _ _
  · rw [hdata]
    simp only [List.append_assoc]
    rfl
  · exact ⟨"Error".data ++ sep.data, _, hdata⟩
  · intro h
    rw [h] at hlen
    omega

/-- An instance: the text for `INT_MIN` with a long context. -/
theorem zlib_error_shape_witness :
    zlib_error (z_stream.zero ()) (-2147483648) "while decompressing data" ≠ "" ∧
    (zlib_error (z_stream.zero ()) (-2147483648) "while decompressing data").length ≤ 2047 ∧
    (zlib_error (z_stream.zero ()) (-2147483648) "while decompressing data").data.take 5
      = "Error".data ∧
    (∃ pre post : List Char,
      (zlib_error (z_stream.zero ()) (-2147483648) "while decompressing data").data
        = pre ++ (fmt_d (-2147483648)).data ++ post) ∧
    zlib_error (z_stream.zero ()) (-2147483648) "while decompressing data" ≠ fmt_d (-2147483648) :=
  zlib_error_shape (z_stream.zero ()) (-2147483648) "while decompressing data"
    (by norm_num) (by norm_num)

/-! ## Traces: lemmas -/

theorem ends_append (a b : List Event) : ends (a ++ b) = ends a + ends b := by
  simp [ends]

theorem stepsAfterEnd_append_of_ends_zero (a b : List Event) (h : ends a = 0) :
    stepsAfterEnd (a ++ b) = stepsAfterEnd b := by
  induction a with
  | nil => rfl
  | cons x xs ih =>
    unfold ends at h
    rw [List.countP_cons] at h
    have hx : x.isFinish = false := by
      cases hh : x.isFinish
      · rfl
      · rw [hh] at h; simp at h
    have hxs : ends xs = 0 := by unfold ends; omega
    show stepsAfterEnd (x :: (xs ++ b)) = _
    unfold stepsAfterEnd
    rw [List.dropWhile_cons_of_pos (by simp [hx])]
    exact ih hxs

theorem stepsAfterEnd_finish (e : Int) (b : List Event) :
    stepsAfterEnd (Event.finish e :: b) = steps b := by
  unfold stepsAfterEnd steps
  rw [List.dropWhile_cons_of_neg (by simp [Event.isFinish])]
  simp [Event.isStep]

/-! ## Loops -/

theorem run_loop_inv {α : Type} (body : α → Flow α) (I Q : α → Prop)
    (hnext : ∀ f g, I f → body f = Flow.next g → I g)
    (hdone : ∀ f g, I f → body f = Flow.done g → Q g) :
    ∀ (fuel : Nat) (f out : α), I f → run_loop body fuel f = some out → Q out := by
  intro fuel
  induction fuel with
  | zero => intro f out _ h; simp [run_loop] at h
  | succ n ih =>
    intro f out hI h
    unfold run_loop at h
    cases hb : body f with
    | next g =>
      rw [hb] at h
      exact ih g out (hnext f g hI hb) h
    | done g =>
      rw [hb] at h
      simp only [Option.some.injEq] at h
      subst h
      exact hdone f g hI hb

theorem reach_inv {α : Type} (body : α → Flow α) (I : α → Prop)
    (hnext : ∀ f g, I f → body f = Flow.next g → I g) :
    ∀ (n : Nat) (f g : α), I f → reach body n f = some g → I g := by
  intro n
  induction n with
  | zero =>
    intro f g hI h
    simp only [reach, Option.some.injEq] at h
    subst h
    exact hI
  | succ n ih =>
    intro f g hI h
    unfold reach at h
    cases hb : body f with
    | next k =>
      rw [hb] at h
      exact ih k g (hnext f k hI hb) h
    | done k =>
      rw [hb] at h
      simp at h

theorem run_loop_of_reach {α : Type} (body : α → Flow α) :
    ∀ (n : Nat) (f g : α), reach body n f = some g →
      ∀ k, run_loop body (n + k) f = run_loop body k g := by
  intro n
  induction n with
  | zero =>
    intro f g h k
    simp only [reach, Option.some.injEq] at h
    subst h
    simp
  | succ n ih =>
    intro f g h k
    unfold reach at h
    cases hb : body f with
    | next m =>
      rw [hb] at h
      have : n + 1 + k = (n + k) + 1 := by omega
      rw [this]
      show (match body f with
        | Flow.next g => run_loop body (n + k) g
        | Flow.done g => some g) = _
      rw [hb]
      exact ih m g h k
    | done m =>
      rw [hb] at h
      simp at h

/-! ## Traces of the three operations -/

theorem free_str_trace {σ : Type} (f : Frame σ) :
    ∃ t, (free_str f).trace = f.trace ++ t ∧ (t = [] ∨ t = [Event.free]) := by
  unfold free_str
  split
  · exact ⟨[], by simp, Or.inl rfl⟩
  · exact ⟨[Event.free], rfl, Or.inr rfl⟩

theorem decompress_error_trace {σ : Type} (f : Frame σ) (err : Int) :
    ∃ t, (decompress_error f err).trace = f.trace ++ t ∧ ends t = 0 ∧ steps t = 0 := by
  unfold decompress_error
  obtain ⟨t, ht, ht2⟩ := free_str_trace f
  refine ⟨t, ht, ?_⟩
  rcases ht2 with rfl | rfl <;> exact ⟨rfl, rfl⟩

theorem decompress_abort_trace {σ : Type} (c : Codec σ) (f : Frame σ) (err : Int) :
    ∃ e t, (decompress_abort c f err).trace = f.trace ++ Event.finish e :: t
      ∧ ends t = 0 ∧ steps t = 0 := by
  unfold decompress_abort
  obtain ⟨t, ht, h1, h2⟩ := decompress_error_trace
    { f with zst := (c.inflateEnd f.zst).2,
             trace := f.trace ++ [Event.finish (c.inflateEnd f.zst).1] } err
  refine ⟨(c.inflateEnd f.zst).1, t, ?_, h1, h2⟩
  simp only at ht ⊢
  rw [ht]
  simp

theorem decompress_finish_trace {σ : Type} (c : Codec σ) (f : Frame σ) :
    ∃ e t, (decompress_finish c f).trace = f.trace ++ Event.finish e :: t
      ∧ ends t = 0 ∧ steps t = 0 := by
  unfold decompress_finish
  simp only
  split
  · obtain ⟨t, ht, h1, h2⟩ := decompress_error_trace
      { f with zst := (c.inflateEnd f.zst).2,
               trace := f.trace ++ [Event.finish (c.inflateEnd f.zst).1] } (c.inflateEnd f.zst).1
    refine ⟨(c.inflateEnd f.zst).1, t, ?_, h1, h2⟩
    rw [ht]
    simp
  · exact ⟨(c.inflateEnd f.zst).1, [], by simp, rfl, rfl⟩
theorem Closes.ends_one {pre tr : List Event} (h : Closes pre tr) (hp : ends pre = 0) :
    ends tr = 1 ∧ stepsAfterEnd tr = 0 := by
  obtain ⟨t1, e, t2, rfl, h1, h2, h3⟩ := h
  constructor
  · rw [ends_append, ends_append, hp, h1]
    show 0 + 0 + ends ([Event.finish e] ++ t2) = 1
    rw [ends_append, h2]
    rfl
  · rw [stepsAfterEnd_append_of_ends_zero _ _ (by rw [ends_append, hp, h1]),
      stepsAfterEnd_finish, h3]

theorem Closes.of_append {pre t tr : List Event} (h : Closes (pre ++ t) tr) (ht : ends t = 0) :
    Closes pre tr := by
  obtain ⟨t1, e, t2, rfl, h1, h2, h3⟩ := h
  exact ⟨t ++ t1, e, t2, by simp, by rw [ends_append, ht, h1], h2, h3⟩

theorem Closes.of_tail {pre tr : List Event} (e : Int) (t : List Event)
    (h : tr = pre ++ Event.finish e :: t) (h1 : ends t = 0) (h2 : steps t = 0) :
    Closes pre tr :=
  ⟨[], e, t, by simp [h], rfl, h1, h2⟩

theorem Extends.ends_zero {pre tr : List Event} (h : Extends pre tr) (hp : ends pre = 0) :
    ends tr = 0 := by
  obtain ⟨t, rfl, h1⟩ := h
  rw [ends_append, hp, h1]

theorem decompress_abort_closes {σ : Type} (c : Codec σ) (f : Frame σ) (err : Int) :
    Closes f.trace (decompress_abort c f err).trace := by
  obtain ⟨e, t, ht, h1, h2⟩ := decompress_abort_trace c f err
  exact Closes.of_tail e t ht h1 h2

theorem decompress_finish_closes {σ : Type} (c : Codec σ) (f : Frame σ) :
    Closes f.trace (decompress_finish c f).trace := by
  obtain ⟨e, t, ht, h1, h2⟩ := decompress_finish_trace c f
  exact Closes.of_tail e t ht h1 h2

theorem decompress_grow_trace {σ : Type} (c : Codec σ) (h : Heap) (f : Frame σ) (err : Int) :
    (∀ g, decompress_grow c h f err = Flow.next g → Extends f.trace g.trace) ∧
    (∀ g, decompress_grow c h f err = Flow.done g → Closes f.trace g.trace) := by
  unfold decompress_grow
  simp only
  split
  · constructor
    · intro g hg; simp at hg
    · intro g hg
      simp only [Flow.done.injEq] at hg
      subst hg
      exact Closes.of_append (decompress_abort_closes c _ err) rfl
  · constructor
    · intro g hg
      simp only [Flow.next.injEq] at hg
      subst hg
      exact ⟨_, rfl, rfl⟩
    · intro g hg; simp at hg

theorem decompress_body_trace {σ : Type} (c : Codec σ) (h : Heap) (f : Frame σ) :
    (∀ g, decompress_body c h f = Flow.next g → Extends f.trace g.trace) ∧
    (∀ g, decompress_body c h f = Flow.done g → Closes f.trace g.trace) := by
  unfold decompress_body
  simp only
  have hstep : ∀ (s : Int) (g : List Event), Closes (f.trace ++ [Event.step s]) g →
      Closes f.trace g := fun s g hc => Closes.of_append hc rfl
  have hstep2 : ∀ (s : Int) (g : List Event), Extends (f.trace ++ [Event.step s]) g →
      Extends f.trace g := by
    intro s g ⟨t, ht, h0⟩
    exact ⟨[Event.step s] ++ t, by simp [ht], by rw [ends_append, h0]; rfl⟩
  split_ifs
  · constructor
    · intro g hg; simp at hg
    · intro g hg
      simp only [Flow.done.injEq] at hg
      subst hg
      exact hstep _ _ (decompress_finish_closes c _)
  · constructor
    · intro g hg; simp at hg
    · intro g hg
      simp only [Flow.done.injEq] at hg
      subst hg
      exact hstep _ _ (decompress_abort_closes c _ _)
  · constructor
    · intro g hg
      exact hstep2 _ _ ((decompress_grow_trace c h _ _).1 g hg)
    · intro g hg
      exact hstep _ _ ((decompress_grow_trace c h _ _).2 g hg)
  · constructor
    · intro g hg
      exact hstep2 _ _ ((decompress_grow_trace c h _ _).1 g hg)
    · intro g hg
      exact hstep _ _ ((decompress_grow_trace c h _ _).2 g hg)
  · constructor
    · intro g hg; simp at hg
    · intro g hg
      simp only [Flow.done.injEq] at hg
      subst hg
      exact hstep _ _ (decompress_abort_closes c _ _)
theorem malloc_eq_null_iff (h : Heap) (i n : Nat) : h.malloc i n = Ptr.null ↔ h.ok i n = false := by
  unfold Heap.malloc
  cases h.ok i n <;> simp

theorem free_str_err {σ : Type} (f : Frame σ) : (free_str f).ret.err = f.ret.err := by
  unfold free_str
  split <;> rfl

theorem free_str_zst {σ : Type} (f : Frame σ) : (free_str f).zst = f.zst := by
  unfold free_str
  split <;> rfl

theorem free_str_len {σ : Type} (f : Frame σ) : (free_str f).ret.len = f.ret.len := by
  unfold free_str
  split <;> rfl

theorem free_str_str {σ : Type} (f : Frame σ) :
    (free_str f).ret.str = Ptr.null ∨ (free_str f).ret.str = Ptr.dangling := by
  unfold free_str
  split
  · left; assumption
  · right; rfl

theorem decompress_setup_trace {σ : Type} (h : Heap) (ret0 : ByteArray)
    (zst0 : z_stream σ) (input : List Byte) (length : Nat) :
    (decompress_setup h ret0 zst0 input length).trace
      = [Event.malloc DEFAULTALLOC (h.ok 0 DEFAULTALLOC)] := rfl

/-- The events of `c_decompress` up to the first `inflate`, or up to the
return when `inflateInit2` fails. -/
theorem decompress_start_spec {σ : Type} (c : Codec σ) (h : Heap) (ret0 : ByteArray)
    (zst0 : z_stream σ) (input : List Byte) (length : Nat) :
    match decompress_start c h ret0 zst0 input length with
    | Flow.next f => f.trace = [Event.malloc DEFAULTALLOC (h.ok 0 DEFAULTALLOC), Event.init Z_OK]
    | Flow.done f => f.ret.err ≠ none ∧ ∃ t, (t = [] ∨ t = [Event.free]) ∧
        (f.trace = [Event.malloc DEFAULTALLOC (h.ok 0 DEFAULTALLOC), Event.init Z_MEM_ERROR] ++ t ∨
         ∃ e e2, e ≠ Z_OK ∧ e ≠ Z_MEM_ERROR ∧
           f.trace = [Event.malloc DEFAULTALLOC (h.ok 0 DEFAULTALLOC), Event.init e,
                      Event.finish e2] ++ t) := by
  unfold decompress_start
  simp only
  generalize c.inflateInit2 (decompress_setup h ret0 zst0 input length).zst MAX_WBITS = r
  split_ifs with h1 h2
  · simp [decompress_setup_trace, h1]
  · simp only
    obtain ⟨t, ht, ht2⟩ := free_str_trace ({ decompress_setup h ret0 zst0 input length with
      zst := r.2,
      trace := (decompress_setup h ret0 zst0 input length).trace ++ [Event.init r.1] })
    unfold decompress_error
    simp only
    refine ⟨by simp, t, ht2, Or.inl ?_⟩
    rw [ht, h2]
    simp [decompress_setup_trace]
  · simp only
    unfold decompress_abort decompress_error
    simp only
    obtain ⟨t, ht, ht2⟩ := free_str_trace ({ decompress_setup h ret0 zst0 input length with
      zst := (c.inflateEnd r.2).2,
      trace := (decompress_setup h ret0 zst0 input length).trace ++ [Event.init r.1]
        ++ [Event.finish (c.inflateEnd r.2).1] })
    refine ⟨by simp, t, ht2, Or.inr ⟨r.1, (c.inflateEnd r.2).1, h1, h2, ?_⟩⟩
    rw [ht]
    simp [decompress_setup_trace]

/-- The events of `c_compress` up to its `deflate`, or up to the return when
the `malloc` or `deflateInit` fails. -/
theorem compress_start_spec {σ : Type} (c : Codec σ) (h : Heap) (ret0 : ByteArray)
    (zst0 : z_stream σ) (input : List Byte) (length : Nat) :
    match compress_start c h ret0 zst0 input length with
    | Flow.next f =>
        f.trace = [Event.malloc ((length + length / 1000 + 12 + 1) % UINT_MOD) true,
                   Event.init Z_OK]
    | Flow.done f => f.ret.err ≠ none ∧ ∃ t, (t = [] ∨ t = [Event.free]) ∧
        (f.trace = Event.malloc ((length + length / 1000 + 12 + 1) % UINT_MOD) false :: t ∨
         (∃ e, (e = Z_MEM_ERROR ∨ e = Z_STREAM_ERROR) ∧
           f.trace = [Event.malloc ((length + length / 1000 + 12 + 1) % UINT_MOD) true,
                      Event.init e] ++ t) ∨
         ∃ e e2, e ≠ Z_OK ∧ e ≠ Z_MEM_ERROR ∧ e ≠ Z_STREAM_ERROR ∧
           f.trace = [Event.malloc ((length + length / 1000 + 12 + 1) % UINT_MOD) true,
                      Event.init e, Event.finish e2] ++ t) := by
  unfold compress_start compress_setup
  simp only
  by_cases hm : h.malloc 0 ((length + length / 1000 + 12 + 1) % UINT_MOD) = Ptr.null
  · have hok := (malloc_eq_null_iff _ _ _).1 hm
    simp only [hm, if_true]
    unfold compress_error
    refine ⟨by rw [free_str_err]; simp, ?_⟩
    obtain ⟨t, ht, ht2⟩ := free_str_trace ({
      ret := { str := Ptr.null, len := ret0.len, err := some (zlib_error
        { zst0 with avail_out := (length + length / 1000 + 12 + 1) % UINT_MOD } Z_MEM_ERROR
        "Out of memory while compressing data.") },
      zst := { zst0 with avail_out := (length + length / 1000 + 12 + 1) % UINT_MOD },
      nalloc := 1,
      trace := [Event.malloc ((length + length / 1000 + 12 + 1) % UINT_MOD)
        (h.ok 0 ((length + length / 1000 + 12 + 1) % UINT_MOD))] } : Frame σ)
    refine ⟨t, ht2, Or.inl ?_⟩
    rw [ht, hok]
    rfl
  · have hok : h.ok 0 ((length + length / 1000 + 12 + 1) % UINT_MOD) = true := by
      cases hh : h.ok 0 ((length + length / 1000 + 12 + 1) % UINT_MOD)
      · exact absurd ((malloc_eq_null_iff _ _ _).2 hh) hm
      · rfl
    simp only [hm, if_false]
    generalize c.deflateInit _ Z_DEFAULT_COMPRESSION = r
    unfold compress_init_switch compress_error
    simp only
    split_ifs with h1 h2 h3
    · simp [h1, hok]
    · refine ⟨by rw [free_str_err]; simp, ?_⟩
      obtain ⟨t, ht, ht2⟩ := free_str_trace (σ := σ) _
      refine ⟨t, ht2, Or.inr (Or.inl ⟨r.1, Or.inl h2, ?_⟩)⟩
      rw [ht, hok]
      rfl
    · refine ⟨by rw [free_str_err]; simp, ?_⟩
      obtain ⟨t, ht, ht2⟩ := free_str_trace (σ := σ) _
      refine ⟨t, ht2, Or.inr (Or.inl ⟨r.1, Or.inr h3, ?_⟩)⟩
      rw [ht, hok]
      rfl
    · refine ⟨by rw [free_str_err]; simp, ?_⟩
      obtain ⟨t, ht, ht2⟩ := free_str_trace (σ := σ) _
      refine ⟨t, ht2, Or.inr (Or.inr ⟨r.1, (c.deflateEnd r.2).1, h1, h2, h3, ?_⟩)⟩
      rw [ht, hok]
      rfl
theorem compress2_error_trace {σ : Type} (f : Frame σ) (err : Int) :
    ∃ t, (compress2_error f err).trace = f.trace ++ t ∧ (t = [] ∨ t = [Event.free]) := by
  unfold compress2_error
  simp only
  split
  · exact free_str_trace f
  · exact free_str_trace f

theorem compress2_error_err {σ : Type} (f : Frame σ) (err : Int) :
    (compress2_error f err).ret.err ≠ none := by
  unfold compress2_error
  simp only
  split
  · simp
  · assumption

/-- The events of `c_compress2` up to its first `deflate`, or up to the return
when the `malloc` or `deflateInit2` fails. -/
theorem compress2_start_spec {σ : Type} (c : Codec σ) (h : Heap) (ret0 : ByteArray)
    (zst0 : z_stream σ) (input : List Byte) (length : Nat) :
    match compress2_start c h ret0 zst0 input length with
    | Flow.next f =>
        f.trace = [Event.malloc (compress2_initial length) true, Event.init Z_OK]
    | Flow.done f => f.ret.err ≠ none ∧ ∃ t, (t = [] ∨ t = [Event.free]) ∧
        (f.trace = Event.malloc (compress2_initial length) false :: t ∨
         (∃ e, (e = Z_MEM_ERROR ∨ e = Z_STREAM_ERROR) ∧
           f.trace = [Event.malloc (compress2_initial length) true, Event.init e] ++ t) ∨
         ∃ e e2, e ≠ Z_OK ∧ e ≠ Z_MEM_ERROR ∧ e ≠ Z_STREAM_ERROR ∧
           f.trace = [Event.malloc (compress2_initial length) true,
                      Event.init e, Event.finish e2] ++ t) := by
  unfold compress2_start compress2_setup
  simp only
  by_cases hm : h.malloc 0 (compress2_initial length) = Ptr.null
  · have hok := (malloc_eq_null_iff _ _ _).1 hm
    simp only [hm, if_true]
    refine ⟨compress2_error_err _ _, ?_⟩
    obtain ⟨t, ht, ht2⟩ := compress2_error_trace ({
      ret := { str := Ptr.null, len := compress2_initial length, err := some (zlib_error
        { zst0 with avail_out := compress2_initial length } Z_MEM_ERROR
        "Out of memory while compressing data.") },
      zst := { zst0 with avail_out := compress2_initial length },
      nalloc := 1,
      trace := [Event.malloc (compress2_initial length)
        (h.ok 0 (compress2_initial length))] } : Frame σ) Z_MEM_ERROR
    refine ⟨t, ht2, Or.inl ?_⟩
    rw [ht, hok]
    rfl
  · have hok : h.ok 0 (compress2_initial length) = true := by
      cases hh : h.ok 0 (compress2_initial length)
      · exact absurd ((malloc_eq_null_iff _ _ _).2 hh) hm
      · rfl
    simp only [hm, if_false]
    generalize c.deflateInit2 _ Z_DEFAULT_COMPRESSION Z_DEFLATED 15 8 Z_DEFAULT_STRATEGY = r
    unfold compress2_init_switch
    simp only
    split_ifs with h1 h2 h3
    · simp [h1, hok]
    · refine ⟨compress2_error_err _ _, ?_⟩
      obtain ⟨t, ht, ht2⟩ := compress2_error_trace (σ := σ) _ r.1
      refine ⟨t, ht2, Or.inr (Or.inl ⟨r.1, Or.inl h2, ?_⟩)⟩
      rw [ht, hok]
      rfl
    · refine ⟨compress2_error_err _ _, ?_⟩
      obtain ⟨t, ht, ht2⟩ := compress2_error_trace (σ := σ) _ r.1
      refine ⟨t, ht2, Or.inr (Or.inl ⟨r.1, Or.inr h3, ?_⟩)⟩
      rw [ht, hok]
      rfl
    · refine ⟨compress2_error_err _ _, ?_⟩
      obtain ⟨t, ht, ht2⟩ := compress2_error_trace (σ := σ) _ r.1
      refine ⟨t, ht2, Or.inr (Or.inr ⟨r.1, (c.deflateEnd r.2).1, h1, h2, h3, ?_⟩)⟩
      rw [ht, hok]
      rfl

theorem compress2_abort_closes {σ : Type} (c : Codec σ) (f : Frame σ) (err : Int) :
    Closes f.trace (compress2_abort c f err).trace := by
  unfold compress2_abort
  obtain ⟨t, ht, ht2⟩ := compress2_error_trace
    { f with zst := (c.deflateEnd f.zst).2,
             trace := f.trace ++ [Event.finish (c.deflateEnd f.zst).1] } err
  refine Closes.of_tail (c.deflateEnd f.zst).1 t ?_ ?_ ?_
  · simp only at ht ⊢
    rw [ht]
    simp
  · rcases ht2 with rfl | rfl <;> rfl
  · rcases ht2 with rfl | rfl <;> rfl

theorem compress2_finish_closes {σ : Type} (c : Codec σ) (h : Heap) (f : Frame σ) :
    Closes f.trace (compress2_finish c h f).trace := by
  unfold compress2_finish
  simp only
  split
  · obtain ⟨t, ht, ht2⟩ := compress2_error_trace
      { f with zst := (c.deflateEnd f.zst).2,
               trace := f.trace ++ [Event.finish (c.deflateEnd f.zst).1] } (c.deflateEnd f.zst).1
    refine Closes.of_tail (c.deflateEnd f.zst).1 t ?_ ?_ ?_
    · rw [ht]
      simp
    · rcases ht2 with rfl | rfl <;> rfl
    · rcases ht2 with rfl | rfl <;> rfl
  · exact Closes.of_tail (c.deflateEnd f.zst).1
      [Event.realloc (c.deflateEnd f.zst).2.total_out
        (h.ok f.nalloc (c.deflateEnd f.zst).2.total_out)] (by simp) rfl rfl

theorem compress2_grow_trace {σ : Type} (c : Codec σ) (h : Heap) (length : Nat) (f : Frame σ)
    (err : Int) :
    (∀ g, compress2_grow c h length f err = Flow.next g → Extends f.trace g.trace) ∧
    (∀ g, compress2_grow c h length f err = Flow.done g → Closes f.trace g.trace) := by
  unfold compress2_grow
  simp only
  split
  · constructor
    · intro g hg; simp at hg
    · intro g hg
      simp only [Flow.done.injEq] at hg
      subst hg
      exact Closes.of_append (compress2_abort_closes c _ err) rfl
  · constructor
    · intro g hg
      simp only [Flow.next.injEq] at hg
      subst hg
      exact ⟨_, rfl, rfl⟩
    · intro g hg; simp at hg

theorem compress2_body_trace {σ : Type} (c : Codec σ) (h : Heap) (length : Nat) (f : Frame σ) :
    (∀ g, compress2_body c h length f = Flow.next g → Extends f.trace g.trace) ∧
    (∀ g, compress2_body c h length f = Flow.done g → Closes f.trace g.trace) := by
  unfold compress2_body
  simp only
  have hstep : ∀ (s : Int) (g : List Event), Closes (f.trace ++ [Event.step s]) g →
      Closes f.trace g := fun s g hc => Closes.of_append hc rfl
  have hstep2 : ∀ (s : Int) (g : List Event), Extends (f.trace ++ [Event.step s]) g →
      Extends f.trace g := by
    intro s g ⟨t, ht, h0⟩
    exact ⟨[Event.step s] ++ t, by simp [ht], by rw [ends_append, h0]; rfl⟩
  split_ifs
  · constructor
    · intro g hg; simp at hg
    · intro g hg
      simp only [Flow.done.injEq] at hg
      subst hg
      exact hstep _ _ (compress2_finish_closes c h _)
  · constructor
    · intro g hg; simp at hg
    · intro g hg
      simp only [Flow.done.injEq] at hg
      subst hg
      exact hstep _ _ (compress2_abort_closes c _ _)
  · constructor
    · intro g hg
      exact hstep2 _ _ ((compress2_grow_trace c h length _ _).1 g hg)
    · intro g hg
      exact hstep _ _ ((compress2_grow_trace c h length _ _).2 g hg)
  · constructor
    · intro g hg
      exact hstep2 _ _ ((compress2_grow_trace c h length _ _).1 g hg)
    · intro g hg
      exact hstep _ _ ((compress2_grow_trace c h length _ _).2 g hg)
  · constructor
    · intro g hg; simp at hg
    · intro g hg
      simp only [Flow.done.injEq] at hg
      subst hg
      exact hstep _ _ (compress2_abort_closes c _ _)

/-- The events of the single step of `c_compress`: one `deflate`, one
`deflateEnd`, then at most a `free` or the shrinking `realloc`. -/
theorem compress_step_trace {σ : Type} (c : Codec σ) (h : Heap) (f : Frame σ) :
    ∃ s e t, (compress_step c h f).trace = f.trace ++ [Event.step s, Event.finish e] ++ t ∧
      s = (c.deflate f.zst Z_FINISH).1 ∧
      (t = [] ∨ t = [Event.free] ∨
        (s = Z_STREAM_END ∧ e = Z_OK ∧ ∃ n b, t = [Event.realloc n b])) := by
  unfold compress_step
  simp only
  generalize c.deflate f.zst Z_FINISH = r
  split_ifs with h1 h2
  · unfold compress_error
    obtain ⟨t, ht, ht2⟩ := free_str_trace (σ := σ) _
    refine ⟨r.1, (c.deflateEnd r.2.1).1, t, ?_, rfl, ?_⟩
    · rw [ht]; simp
    · rcases ht2 with rfl | rfl <;> simp
  · unfold compress_error
    obtain ⟨t, ht, ht2⟩ := free_str_trace (σ := σ) _
    refine ⟨r.1, (c.deflateEnd r.2.1).1, t, ?_, rfl, ?_⟩
    · rw [ht]; simp
    · rcases ht2 with rfl | rfl <;> simp
  · refine ⟨r.1, (c.deflateEnd r.2.1).1, [Event.realloc (c.deflateEnd r.2.1).2.total_out
        (h.ok f.nalloc (c.deflateEnd r.2.1).2.total_out)], ?_, rfl, ?_⟩
    · simp
    · right; right
      exact ⟨not_not.mp h1, not_not.mp h2, _, _, rfl⟩

theorem start_next_ends_zero {tr : List Event} {n : Nat} {b : Bool}
    (h : tr = [Event.malloc n b, Event.init Z_OK]) : ends tr = 0 := by
  subst h; rfl

theorem init_ok_not_mem_done {tr t : List Event} {n : Nat} {b : Bool}
    (ht : t = [] ∨ t = [Event.free])
    (h : tr = Event.malloc n false :: t ∨
         (∃ e, (e = Z_MEM_ERROR ∨ e = Z_STREAM_ERROR) ∧ tr = [Event.malloc n b, Event.init e] ++ t) ∨
         ∃ e e2, e ≠ Z_OK ∧ e ≠ Z_MEM_ERROR ∧ e ≠ Z_STREAM_ERROR ∧
           tr = [Event.malloc n b, Event.init e, Event.finish e2] ++ t) :
    Event.init Z_OK ∉ tr := by
  rcases h with h | ⟨e, he, h⟩ | ⟨e, e2, h1, _, _, h⟩
  · subst h
    rcases ht with rfl | rfl <;> simp
  · subst h
    have : Z_OK ≠ e := by rcases he with rfl | rfl <;> decide
    rcases ht with rfl | rfl <;> simp [this]
  · subst h
    have : Z_OK ≠ e := fun hh => h1 hh.symm
    rcases ht with rfl | rfl <;> simp [this]

/-- C5: in every execution of `c_decompress`, `c_compress` and `c_compress2` in
which init returned OK, the codec's end operation has been invoked exactly once
when the operation returns, on every path, and no step is invoked after it. -/
theorem end_invoked_once {σ : Type} (c : Codec σ) (h : Heap) (ret0 : ByteArray)
    (zst0 : z_stream σ) (input : List Byte) (length : Nat) :
    (∀ fuel out, c_decompress c h ret0 zst0 input length fuel = some out →
      Event.init Z_OK ∈ out.trace → ends out.trace = 1 ∧ stepsAfterEnd out.trace = 0) ∧
    (Event.init Z_OK ∈ (c_compress c h ret0 zst0 input length).trace →
      ends (c_compress c h ret0 zst0 input length).trace = 1 ∧
      stepsAfterEnd (c_compress c h ret0 zst0 input length).trace = 0) ∧
    (∀ fuel out, c_compress2 c h ret0 zst0 input length fuel = some out →
      Event.init Z_OK ∈ out.trace → ends out.trace = 1 ∧ stepsAfterEnd out.trace = 0) := by
  refine ⟨?_, ?_, ?_⟩
  · intro fuel out hrun hinit
    unfold c_decompress at hrun
    have hspec := decompress_start_spec c h ret0 zst0 input length
    cases hs : decompress_start c h ret0 zst0 input length with
    | done f =>
      rw [hs] at hrun hspec
      simp only [Option.some.injEq] at hrun
      subst hrun
      obtain ⟨_, t, ht, hcase⟩ := hspec
      exfalso
      rcases hcase with h1 | ⟨e, e2, h1, _, h2⟩
      · rw [h1] at hinit
        rcases ht with rfl | rfl <;> simp [Z_OK, Z_MEM_ERROR] at hinit
      · rw [h2] at hinit
        have : Z_OK ≠ e := fun hh => h1 hh.symm
        rcases ht with rfl | rfl <;> simp [this] at hinit
    | next f =>
      rw [hs] at hrun hspec
      exact run_loop_inv (decompress_body c h) (fun f => ends f.trace = 0)
        (fun g => ends g.trace = 1 ∧ stepsAfterEnd g.trace = 0)
        (fun f g hI hb => ((decompress_body_trace c h f).1 g hb).ends_zero hI)
        (fun f g hI hb => ((decompress_body_trace c h f).2 g hb).ends_one hI)
        fuel f out (start_next_ends_zero hspec) hrun
  · intro hinit
    unfold c_compress at hinit ⊢
    have hspec := compress_start_spec c h ret0 zst0 input length
    cases hs : compress_start c h ret0 zst0 input length with
    | done f =>
      rw [hs] at hinit hspec
      obtain ⟨_, t, ht, hcase⟩ := hspec
      exact absurd hinit (init_ok_not_mem_done ht hcase)
    | next f =>
      rw [hs] at hspec
      simp only
      obtain ⟨s, e, t, htr, _, ht⟩ := compress_step_trace c h f
      have hcl : Closes f.trace (compress_step c h f).trace := by
        refine ⟨[Event.step s], e, t, by simp [htr], rfl, ?_, ?_⟩
        · rcases ht with rfl | rfl | ⟨_, _, n, b, rfl⟩ <;> rfl
        · rcases ht with rfl | rfl | ⟨_, _, n, b, rfl⟩ <;> rfl
      exact hcl.ends_one (start_next_ends_zero hspec)
  · intro fuel out hrun hinit
    unfold c_compress2 at hrun
    have hspec := compress2_start_spec c h ret0 zst0 input length
    cases hs : compress2_start c h ret0 zst0 input length with
    | done f =>
      rw [hs] at hrun hspec
      simp only [Option.some.injEq] at hrun
      subst hrun
      obtain ⟨_, t, ht, hcase⟩ := hspec
      exact absurd hinit (init_ok_not_mem_done ht hcase)
    | next f =>
      rw [hs] at hrun hspec
      exact run_loop_inv (compress2_body c h length) (fun f => ends f.trace = 0)
        (fun g => ends g.trace = 1 ∧ stepsAfterEnd g.trace = 0)
        (fun f g hI hb => ((compress2_body_trace c h length f).1 g hb).ends_zero hI)
        (fun f g hI hb => ((compress2_body_trace c h length f).2 g hb).ends_one hI)
        fuel f out (start_next_ends_zero hspec) hrun

/-- Witness of C5: the three operations on a three-byte input with the storing
codec double. -/
theorem end_invoked_once_witness :
    (∃ out, c_decompress storedCodec Heap.always ByteArray.zero (z_stream.zero [])
        [1, 2, 3] 3 3 = some out ∧
      Event.init Z_OK ∈ out.trace ∧ ends out.trace = 1 ∧ stepsAfterEnd out.trace = 0) ∧
    (Event.init Z_OK ∈ (c_compress storedCodec Heap.always ByteArray.zero (z_stream.zero [])
        [1, 2, 3] 3).trace ∧
      ends (c_compress storedCodec Heap.always ByteArray.zero (z_stream.zero [])
        [1, 2, 3] 3).trace = 1 ∧
      stepsAfterEnd (c_compress storedCodec Heap.always ByteArray.zero (z_stream.zero [])
        [1, 2, 3] 3).trace = 0) ∧
    (∃ out, c_compress2 storedCodec Heap.always ByteArray.zero (z_stream.zero [])
        [1, 2, 3] 3 3 = some out ∧
      Event.init Z_OK ∈ out.trace ∧ ends out.trace = 1 ∧ stepsAfterEnd out.trace = 0) := by
  refine ⟨?_, ?_, ?_⟩
  · have ht : (c_decompress storedCodec Heap.always ByteArray.zero (z_stream.zero [])
        [1, 2, 3] 3 3).map (fun f => f.trace)
        = some [Event.malloc 16384 true, Event.init 0, Event.step 1, Event.finish 0] := by
      decide
    cases hrun : c_decompress storedCodec Heap.always ByteArray.zero (z_stream.zero [])
        [1, 2, 3] 3 3 with
    | none => rw [hrun] at ht; simp at ht
    | some out =>
      rw [hrun] at ht
      simp only [Option.map_some', Option.some.injEq] at ht
      have hmem : Event.init Z_OK ∈ out.trace := by rw [ht]; decide
      exact ⟨out, rfl, hmem,
        (end_invoked_once storedCodec Heap.always ByteArray.zero (z_stream.zero [])
          [1, 2, 3] 3).1 3 out hrun hmem⟩
  · have hmem : Event.init Z_OK ∈ (c_compress storedCodec Heap.always ByteArray.zero
        (z_stream.zero []) [1, 2, 3] 3).trace := by decide
    exact ⟨hmem, (end_invoked_once storedCodec Heap.always ByteArray.zero (z_stream.zero [])
      [1, 2, 3] 3).2.1 hmem⟩
  · have ht : (c_compress2 storedCodec Heap.always ByteArray.zero (z_stream.zero [])
        [1, 2, 3] 3 3).map (fun f => f.trace)
        = some [Event.malloc 16 true, Event.init 0, Event.step 1, Event.finish 0,
                Event.realloc 3 true] := by decide
    cases hrun : c_compress2 storedCodec Heap.always ByteArray.zero (z_stream.zero [])
        [1, 2, 3] 3 3 with
    | none => rw [hrun] at ht; simp at ht
    | some out =>
      rw [hrun] at ht
      simp only [Option.map_some', Option.some.injEq] at ht
      have hmem : Event.init Z_OK ∈ out.trace := by rw [ht]; decide
      exact ⟨out, rfl, hmem,
        (end_invoked_once storedCodec Heap.always ByteArray.zero (z_stream.zero [])
          [1, 2, 3] 3).2.2 3 out hrun hmem⟩

theorem ends_free_str {σ : Type} (f : Frame σ) : ends (free_str f).trace = ends f.trace := by
  obtain ⟨t, ht, ht2⟩ := free_str_trace f
  rw [ht, ends_append]
  rcases ht2 with rfl | rfl <;> rfl

theorem ends_compress2_error {σ : Type} (f : Frame σ) (err : Int) :
    ends (compress2_error f err).trace = ends f.trace := by
  obtain ⟨t, ht, ht2⟩ := compress2_error_trace f err
  rw [ht, ends_append]
  rcases ht2 with rfl | rfl <;> rfl

/-- The frame `c_compress` hands to `deflateInit` when its `malloc` succeeds. -/
theorem compress_setup_next {σ : Type} (h : Heap) (ret0 : ByteArray) (zst0 : z_stream σ)
    (input : List Byte) (length : Nat) (f : Frame σ)
    (hf : compress_setup h ret0 zst0 input length = Flow.next f) :
    h.ok 0 ((length + length / 1000 + 12 + 1) % UINT_MOD) = true ∧
    f = { ret := { ret0 with
            str := Ptr.live (h.fresh 0 ((length + length / 1000 + 12 + 1) % UINT_MOD)) },
          zst := { zst0 with avail_out := (length + length / 1000 + 12 + 1) % UINT_MOD,
                             next_out := some 0, next_in := input, avail_in := length },
          nalloc := 1,
          trace := [Event.malloc ((length + length / 1000 + 12 + 1) % UINT_MOD) true] } := by
  unfold compress_setup Heap.malloc at hf
  simp only at hf
  cases hok : h.ok 0 ((length + length / 1000 + 12 + 1) % UINT_MOD)
  · rw [hok] at hf
    simp at hf
  · rw [hok] at hf
    simp only [if_true, if_false, Flow.next.injEq, reduceCtorEq] at hf
    exact ⟨rfl, hf.symm⟩

/-- The return of `c_compress` when its `malloc` fails. -/
theorem compress_setup_done {σ : Type} (h : Heap) (ret0 : ByteArray) (zst0 : z_stream σ)
    (input : List Byte) (length : Nat)
    (hok : h.ok 0 ((length + length / 1000 + 12 + 1) % UINT_MOD) = false) :
    compress_setup h ret0 zst0 input length = Flow.done
      { ret := { ret0 with str := Ptr.null, err := some (zlib_error
                  { zst0 with avail_out := (length + length / 1000 + 12 + 1) % UINT_MOD }
                  Z_MEM_ERROR "Out of memory while compressing data.") },
        zst := { zst0 with avail_out := (length + length / 1000 + 12 + 1) % UINT_MOD },
        nalloc := 1,
        trace := [Event.malloc ((length + length / 1000 + 12 + 1) % UINT_MOD) false] } := by
  unfold compress_setup Heap.malloc compress_error free_str
  simp [hok]

/-- The frame `c_compress2` hands to `deflateInit2` when its `malloc` succeeds. -/
theorem compress2_setup_next {σ : Type} (h : Heap) (ret0 : ByteArray) (zst0 : z_stream σ)
    (input : List Byte) (length : Nat) (f : Frame σ)
    (hf : compress2_setup h ret0 zst0 input length = Flow.next f) :
    h.ok 0 (compress2_initial length) = true ∧
    f = { ret := { ret0 with str := Ptr.live (h.fresh 0 (compress2_initial length)),
                             len := compress2_initial length },
          zst := { zst0 with avail_out := compress2_initial length,
                             next_out := some 0, next_in := input, avail_in := length },
          nalloc := 1,
          trace := [Event.malloc (compress2_initial length) true] } := by
  unfold compress2_setup Heap.malloc at hf
  simp only at hf
  cases hok : h.ok 0 (compress2_initial length)
  · rw [hok] at hf
    simp at hf
  · rw [hok] at hf
    simp only [if_true, if_false, Flow.next.injEq, reduceCtorEq] at hf
    exact ⟨rfl, hf.symm⟩

/-- The return of `c_compress2` when its `malloc` fails. -/
theorem compress2_setup_done {σ : Type} (h : Heap) (ret0 : ByteArray) (zst0 : z_stream σ)
    (input : List Byte) (length : Nat)
    (hok : h.ok 0 (compress2_initial length) = false) :
    compress2_setup h ret0 zst0 input length = Flow.done
      { ret := { str := Ptr.null, len := compress2_initial length, err := some (zlib_error
                  { zst0 with avail_out := compress2_initial length }
                  Z_MEM_ERROR "Out of memory while compressing data.") },
        zst := { zst0 with avail_out := compress2_initial length },
        nalloc := 1,
        trace := [Event.malloc (compress2_initial length) false] } := by
  unfold compress2_setup Heap.malloc compress2_error free_str
  simp [hok]
theorem compress_init_switch_fail {σ : Type} (c : Codec σ) (f : Frame σ) (e : Int)
    (hne : e ≠ Z_OK) :
    ∃ g, compress_init_switch c f e = Flow.done g ∧ g.ret.err ≠ none ∧
      ends g.trace = ends f.trace + (if e = Z_MEM_ERROR ∨ e = Z_STREAM_ERROR then 0 else 1) := by
  unfold compress_init_switch compress_error
  simp only [if_neg hne]
  by_cases h2 : e = Z_MEM_ERROR
  · simp only [h2, if_true, true_or]
    exact ⟨_, rfl, by rw [free_str_err]; simp, by rw [ends_free_str]; rfl⟩
  · by_cases h3 : e = Z_STREAM_ERROR
    · simp only [h3, if_true, or_true]
      rw [if_neg (by decide)]
      exact ⟨_, rfl, by rw [free_str_err]; simp, by rw [ends_free_str]; rfl⟩
    · simp only [if_neg h2, if_neg h3, h2, h3, or_self, if_false]
      exact ⟨_, rfl, by rw [free_str_err]; simp, by rw [ends_free_str, ends_append]; rfl⟩

theorem compress2_init_switch_fail {σ : Type} (c : Codec σ) (f : Frame σ) (e : Int)
    (hne : e ≠ Z_OK) :
    ∃ g, compress2_init_switch c f e = Flow.done g ∧ g.ret.err ≠ none ∧
      ends g.trace = ends f.trace + (if e = Z_MEM_ERROR ∨ e = Z_STREAM_ERROR then 0 else 1) := by
  unfold compress2_init_switch
  simp only [if_neg hne]
  by_cases h2 : e = Z_MEM_ERROR
  · simp only [h2, if_true, true_or]
    exact ⟨_, rfl, compress2_error_err _ _, by rw [ends_compress2_error]; rfl⟩
  · by_cases h3 : e = Z_STREAM_ERROR
    · simp only [h3, if_true, or_true]
      rw [if_neg (by decide)]
      exact ⟨_, rfl, compress2_error_err _ _, by rw [ends_compress2_error]; rfl⟩
    · simp only [if_neg h2, if_neg h3, h2, h3, or_self, if_false]
      exact ⟨_, rfl, compress2_error_err _ _, by rw [ends_compress2_error, ends_append]; rfl⟩

/-- C10, as the code has it: when init returns a status other than OK, the
operation returns an error, and the codec's end operation has been invoked
exactly once if the status is neither memory-error nor, in `c_compress` and
`c_compress2`, stream-state-error; it has not been invoked when init returns
memory-error, when `deflateInit` / `deflateInit2` returns stream-state-error,
or when the `malloc` checked by `c_compress` / `c_compress2` fails. -/
theorem init_failure_end {σ : Type} (c : Codec σ) (h : Heap) (ret0 : ByteArray)
    (zst0 : z_stream σ) (input : List Byte) (length : Nat) :
    (∀ e, (c.inflateInit2 (decompress_setup h ret0 zst0 input length).zst MAX_WBITS).1 = e →
      e ≠ Z_OK → ∀ fuel, ∃ out, c_decompress c h ret0 zst0 input length fuel = some out ∧
        out.ret.err ≠ none ∧ ends out.trace = if e = Z_MEM_ERROR then 0 else 1) ∧
    (∀ f e, compress_setup h ret0 zst0 input length = Flow.next f →
      (c.deflateInit f.zst Z_DEFAULT_COMPRESSION).1 = e → e ≠ Z_OK →
      (c_compress c h ret0 zst0 input length).ret.err ≠ none ∧
      ends (c_compress c h ret0 zst0 input length).trace
        = if e = Z_MEM_ERROR ∨ e = Z_STREAM_ERROR then 0 else 1) ∧
    (h.ok 0 ((length + length / 1000 + 12 + 1) % UINT_MOD) = false →
      (c_compress c h ret0 zst0 input length).ret.err ≠ none ∧
      ends (c_compress c h ret0 zst0 input length).trace = 0) ∧
    (∀ f e, compress2_setup h ret0 zst0 input length = Flow.next f →
      (c.deflateInit2 f.zst Z_DEFAULT_COMPRESSION Z_DEFLATED 15 8 Z_DEFAULT_STRATEGY).1 = e →
      e ≠ Z_OK → ∀ fuel, ∃ out, c_compress2 c h ret0 zst0 input length fuel = some out ∧
        out.ret.err ≠ none ∧
        ends out.trace = if e = Z_MEM_ERROR ∨ e = Z_STREAM_ERROR then 0 else 1) ∧
    (h.ok 0 (compress2_initial length) = false →
      ∀ fuel, ∃ out, c_compress2 c h ret0 zst0 input length fuel = some out ∧
        out.ret.err ≠ none ∧ ends out.trace = 0) := by
  refine ⟨?_, ?_, ?_, ?_, ?_⟩
  · intro e he hne fuel
    subst he
    unfold c_decompress decompress_start
    simp only [if_neg hne]
    split_ifs with h2
    · refine ⟨_, rfl, ?_, ?_⟩
      · simp [decompress_error]
      · unfold decompress_error
        simp only
        rw [ends_free_str]
        rfl
    · refine ⟨_, rfl, ?_, ?_⟩
      · simp [decompress_abort, decompress_error]
      · unfold decompress_abort decompress_error
        simp only
        rw [ends_free_str]
        rfl
  · intro f e hf he hne
    subst he
    have hft : ends f.trace = 0 := by
      rw [(compress_setup_next h ret0 zst0 input length f hf).2]; rfl
    unfold c_compress compress_start
    rw [hf]
    simp only
    obtain ⟨g, hg, hg1, hg2⟩ := compress_init_switch_fail c
      { f with zst := (c.deflateInit f.zst Z_DEFAULT_COMPRESSION).2,
               trace := f.trace ++ [Event.init (c.deflateInit f.zst Z_DEFAULT_COMPRESSION).1] }
      (c.deflateInit f.zst Z_DEFAULT_COMPRESSION).1 hne
    rw [hg]
    refine ⟨hg1, ?_⟩
    rw [hg2, ends_append, hft]
    simp [ends, Event.isFinish]
  · intro hok
    unfold c_compress compress_start
    rw [compress_setup_done h ret0 zst0 input length hok]
    exact ⟨by simp, rfl⟩
  · intro f e hf he hne fuel
    subst he
    have hft : ends f.trace = 0 := by
      rw [(compress2_setup_next h ret0 zst0 input length f hf).2]; rfl
    unfold c_compress2 compress2_start
    rw [hf]
    simp only
    obtain ⟨g, hg, hg1, hg2⟩ := compress2_init_switch_fail c
      { f with zst := (c.deflateInit2 f.zst Z_DEFAULT_COMPRESSION Z_DEFLATED 15 8
                        Z_DEFAULT_STRATEGY).2,
               trace := f.trace ++ [Event.init (c.deflateInit2 f.zst Z_DEFAULT_COMPRESSION
                        Z_DEFLATED 15 8 Z_DEFAULT_STRATEGY).1] }
      (c.deflateInit2 f.zst Z_DEFAULT_COMPRESSION Z_DEFLATED 15 8 Z_DEFAULT_STRATEGY).1 hne
    rw [hg]
    refine ⟨g, rfl, hg1, ?_⟩
    rw [hg2, ends_append, hft]
    simp [ends, Event.isFinish]
  · intro hok fuel
    unfold c_compress2 compress2_start
    rw [compress2_setup_done h ret0 zst0 input length hok]
    exact ⟨_, rfl, by simp, rfl⟩
/-- Counterexample to C10 as stated: `deflateInit` (and `deflateInit2`) returns
stream-state-error, a non-OK status other than memory-error, and the operation
returns its error without any call of `deflateEnd`. -/
theorem init_failure_end_counterexample :
    Z_STREAM_ERROR ≠ Z_OK ∧ Z_STREAM_ERROR ≠ Z_MEM_ERROR ∧
    (c_compress (forcedCodec Z_STREAM_ERROR Z_STREAM_END Z_OK) Heap.always ByteArray.zero
        (z_stream.zero ()) [1, 2, 3] 3).trace
      = [Event.malloc 16 true, Event.init Z_STREAM_ERROR, Event.free] ∧
    ends (c_compress (forcedCodec Z_STREAM_ERROR Z_STREAM_END Z_OK) Heap.always ByteArray.zero
        (z_stream.zero ()) [1, 2, 3] 3).trace ≠ 1 ∧
    (c_compress2 (forcedCodec Z_STREAM_ERROR Z_STREAM_END Z_OK) Heap.always ByteArray.zero
        (z_stream.zero ()) [1, 2, 3] 3 1).map (fun f => f.trace)
      = some [Event.malloc 16 true, Event.init Z_STREAM_ERROR, Event.free] := by
  decide

/-- Witness of C10 as amended: a version-mismatch at init in each operation
(end is called once), and a refused `malloc` in the two compressors (end is not
called). -/
theorem init_failure_end_witness :
    (∃ out, c_decompress (forcedCodec Z_VERSION_ERROR Z_STREAM_END Z_OK) Heap.always
        ByteArray.zero (z_stream.zero ()) [1, 2, 3] 3 0 = some out ∧
      out.ret.err ≠ none ∧
      ends out.trace = if Z_VERSION_ERROR = Z_MEM_ERROR then 0 else 1) ∧
    ((c_compress (forcedCodec Z_VERSION_ERROR Z_STREAM_END Z_OK) Heap.always
        ByteArray.zero (z_stream.zero ()) [1, 2, 3] 3).ret.err ≠ none ∧
      ends (c_compress (forcedCodec Z_VERSION_ERROR Z_STREAM_END Z_OK) Heap.always
        ByteArray.zero (z_stream.zero ()) [1, 2, 3] 3).trace
        = if Z_VERSION_ERROR = Z_MEM_ERROR ∨ Z_VERSION_ERROR = Z_STREAM_ERROR then 0 else 1) ∧
    ((c_compress (forcedCodec Z_OK Z_STREAM_END Z_OK) Heap.never
        ByteArray.zero (z_stream.zero ()) [1, 2, 3] 3).ret.err ≠ none ∧
      ends (c_compress (forcedCodec Z_OK Z_STREAM_END Z_OK) Heap.never
        ByteArray.zero (z_stream.zero ()) [1, 2, 3] 3).trace = 0) ∧
    (∃ out, c_compress2 (forcedCodec Z_VERSION_ERROR Z_STREAM_END Z_OK) Heap.always
        ByteArray.zero (z_stream.zero ()) [1, 2, 3] 3 0 = some out ∧
      out.ret.err ≠ none ∧
      ends out.trace
        = if Z_VERSION_ERROR = Z_MEM_ERROR ∨ Z_VERSION_ERROR = Z_STREAM_ERROR then 0 else 1) ∧
    (∃ out, c_compress2 (forcedCodec Z_OK Z_STREAM_END Z_OK) Heap.never
        ByteArray.zero (z_stream.zero ()) [1, 2, 3] 3 0 = some out ∧
      out.ret.err ≠ none ∧ ends out.trace = 0) :=
  ⟨(init_failure_end (forcedCodec Z_VERSION_ERROR Z_STREAM_END Z_OK) Heap.always
      ByteArray.zero (z_stream.zero ()) [1, 2, 3] 3).1 Z_VERSION_ERROR rfl (by decide) 0,
   (init_failure_end (forcedCodec Z_VERSION_ERROR Z_STREAM_END Z_OK) Heap.always
      ByteArray.zero (z_stream.zero ()) [1, 2, 3] 3).2.1 _ Z_VERSION_ERROR rfl rfl (by decide),
   (init_failure_end (forcedCodec Z_OK Z_STREAM_END Z_OK) Heap.never
      ByteArray.zero (z_stream.zero ()) [1, 2, 3] 3).2.2.1 rfl,
   (init_failure_end (forcedCodec Z_VERSION_ERROR Z_STREAM_END Z_OK) Heap.always
      ByteArray.zero (z_stream.zero ()) [1, 2, 3] 3).2.2.2.1 _ Z_VERSION_ERROR rfl rfl
      (by decide) 0,
   (init_failure_end (forcedCodec Z_OK Z_STREAM_END Z_OK) Heap.never
      ByteArray.zero (z_stream.zero ()) [1, 2, 3] 3).2.2.2.2 rfl 0⟩

theorem fresh_length (h : Heap) (off n : Nat) : (h.fresh off n).length = n := by
  simp [Heap.fresh]

theorem store_eq_null_iff (p : Ptr) (cur : Option Nat) (bytes : List Byte) :
    p.store cur bytes = Ptr.null ↔ p = Ptr.null := by
  unfold Ptr.store
  split
  · simp
  · rfl

theorem store_cap (p : Ptr) (cur : Option Nat) (bytes : List Byte) :
    (p.store cur bytes).cap = p.cap := by
  unfold Ptr.store
  split
  · rename_i block off
    simp only [Ptr.cap, List.length_take, List.length_append, List.length_drop]
    omega
  · rfl

theorem compress2_initial_eq (n : Nat) :
    compress2_initial n
      = if n < 16384 then n + n / 1000 + 13 else if n / 8 > 16384 then n / 8 else 16384 := by
  unfold compress2_initial DEFAULTALLOC UINT_MOD
  split_ifs with h1
  · omega
  · rfl
  · rfl

theorem Extends.trans {a b c : List Event} (h1 : Extends a b) (h2 : Extends b c) :
    Extends a c := by
  obtain ⟨t, rfl, ht⟩ := h1
  obtain ⟨u, rfl, hu⟩ := h2
  exact ⟨t ++ u, by simp, by rw [ends_append, ht, hu]⟩

theorem Closes.extends {a b : List Event} (h : Closes a b) : ∃ t, b = a ++ t := by
  obtain ⟨t1, e, t2, rfl, _⟩ := h
  exact ⟨t1 ++ Event.finish e :: t2, by simp⟩

/-- C7: for every input length `n`, the size `c_compress2` requests from
`malloc`, the capacity it gets and the `avail_out` it gives the stream are
`n + n/1000 + 13` if `n < 16384`, otherwise `n/8` if `n/8 > 16384`, otherwise
`16384`. -/
theorem compress2_initial_size {σ : Type} (c : Codec σ) (h : Heap) (ret0 : ByteArray)
    (zst0 : z_stream σ) (input : List Byte) (n : Nat) :
    compress2_initial n
      = (if n < 16384 then n + n / 1000 + 13 else if n / 8 > 16384 then n / 8 else 16384) ∧
    (∀ f, compress2_setup h ret0 zst0 input n = Flow.next f →
      f.ret.str.cap = compress2_initial n ∧ f.ret.len = compress2_initial n ∧
      f.zst.avail_out = compress2_initial n) ∧
    (∀ fuel out, c_compress2 c h ret0 zst0 input n fuel = some out →
      ∃ b t, out.trace = Event.malloc (compress2_initial n) b :: t) := by
  refine ⟨compress2_initial_eq n, ?_, ?_⟩
  · intro f hf
    rw [(compress2_setup_next h ret0 zst0 input n f hf).2]
    exact ⟨fresh_length _ _ _, rfl, rfl⟩
  · intro fuel out hrun
    unfold c_compress2 at hrun
    have hspec := compress2_start_spec c h ret0 zst0 input n
    cases hs : compress2_start c h ret0 zst0 input n with
    | done f =>
      rw [hs] at hrun hspec
      simp only [Option.some.injEq] at hrun
      subst hrun
      obtain ⟨_, t, ht, hcase⟩ := hspec
      rcases hcase with h1 | ⟨e, _, h1⟩ | ⟨e, e2, _, _, _, h1⟩
      · exact ⟨false, t, h1⟩
      · exact ⟨true, _, h1⟩
      · exact ⟨true, _, h1⟩
    | next f =>
      rw [hs] at hrun hspec
      simp only at hspec
      exact run_loop_inv (compress2_body c h n)
        (fun g => ∃ b t, g.trace = Event.malloc (compress2_initial n) b :: t)
        (fun g => ∃ b t, g.trace = Event.malloc (compress2_initial n) b :: t)
        (fun f g hI hb => by
          obtain ⟨b, t, ht⟩ := hI
          obtain ⟨u, hu, _⟩ := (compress2_body_trace c h n f).1 g hb
          exact ⟨b, t ++ u, by rw [hu, ht]; rfl⟩)
        (fun f g hI hb => by
          obtain ⟨b, t, ht⟩ := hI
          obtain ⟨u, hu⟩ := ((compress2_body_trace c h n f).2 g hb).extends
          exact ⟨b, t ++ u, by rw [hu, ht]; rfl⟩)
        fuel f out ⟨true, _, hspec⟩ hrun

/-- Witness of C7: a small, a medium and a large input length. -/
theorem compress2_initial_size_witness :
    compress2_initial 5000 = 5018 ∧ compress2_initial 16384 = 16384 ∧
    compress2_initial 131080 = 16385 ∧
    (∃ f, compress2_setup Heap.always ByteArray.zero (z_stream.zero ()) [1, 2, 3] 3 = Flow.next f ∧
      f.ret.str.cap = compress2_initial 3 ∧ f.ret.len = compress2_initial 3 ∧
      f.zst.avail_out = compress2_initial 3) ∧
    (∃ out, c_compress2 storedCodec Heap.always ByteArray.zero (z_stream.zero []) [1, 2, 3] 3 2
        = some out ∧
      ∃ b t, out.trace = Event.malloc (compress2_initial 3) b :: t) := by
  refine ⟨by decide, by decide, by decide, ?_, ?_⟩
  · exact ⟨_, rfl, (compress2_initial_size (forcedCodec Z_OK Z_OK Z_OK) Heap.always
      ByteArray.zero (z_stream.zero ()) [1, 2, 3] 3).2.1 _ rfl⟩
  · cases hrun : c_compress2 storedCodec Heap.always ByteArray.zero (z_stream.zero [])
        [1, 2, 3] 3 2 with
    | none =>
      have : (c_compress2 storedCodec Heap.always ByteArray.zero (z_stream.zero [])
        [1, 2, 3] 3 2).isSome = true := by decide
      rw [hrun] at this
      simp at this
    | some out =>
      exact ⟨out, rfl, (compress2_initial_size storedCodec Heap.always ByteArray.zero
        (z_stream.zero []) [1, 2, 3] 3).2.2 2 out hrun⟩

/-- The frame before the single `deflate` of `c_compress`, when the `malloc`
and `deflateInit` succeed. -/
theorem compress_start_next {σ : Type} (c : Codec σ) (h : Heap) (ret0 : ByteArray)
    (zst0 : z_stream σ) (input : List Byte) (length : Nat) (f0 : Frame σ)
    (hs : compress_setup h ret0 zst0 input length = Flow.next f0)
    (hi : (c.deflateInit f0.zst Z_DEFAULT_COMPRESSION).1 = Z_OK) :
    compress_start c h ret0 zst0 input length = Flow.next
      { f0 with zst := (c.deflateInit f0.zst Z_DEFAULT_COMPRESSION).2,
                trace := f0.trace ++ [Event.init Z_OK] } := by
  unfold compress_start
  rw [hs]
  simp only
  unfold compress_init_switch
  rw [hi]
  simp

theorem store_live_ne_null (block : List Byte) (cur : Option Nat) (bytes : List Byte) :
    ((Ptr.live block).store cur bytes = Ptr.null) = False := by
  rw [store_eq_null_iff]
  simp

/-- C8: in every execution of `c_compress` in which the allocation and init
succeed, the trace is `malloc`, init, one `deflate`, one `deflateEnd`, and then
either the shrinking `realloc` (on success) or the `free` of the error path:
the step is invoked exactly once and the buffer is never grown.  The call
succeeds if and only if the step returns stream-ended and end returns OK;
otherwise the error is the translation of the offending status, with context
"while compressing data" for the step and "while finishing compression" for
end. -/
theorem compress_single_step {σ : Type} (c : Codec σ) (h : Heap) (ret0 : ByteArray)
    (zst0 : z_stream σ) (input : List Byte) (length : Nat) (f0 : Frame σ)
    (hs : compress_setup h ret0 zst0 input length = Flow.next f0)
    (hi : (c.deflateInit f0.zst Z_DEFAULT_COMPRESSION).1 = Z_OK) :
    let z1 := (c.deflateInit f0.zst Z_DEFAULT_COMPRESSION).2
    let r := c.deflate z1 Z_FINISH
    let e := c.deflateEnd r.2.1
    let out := c_compress c h ret0 zst0 input length
    steps out.trace = 1 ∧
    out.trace = [Event.malloc ((length + length / 1000 + 12 + 1) % UINT_MOD) true,
                 Event.init Z_OK, Event.step r.1, Event.finish e.1] ++
        (if r.1 = Z_STREAM_END ∧ e.1 = Z_OK
         then [Event.realloc e.2.total_out (h.ok 1 e.2.total_out)] else [Event.free]) ∧
    (out.ret.err = none ↔ r.1 = Z_STREAM_END ∧ e.1 = Z_OK) ∧
    (r.1 ≠ Z_STREAM_END → out.ret.err = some (zlib_error r.2.1 r.1 "while compressing data")) ∧
    (r.1 = Z_STREAM_END → e.1 ≠ Z_OK →
      out.ret.err = some (zlib_error e.2 e.1 "while finishing compression")) := by
  intro z1 r e out
  have hout : out = compress_step c h { f0 with zst := z1, trace := f0.trace ++ [Event.init Z_OK] } := by
    show c_compress c h ret0 zst0 input length = _
    unfold c_compress
    rw [compress_start_next c h ret0 zst0 input length f0 hs hi]
  have hf0 := (compress_setup_next h ret0 zst0 input length f0 hs).2
  rw [hout]
  unfold compress_step compress_error free_str
  simp only
  by_cases h1 : r.1 = Z_STREAM_END
  · have h1a : (c.deflate z1 Z_FINISH).1 = Z_STREAM_END := h1
    by_cases h2 : e.1 = Z_OK
    · have h2a : (c.deflateEnd (c.deflate z1 Z_FINISH).2.1).1 = Z_OK := h2
      simp [h1, h2, h1a, h2a, hf0, steps, Event.isStep]
    · have h2a : ¬ (c.deflateEnd (c.deflate z1 Z_FINISH).2.1).1 = Z_OK := h2
      simp [h1, h2, h1a, h2a, hf0, store_live_ne_null, steps, Event.isStep]
  · have h1a : ¬ (c.deflate z1 Z_FINISH).1 = Z_STREAM_END := h1
    simp [h1, h1a, hf0, store_live_ne_null, steps, Event.isStep]

/-- Witness of C8: `c_compress` of three bytes with the storing codec double
and an allocator that grants every request. -/
theorem compress_single_step_witness :
    steps (c_compress storedCodec Heap.always ByteArray.zero (z_stream.zero [])
      [1, 2, 3] 3).trace = 1 ∧
    (c_compress storedCodec Heap.always ByteArray.zero (z_stream.zero []) [1, 2, 3] 3).trace
      = [Event.malloc 16 true, Event.init Z_OK, Event.step Z_STREAM_END, Event.finish Z_OK,
         Event.realloc 3 true] ∧
    (c_compress storedCodec Heap.always ByteArray.zero (z_stream.zero []) [1, 2, 3] 3).ret.err
      = none :=
  have key := compress_single_step storedCodec Heap.always ByteArray.zero (z_stream.zero [])
    [1, 2, 3] 3 _ rfl rfl
  ⟨key.1, key.2.1, key.2.2.1.2 ⟨by decide, by decide⟩⟩

/-- C6: in every execution of `c_decompress` in which an `inflate` (the one
numbered `n`) returns buffer-error while `avail_out > 0` and the codec carries
no message, the buffer is not grown, the loop stops, and the call returns a
failure whose error text is exactly
"Error -5 while decompressing data: incomplete or truncated stream". -/
theorem decompress_truncated {σ : Type} (c : Codec σ) (h : Heap) (ret0 : ByteArray)
    (zst0 : z_stream σ) (input : List Byte) (length : Nat) (n : Nat) (f : Frame σ)
    (hreach : decompress_reach c h ret0 zst0 input length n = some f)
    (hst : (c.inflate f.zst Z_FINISH).1 = Z_BUF_ERROR)
    (hav : (c.inflate f.zst Z_FINISH).2.1.avail_out > 0)
    (hmsg : (c.inflateEnd (c.inflate f.zst Z_FINISH).2.1).2.msg = none) :
    ∀ fuel, n < fuel → ∃ out, c_decompress c h ret0 zst0 input length fuel = some out ∧
      out.ret.err = some "Error -5 while decompressing data: incomplete or truncated stream" ∧
      (∃ t, (t = [] ∨ t = [Event.free]) ∧
        out.trace = f.trace ++ [Event.step Z_BUF_ERROR,
          Event.finish (c.inflateEnd (c.inflate f.zst Z_FINISH).2.1).1] ++ t) ∧
      (out.ret.str = Ptr.null ∨ out.ret.str = Ptr.dangling) := by
  intro fuel hfuel
  unfold decompress_reach at hreach
  unfold c_decompress
  cases hs : decompress_start c h ret0 zst0 input length with
  | done g => rw [hs] at hreach; simp at hreach
  | next g =>
    rw [hs] at hreach
    simp only at hreach ⊢
    obtain ⟨k, rfl⟩ : ∃ k, fuel = n + (k + 1) := ⟨fuel - n - 1, by omega⟩
    rw [run_loop_of_reach _ n g f hreach (k + 1)]
    unfold run_loop decompress_body
    simp only [hst, hav]
    have hne : Z_BUF_ERROR ≠ Z_STREAM_END := by decide
    simp only [if_neg hne, if_true]
    refine ⟨_, rfl, ?_, ?_, ?_⟩
    · unfold decompress_abort decompress_error
      simp only
      rw [free_str_zst]
      simp only [zlib_error_eq, hmsg]
      decide
    · unfold decompress_abort decompress_error
      simp only
      obtain ⟨t, ht, ht2⟩ := free_str_trace (σ := σ) _
      rw [ht]
      exact ⟨t, ht2, by simp⟩
    · unfold decompress_abort decompress_error
      simp only
      exact free_str_str _

/-- Witness of C6: a codec double whose `inflate` reports buffer-error at once,
with the whole 16 KiB of output room unused. -/
theorem decompress_truncated_witness :
    ∃ out, c_decompress (forcedCodec Z_OK Z_BUF_ERROR Z_OK) Heap.always ByteArray.zero
        (z_stream.zero ()) [120, 156] 2 1 = some out ∧
      out.ret.err = some "Error -5 while decompressing data: incomplete or truncated stream" ∧
      (∃ t, (t = [] ∨ t = [Event.free]) ∧
        out.trace = [Event.malloc DEFAULTALLOC true, Event.init Z_OK] ++
          [Event.step Z_BUF_ERROR, Event.finish Z_OK] ++ t) ∧
      (out.ret.str = Ptr.null ∨ out.ret.str = Ptr.dangling) :=
  decompress_truncated (forcedCodec Z_OK Z_BUF_ERROR Z_OK) Heap.always ByteArray.zero
    (z_stream.zero ()) [120, 156] 2 0 _ rfl rfl (by decide) rfl 1 (by decide)

/-- Every text `zlib_error` returns begins with "Error". -/
theorem zlib_error_head {σ : Type} (zst : z_stream σ) (err : Int) (msg : String) :
    (zlib_error zst err msg).data.take 5 = "Error".data := by
  obtain ⟨sep, rest, _, hz⟩ := zlib_error_form zst err msg
  have h5 : ("Error" : String).length ≤ ERRMSG_MAX - 1 := by decide
  have hdata := snprintf_append ERRMSG_MAX "Error" (sep ++ fmt_d err ++ rest) h5
  have hre : ("Error" ++ sep ++ fmt_d err) ++ rest = "Error" ++ (sep ++ fmt_d err ++ rest) := by
    simp only [String.append_assoc]
  rw [hre] at hz
  rw [hz, hdata]
  rfl

/-- C2, the failing runs: `c_compress2` entered with a non-NULL indeterminate
`ret.err` returns that stale pointer when a step fails or a growth `realloc`
is refused, a text `zlib_error` never produces, where `c_decompress` in the
same situation returns the translation; and `c_compress` reports success with
`str` NULL and `err` NULL when its final shrinking `realloc` is refused. -/
theorem result_shape_failing_runs :
    (c_compress2 (forcedCodec Z_OK Z_STREAM_ERROR Z_OK) Heap.always
        { str := Ptr.null, len := 0, err := some "stale" } (z_stream.zero ()) [1, 2, 3] 3 1).map
        (fun f => f.ret)
      = some { str := Ptr.dangling, len := 16, err := some "stale" } ∧
    (c_compress2 (forcedCodec Z_OK Z_OK Z_OK) Heap.once
        { str := Ptr.null, len := 0, err := some "stale" } (z_stream.zero ()) [1, 2, 3] 3 1).map
        (fun f => f.ret)
      = some { str := Ptr.null, len := 16, err := some "stale" } ∧
    (∀ (z : z_stream Unit) (e : Int) (m : String), zlib_error z e m ≠ "stale") ∧
    (c_decompress (forcedCodec Z_OK Z_STREAM_ERROR Z_OK) Heap.always
        { str := Ptr.null, len := 0, err := some "stale" } (z_stream.zero ()) [1, 2, 3] 3 1).map
        (fun f => f.ret.err)
      = some (some "Error -2 while decompressing data: inconsistent stream state") ∧
    (c_compress storedCodec Heap.once ByteArray.zero (z_stream.zero []) [1, 2, 3] 3).ret
      = { str := Ptr.null, len := 3, err := none } := by
  refine ⟨by decide, by decide, ?_, by decide, by decide⟩
  intro z e m hz
  have := zlib_error_head z e m
  rw [hz] at this
  exact absurd this (by decide)

theorem realloc_live (h : Heap) (i : Nat) (block : List Byte) (n : Nat)
    (hne : h.realloc i (Ptr.live block) n ≠ Ptr.null) :
    h.ok i n = true ∧
    h.realloc i (Ptr.live block) n
      = Ptr.live (block.take n ++ h.fresh block.length (n - block.length)) := by
  unfold Heap.realloc at hne ⊢
  cases hk : h.ok i n
  · rw [hk] at hne; simp at hne
  · simp

theorem realloc_cap (h : Heap) (i : Nat) (p : Ptr) (n : Nat)
    (hne : h.realloc i p n ≠ Ptr.null) : (h.realloc i p n).cap = n ∧ h.ok i n = true := by
  unfold Heap.realloc at hne ⊢
  cases hk : h.ok i n
  · rw [hk] at hne; simp at hne
  · refine ⟨?_, rfl⟩
    simp only [if_true]
    cases p with
    | live block =>
      show (block.take n ++ h.fresh block.length (n - block.length)).length = n
      rw [List.length_append, List.length_take, fresh_length]
      omega
    | null => exact fresh_length _ _ _
    | dangling => exact fresh_length _ _ _

theorem store_live (block : List Byte) (cur : Option Nat) (bytes : List Byte) :
    ∃ b2, (Ptr.live block).store cur bytes = Ptr.live b2 ∧ b2.length = block.length := by
  cases cur with
  | none => exact ⟨block, rfl, rfl⟩
  | some off =>
    refine ⟨_, rfl, ?_⟩
    simp only [List.length_take, List.length_append, List.length_drop]
    omega

/-- What a pass of the `c_decompress` loop that goes round again has done: the
step returned OK, or buffer-error with no room left; the `realloc` to twice
`ret.len` was granted; the cursor is at the old `ret.len` and `avail_out` is
the old `ret.len`. -/
theorem decompress_body_next {σ : Type} (c : Codec σ) (h : Heap) (f g : Frame σ)
    (hb : decompress_body c h f = Flow.next g) :
    ((c.inflate f.zst Z_FINISH).1 = Z_OK ∨
      ((c.inflate f.zst Z_FINISH).1 = Z_BUF_ERROR ∧ (c.inflate f.zst Z_FINISH).2.1.avail_out = 0)) ∧
    h.realloc f.nalloc (f.ret.str.store f.zst.next_out (c.inflate f.zst Z_FINISH).2.2)
      ((f.ret.len * 2) % UINT_MOD) ≠ Ptr.null ∧
    g = { ret := { str := h.realloc f.nalloc
                      (f.ret.str.store f.zst.next_out (c.inflate f.zst Z_FINISH).2.2)
                      ((f.ret.len * 2) % UINT_MOD),
                   len := (f.ret.len * 2) % UINT_MOD, err := f.ret.err },
          zst := { (c.inflate f.zst Z_FINISH).2.1 with
                   next_out := (h.realloc f.nalloc
                      (f.ret.str.store f.zst.next_out (c.inflate f.zst Z_FINISH).2.2)
                      ((f.ret.len * 2) % UINT_MOD)).cursor f.ret.len,
                   avail_out := f.ret.len },
          nalloc := f.nalloc + 1,
          trace := f.trace ++ [Event.step (c.inflate f.zst Z_FINISH).1] ++
            [Event.realloc ((f.ret.len * 2) % UINT_MOD)
              (h.ok f.nalloc ((f.ret.len * 2) % UINT_MOD))] } := by
  unfold decompress_body decompress_grow at hb
  simp only at hb
  generalize c.inflate f.zst Z_FINISH = r at hb ⊢
  split_ifs at hb with h1 h2 h3 h4 h5 h6
  · simp only [Flow.next.injEq] at hb
    exact ⟨Or.inr ⟨h2, by omega⟩, h4, hb.symm⟩
  · simp only [Flow.next.injEq] at hb
    exact ⟨Or.inl h5, h6, hb.symm⟩
theorem realloc_ne_dangling (h : Heap) (i : Nat) (p : Ptr) (n : Nat) :
    h.realloc i p n ≠ Ptr.dangling := by
  unfold Heap.realloc
  cases h.ok i n <;> cases p <;> simp

/-- What a pass of the `c_compress2` loop that goes round again has done. -/
theorem compress2_body_next {σ : Type} (c : Codec σ) (h : Heap) (length : Nat) (f g : Frame σ)
    (hb : compress2_body c h length f = Flow.next g) :
    ((c.deflate f.zst Z_FINISH).1 = Z_OK ∨
      ((c.deflate f.zst Z_FINISH).1 = Z_BUF_ERROR ∧ (c.deflate f.zst Z_FINISH).2.1.avail_out = 0)) ∧
    h.realloc f.nalloc (f.ret.str.store f.zst.next_out (c.deflate f.zst Z_FINISH).2.2)
      (int_to_size_t ((f.ret.len + length / 8) % UINT_MOD)) ≠ Ptr.null ∧
    g = { ret := { str := h.realloc f.nalloc
                      (f.ret.str.store f.zst.next_out (c.deflate f.zst Z_FINISH).2.2)
                      (int_to_size_t ((f.ret.len + length / 8) % UINT_MOD)),
                   len := (f.ret.len + length / 8) % UINT_MOD, err := f.ret.err },
          zst := { (c.deflate f.zst Z_FINISH).2.1 with
                   next_out := (h.realloc f.nalloc
                      (f.ret.str.store f.zst.next_out (c.deflate f.zst Z_FINISH).2.2)
                      (int_to_size_t ((f.ret.len + length / 8) % UINT_MOD))).cursor f.ret.len,
                   avail_out := ((f.ret.len + length / 8) % UINT_MOD + UINT_MOD - f.ret.len)
                      % UINT_MOD },
          nalloc := f.nalloc + 1,
          trace := f.trace ++ [Event.step (c.deflate f.zst Z_FINISH).1] ++
            [Event.realloc (int_to_size_t ((f.ret.len + length / 8) % UINT_MOD))
              (h.ok f.nalloc (int_to_size_t ((f.ret.len + length / 8) % UINT_MOD)))] } := by
  unfold compress2_body compress2_grow at hb
  simp only at hb
  generalize c.deflate f.zst Z_FINISH = r at hb ⊢
  split_ifs at hb with h1 h2 h3 h4 h5 h6
  · simp only [Flow.next.injEq] at hb
    exact ⟨Or.inr ⟨h2, by omega⟩, h4, hb.symm⟩
  · simp only [Flow.next.injEq] at hb
    exact ⟨Or.inl h5, h6, hb.symm⟩

theorem Frame.FitsExactly.fits {σ : Type} {f : Frame σ} (hf : f.FitsExactly) : f.Fits :=
  ⟨hf.1, hf.2.1, hf.2.2.1, le_of_eq hf.2.2.2⟩

theorem decompress_body_fits {σ : Type} (c : Codec σ) (h : Heap) (hacc : c.Accounting)
    (hheap : ∀ i n, h.ok i n = true → n < 2 ^ 31) (f g : Frame σ)
    (hb : decompress_body c h f = Flow.next g) :
    (f.Fits → g.Fits) ∧ (c.OkMeansFull → f.FitsExactly → g.FitsExactly) := by
  obtain ⟨hst, hne, hg⟩ := decompress_body_next c h f g hb
  obtain ⟨hcap, hok⟩ := realloc_cap h _ _ _ hne
  have hsz := hheap _ _ hok
  obtain ⟨ha, ht⟩ := hacc.inflate_counts f.zst Z_FINISH
  have hlive : ∃ block, g.ret.str = Ptr.live block := by
    rw [hg]
    simp only
    cases hp : h.realloc f.nalloc (f.ret.str.store f.zst.next_out (c.inflate f.zst Z_FINISH).2.2)
      ((f.ret.len * 2) % UINT_MOD) with
    | null => exact absurd hp hne
    | live b => exact ⟨b, rfl⟩
    | dangling => exact absurd hp (realloc_ne_dangling _ _ _ _)
  have hmod : ∀ (hlen : f.ret.len < 2 ^ 31), (f.ret.len * 2) % UINT_MOD = f.ret.len * 2 := by
    intro hlen
    unfold UINT_MOD
    omega
  constructor
  · intro ⟨_, _, hlen, hle⟩
    refine ⟨hlive, ?_, ?_, ?_⟩
    · rw [hg]; exact hcap
    · rw [hg]; exact hsz
    · rw [hg]
      simp only
      rw [hmod hlen]
      omega
  · intro hfull ⟨_, _, hlen, heq⟩
    refine ⟨hlive, ?_, ?_, ?_⟩
    · rw [hg]; exact hcap
    · rw [hg]; exact hsz
    · rw [hg]
      simp only
      rw [hmod hlen]
      have h0 : (c.inflate f.zst Z_FINISH).2.1.avail_out = 0 := by
        rcases hst with h1 | ⟨_, h2⟩
        · exact hfull.1 _ _ h1
        · exact h2
      omega

theorem compress2_body_fits {σ : Type} (c : Codec σ) (h : Heap) (length : Nat)
    (hacc : c.Accounting) (hheap : ∀ i n, h.ok i n = true → n < 2 ^ 31)
    (hlength : length < 2 ^ 32) (f g : Frame σ)
    (hb : compress2_body c h length f = Flow.next g) :
    (f.Fits → g.Fits) ∧ (c.OkMeansFull → f.FitsExactly → g.FitsExactly) := by
  obtain ⟨hst, hne, hg⟩ := compress2_body_next c h length f g hb
  obtain ⟨hcap, hok⟩ := realloc_cap h _ _ _ hne
  have hsz := hheap _ _ hok
  obtain ⟨ha, ht⟩ := hacc.deflate_counts f.zst Z_FINISH
  have hlive : ∃ block, g.ret.str = Ptr.live block := by
    rw [hg]
    simp only
    cases hp : h.realloc f.nalloc (f.ret.str.store f.zst.next_out (c.deflate f.zst Z_FINISH).2.2)
      (int_to_size_t ((f.ret.len + length / 8) % UINT_MOD)) with
    | null => exact absurd hp hne
    | live b => exact ⟨b, rfl⟩
    | dangling => exact absurd hp (realloc_ne_dangling _ _ _ _)
  have hgrow : ∀ (hlen : f.ret.len < 2 ^ 31),
      (f.ret.len + length / 8) % UINT_MOD = f.ret.len + length / 8 ∧
      int_to_size_t ((f.ret.len + length / 8) % UINT_MOD) = f.ret.len + length / 8 ∧
      f.ret.len + length / 8 < 2 ^ 31 ∧
      ((f.ret.len + length / 8) % UINT_MOD + UINT_MOD - f.ret.len) % UINT_MOD = length / 8 := by
    intro hlen
    have h1 : (f.ret.len + length / 8) % UINT_MOD = f.ret.len + length / 8 := by
      unfold UINT_MOD; omega
    rw [h1] at hsz ⊢
    unfold int_to_size_t at hsz ⊢
    split_ifs at hsz ⊢ with h2
    · refine ⟨rfl, rfl, h2, ?_⟩
      unfold UINT_MOD; omega
    · omega
  constructor
  · intro ⟨_, _, hlen, hle⟩
    obtain ⟨g1, g2, g3, g4⟩ := hgrow hlen
    refine ⟨hlive, ?_, ?_, ?_⟩
    · rw [hg]; simp only; rw [hcap, g2, g1]
    · rw [hg]; simp only; rw [g1]; exact g3
    · rw [hg]
      simp only
      rw [g4, g1]
      omega
  · intro hfull ⟨_, _, hlen, heq⟩
    obtain ⟨g1, g2, g3, g4⟩ := hgrow hlen
    refine ⟨hlive, ?_, ?_, ?_⟩
    · rw [hg]; simp only; rw [hcap, g2, g1]
    · rw [hg]; simp only; rw [g1]; exact g3
    · rw [hg]
      simp only
      rw [g4, g1]
      have h0 : (c.deflate f.zst Z_FINISH).2.1.avail_out = 0 := by
        rcases hst with h1 | ⟨_, h2⟩
        · exact hfull.2 _ _ h1
        · exact h2
      omega
theorem run_loop_last {α : Type} (body : α → Flow α) :
    ∀ (fuel : Nat) (f out : α), run_loop body fuel f = some out →
      ∃ n g, n < fuel ∧ reach body n f = some g ∧ body g = Flow.done out := by
  intro fuel
  induction fuel with
  | zero => intro f out h; simp [run_loop] at h
  | succ k ih =>
    intro f out h
    unfold run_loop at h
    cases hb : body f with
    | next g =>
      rw [hb] at h
      obtain ⟨n, g2, hn, hr, hd⟩ := ih g out h
      refine ⟨n + 1, g2, by omega, ?_, hd⟩
      unfold reach
      rw [hb]
      exact hr
    | done g =>
      rw [hb] at h
      simp only [Option.some.injEq] at h
      subst h
      exact ⟨0, f, by omega, rfl, hb⟩

theorem decompress_error_err {σ : Type} (f : Frame σ) (err : Int) :
    (decompress_error f err).ret.err ≠ none := by
  simp [decompress_error]

theorem decompress_abort_err {σ : Type} (c : Codec σ) (f : Frame σ) (err : Int) :
    (decompress_abort c f err).ret.err ≠ none := by
  unfold decompress_abort
  exact decompress_error_err _ _

theorem compress2_abort_err {σ : Type} (c : Codec σ) (f : Frame σ) (err : Int) :
    (compress2_abort c f err).ret.err ≠ none := by
  unfold compress2_abort
  exact compress2_error_err _ _

/-- A successful return of the `c_decompress` loop: the step returned
stream-ended, `inflateEnd` returned OK, and the result is the buffer with
`len = total_out`. -/
theorem decompress_body_success {σ : Type} (c : Codec σ) (h : Heap) (f out : Frame σ)
    (hb : decompress_body c h f = Flow.done out) (herr : out.ret.err = none) :
    (c.inflate f.zst Z_FINISH).1 = Z_STREAM_END ∧
    (c.inflateEnd (c.inflate f.zst Z_FINISH).2.1).1 = Z_OK ∧
    out.zst = (c.inflateEnd (c.inflate f.zst Z_FINISH).2.1).2 ∧
    out.ret.str = f.ret.str.store f.zst.next_out (c.inflate f.zst Z_FINISH).2.2 ∧
    out.ret.len = out.zst.total_out % UINT_MOD := by
  unfold decompress_body at hb
  simp only at hb
  split_ifs at hb with h1 h2 h3 h4
  · simp only [Flow.done.injEq] at hb
    unfold decompress_finish at hb
    simp only at hb
    split_ifs at hb with h5
    · rw [← hb] at herr
      exact absurd herr (decompress_error_err _ _)
    · rw [← hb]
      exact ⟨h1, not_not.mp h5, rfl, rfl, rfl⟩
  · simp only [Flow.done.injEq] at hb
    rw [← hb] at herr
    exact absurd herr (decompress_abort_err _ _ _)
  · unfold decompress_grow at hb
    simp only at hb
    split_ifs at hb
    simp only [Flow.done.injEq] at hb
    rw [← hb] at herr
    exact absurd herr (decompress_abort_err _ _ _)
  · unfold decompress_grow at hb
    simp only at hb
    split_ifs at hb
    simp only [Flow.done.injEq] at hb
    rw [← hb] at herr
    exact absurd herr (decompress_abort_err _ _ _)
  · simp only [Flow.done.injEq] at hb
    rw [← hb] at herr
    exact absurd herr (decompress_abort_err _ _ _)

/-- A successful return of the `c_compress2` loop: the step returned
stream-ended, `deflateEnd` returned OK, and the result is the buffer resized
to `total_out`, with `len = total_out`. -/
theorem compress2_body_success {σ : Type} (c : Codec σ) (h : Heap) (length : Nat)
    (f out : Frame σ)
    (hb : compress2_body c h length f = Flow.done out) (herr : out.ret.err = none) :
    (c.deflate f.zst Z_FINISH).1 = Z_STREAM_END ∧
    (c.deflateEnd (c.deflate f.zst Z_FINISH).2.1).1 = Z_OK ∧
    out.zst = (c.deflateEnd (c.deflate f.zst Z_FINISH).2.1).2 ∧
    out.ret.str = h.realloc f.nalloc
      (f.ret.str.store f.zst.next_out (c.deflate f.zst Z_FINISH).2.2) out.zst.total_out ∧
    out.ret.len = out.zst.total_out % UINT_MOD := by
  unfold compress2_body at hb
  simp only at hb
  split_ifs at hb with h1 h2 h3 h4
  · simp only [Flow.done.injEq] at hb
    unfold compress2_finish at hb
    simp only at hb
    split_ifs at hb with h5
    · rw [← hb] at herr
      exact absurd herr (compress2_error_err _ _)
    · rw [← hb]
      exact ⟨h1, not_not.mp h5, rfl, rfl, rfl⟩
  · simp only [Flow.done.injEq] at hb
    rw [← hb] at herr
    exact absurd herr (compress2_abort_err _ _ _)
  · unfold compress2_grow at hb
    simp only at hb
    split_ifs at hb
    simp only [Flow.done.injEq] at hb
    rw [← hb] at herr
    exact absurd herr (compress2_abort_err _ _ _)
  · unfold compress2_grow at hb
    simp only at hb
    split_ifs at hb
    simp only [Flow.done.injEq] at hb
    rw [← hb] at herr
    exact absurd herr (compress2_abort_err _ _ _)
  · simp only [Flow.done.injEq] at hb
    rw [← hb] at herr
    exact absurd herr (compress2_abort_err _ _ _)

/-- The frame before the first `inflate` of `c_decompress`. -/
theorem decompress_start_next {σ : Type} (c : Codec σ) (h : Heap) (ret0 : ByteArray)
    (zst0 : z_stream σ) (input : List Byte) (length : Nat) (f : Frame σ)
    (hs : decompress_start c h ret0 zst0 input length = Flow.next f) :
    (c.inflateInit2 (decompress_setup h ret0 zst0 input length).zst MAX_WBITS).1 = Z_OK ∧
    f = { decompress_setup h ret0 zst0 input length with
          zst := (c.inflateInit2 (decompress_setup h ret0 zst0 input length).zst MAX_WBITS).2,
          trace := (decompress_setup h ret0 zst0 input length).trace ++ [Event.init Z_OK] } := by
  unfold decompress_start at hs
  simp only at hs
  split_ifs at hs with h1
  simp only [Flow.next.injEq] at hs
  rw [h1] at hs
  exact ⟨h1, hs.symm⟩

/-- The frame before the first `deflate` of `c_compress2`. -/
theorem compress2_start_next {σ : Type} (c : Codec σ) (h : Heap) (ret0 : ByteArray)
    (zst0 : z_stream σ) (input : List Byte) (length : Nat) (f : Frame σ)
    (hs : compress2_start c h ret0 zst0 input length = Flow.next f) :
    ∃ f0, compress2_setup h ret0 zst0 input length = Flow.next f0 ∧
      (c.deflateInit2 f0.zst Z_DEFAULT_COMPRESSION Z_DEFLATED 15 8 Z_DEFAULT_STRATEGY).1 = Z_OK ∧
      f = { f0 with
            zst := (c.deflateInit2 f0.zst Z_DEFAULT_COMPRESSION Z_DEFLATED 15 8
                      Z_DEFAULT_STRATEGY).2,
            trace := f0.trace ++ [Event.init Z_OK] } := by
  unfold compress2_start at hs
  cases hset : compress2_setup h ret0 zst0 input length with
  | done g => rw [hset] at hs; simp at hs
  | next f0 =>
    rw [hset] at hs
    simp only at hs
    unfold compress2_init_switch at hs
    split_ifs at hs with h1
    simp only [Flow.next.injEq] at hs
    rw [h1] at hs
    exact ⟨f0, rfl, h1, hs.symm⟩

/-- The frame before the `deflate` of `c_compress`. -/
theorem compress_start_next_inv {σ : Type} (c : Codec σ) (h : Heap) (ret0 : ByteArray)
    (zst0 : z_stream σ) (input : List Byte) (length : Nat) (f : Frame σ)
    (hs : compress_start c h ret0 zst0 input length = Flow.next f) :
    ∃ f0, compress_setup h ret0 zst0 input length = Flow.next f0 ∧
      (c.deflateInit f0.zst Z_DEFAULT_COMPRESSION).1 = Z_OK ∧
      f = { f0 with
            zst := (c.deflateInit f0.zst Z_DEFAULT_COMPRESSION).2,
            trace := f0.trace ++ [Event.init Z_OK] } := by
  unfold compress_start at hs
  cases hset : compress_setup h ret0 zst0 input length with
  | done g => rw [hset] at hs; simp at hs
  | next f0 =>
    rw [hset] at hs
    simp only at hs
    unfold compress_init_switch at hs
    split_ifs at hs with h1
    simp only [Flow.next.injEq] at hs
    rw [h1] at hs
    exact ⟨f0, rfl, h1, hs.symm⟩

theorem decompress_start_fits {σ : Type} (c : Codec σ) (h : Heap) (hacc : c.Accounting)
    (ret0 : ByteArray) (zst0 : z_stream σ) (input : List Byte) (length : Nat) (f : Frame σ)
    (hmalloc : h.ok 0 DEFAULTALLOC = true)
    (hs : decompress_start c h ret0 zst0 input length = Flow.next f) : f.FitsExactly := by
  obtain ⟨_, hf⟩ := decompress_start_next c h ret0 zst0 input length f hs
  obtain ⟨h1, h2⟩ := hacc.inflateInit2_counts (decompress_setup h ret0 zst0 input length).zst
    MAX_WBITS
  rw [hf]
  unfold Frame.FitsExactly
  simp only [h1, h2]
  unfold decompress_setup Heap.malloc
  simp only [hmalloc, if_true]
  exact ⟨⟨_, rfl⟩, fresh_length _ _ _, by decide, by simp⟩

theorem compress2_start_fits {σ : Type} (c : Codec σ) (h : Heap) (hacc : c.Accounting)
    (hheap : ∀ i n, h.ok i n = true → n < 2 ^ 31)
    (ret0 : ByteArray) (zst0 : z_stream σ) (input : List Byte) (length : Nat) (f : Frame σ)
    (hs : compress2_start c h ret0 zst0 input length = Flow.next f) : f.FitsExactly := by
  obtain ⟨f0, hset, _, hf⟩ := compress2_start_next c h ret0 zst0 input length f hs
  obtain ⟨hok, hf0⟩ := compress2_setup_next h ret0 zst0 input length f0 hset
  obtain ⟨h1, h2⟩ := hacc.deflateInit2_counts f0.zst Z_DEFAULT_COMPRESSION Z_DEFLATED 15 8
    Z_DEFAULT_STRATEGY
  rw [hf]
  unfold Frame.FitsExactly
  simp only [h1, h2]
  rw [hf0]
  exact ⟨⟨_, rfl⟩, fresh_length _ _ _, hheap _ _ hok, by simp⟩

theorem compress_start_fits {σ : Type} (c : Codec σ) (h : Heap) (hacc : c.Accounting)
    (hheap : ∀ i n, h.ok i n = true → n < 2 ^ 31)
    (ret0 : ByteArray) (zst0 : z_stream σ) (input : List Byte) (length : Nat) (f : Frame σ)
    (hs : compress_start c h ret0 zst0 input length = Flow.next f) :
    (∃ block, f.ret.str = Ptr.live block) ∧ f.ret.str.cap < 2 ^ 31 ∧
    f.zst.total_out + f.zst.avail_out = f.ret.str.cap := by
  obtain ⟨f0, hset, _, hf⟩ := compress_start_next_inv c h ret0 zst0 input length f hs
  obtain ⟨hok, hf0⟩ := compress_setup_next h ret0 zst0 input length f0 hset
  obtain ⟨h1, h2⟩ := hacc.deflateInit_counts f0.zst Z_DEFAULT_COMPRESSION
  rw [hf]
  simp only [h1, h2]
  rw [hf0]
  simp only [Ptr.cap, fresh_length]
  exact ⟨⟨_, rfl⟩, hheap _ _ hok, by simp⟩
theorem compress_step_success {σ : Type} (c : Codec σ) (h : Heap) (f : Frame σ)
    (herr : (compress_step c h f).ret.err = none) :
    (compress_step c h f).zst = (c.deflateEnd (c.deflate f.zst Z_FINISH).2.1).2 ∧
    (compress_step c h f).ret.len = (compress_step c h f).zst.total_out % UINT_MOD := by
  unfold compress_step at herr ⊢
  simp only at herr ⊢
  split_ifs at herr ⊢ with h1 h2
  · unfold compress_error at herr
    rw [free_str_err] at herr
    simp at herr
  · unfold compress_error at herr
    rw [free_str_err] at herr
    simp at herr
  · exact ⟨rfl, rfl⟩

/-- C4, as the code has it.  Let the codec keep its counters as zlib documents
(init leaves `avail_out` alone and clears `total_out`, each step lowers
`avail_out` by exactly what it adds to `total_out`, end leaves `total_out`
alone), let the allocator grant no request of 2 GiB or more (the 32-bit
capacity arithmetic then cannot wrap), and, in `c_decompress`, let the initial
`malloc`, which the code does not check, succeed.  Then in all three
operations, before every codec step, the capacity of the output buffer is at
least `total_out + avail_out`, and equal to it for a codec whose steps return
OK only with `avail_out = 0`; and on every successful return `len` is
`total_out` and does not exceed the capacity of the buffer the last step wrote
to. -/
theorem capacity_invariant {σ : Type} (c : Codec σ) (h : Heap) (hacc : c.Accounting)
    (hheap : ∀ i n, h.ok i n = true → n < 2 ^ 31)
    (ret0 : ByteArray) (zst0 : z_stream σ) (input : List Byte) (length : Nat)
    (hlength : length < 2 ^ 32) :
    (h.ok 0 DEFAULTALLOC = true →
      (∀ n f, decompress_reach c h ret0 zst0 input length n = some f →
        f.zst.total_out + f.zst.avail_out ≤ f.ret.str.cap ∧
        (c.OkMeansFull → f.zst.total_out + f.zst.avail_out = f.ret.str.cap)) ∧
      (∀ fuel out, c_decompress c h ret0 zst0 input length fuel = some out →
        out.ret.err = none →
        out.ret.len = out.zst.total_out ∧ out.ret.len ≤ out.ret.str.cap)) ∧
    (∀ f, compress_start c h ret0 zst0 input length = Flow.next f →
      f.zst.total_out + f.zst.avail_out = f.ret.str.cap ∧
      ((c_compress c h ret0 zst0 input length).ret.err = none →
        (c_compress c h ret0 zst0 input length).ret.len
          = (c_compress c h ret0 zst0 input length).zst.total_out ∧
        (c_compress c h ret0 zst0 input length).ret.len ≤ f.ret.str.cap)) ∧
    (∀ n f, compress2_reach c h ret0 zst0 input length n = some f →
      f.zst.total_out + f.zst.avail_out ≤ f.ret.str.cap ∧
      (c.OkMeansFull → f.zst.total_out + f.zst.avail_out = f.ret.str.cap)) ∧
    (∀ fuel out, c_compress2 c h ret0 zst0 input length fuel = some out →
      out.ret.err = none →
      out.ret.len = out.zst.total_out ∧
      ∃ n f, compress2_reach c h ret0 zst0 input length n = some f ∧
        compress2_body c h length f = Flow.done out ∧ out.ret.len ≤ f.ret.str.cap) := by
  refine ⟨?_, ?_, ?_, ?_⟩
  · intro hmalloc
    have hreach : ∀ n f, decompress_reach c h ret0 zst0 input length n = some f →
        f.Fits ∧ (c.OkMeansFull → f.FitsExactly) := by
      intro n f hr
      unfold decompress_reach at hr
      cases hs : decompress_start c h ret0 zst0 input length with
      | done g => rw [hs] at hr; simp at hr
      | next g =>
        rw [hs] at hr
        have h0 := decompress_start_fits c h hacc ret0 zst0 input length g hmalloc hs
        exact reach_inv (decompress_body c h)
          (fun f => f.Fits ∧ (c.OkMeansFull → f.FitsExactly))
          (fun a b hI hb => ⟨(decompress_body_fits c h hacc hheap a b hb).1 hI.1,
            fun hfull => (decompress_body_fits c h hacc hheap a b hb).2 hfull (hI.2 hfull)⟩)
          n g f ⟨h0.fits, fun _ => h0⟩ hr
    constructor
    · intro n f hr
      obtain ⟨h1, h2⟩ := hreach n f hr
      refine ⟨?_, fun hfull => ?_⟩
      · rw [h1.2.1]; exact h1.2.2.2
      · rw [(h2 hfull).2.1]; exact (h2 hfull).2.2.2
    · intro fuel out hrun herr
      unfold c_decompress at hrun
      cases hs : decompress_start c h ret0 zst0 input length with
      | done g =>
        rw [hs] at hrun
        simp only [Option.some.injEq] at hrun
        subst hrun
        have := decompress_start_spec c h ret0 zst0 input length
        rw [hs] at this
        exact absurd herr this.1
      | next g =>
        rw [hs] at hrun
        obtain ⟨n, f, _, hr, hd⟩ := run_loop_last _ fuel g out hrun
        have hfit : f.Fits := (hreach n f (by unfold decompress_reach; rw [hs]; exact hr)).1
        obtain ⟨_, _, hz, hstr, hlen⟩ := decompress_body_success c h f out hd herr
        obtain ⟨ha, ht⟩ := hacc.inflate_counts f.zst Z_FINISH
        have he := hacc.inflateEnd_counts (c.inflate f.zst Z_FINISH).2.1
        obtain ⟨_, hcap, hlt, hle⟩ := hfit
        have htot : out.zst.total_out ≤ f.ret.len := by rw [hz, he, ht]; omega
        have hmod : out.zst.total_out % UINT_MOD = out.zst.total_out := by
          unfold UINT_MOD; omega
        rw [hlen, hmod, hstr, store_cap, hcap]
        exact ⟨rfl, htot⟩
  · intro f hs
    obtain ⟨_, hlt, heq⟩ := compress_start_fits c h hacc hheap ret0 zst0 input length f hs
    refine ⟨heq, ?_⟩
    unfold c_compress
    rw [hs]
    simp only
    intro herr
    obtain ⟨hz, hlen⟩ := compress_step_success c h f herr
    obtain ⟨ha, ht⟩ := hacc.deflate_counts f.zst Z_FINISH
    have he := hacc.deflateEnd_counts (c.deflate f.zst Z_FINISH).2.1
    have htot : (compress_step c h f).zst.total_out ≤ f.ret.str.cap := by
      rw [hz, he, ht]; omega
    have hmod : (compress_step c h f).zst.total_out % UINT_MOD
        = (compress_step c h f).zst.total_out := by
      unfold UINT_MOD; omega
    rw [hlen, hmod]
    exact ⟨rfl, htot⟩
  · intro n f hr
    unfold compress2_reach at hr
    cases hs : compress2_start c h ret0 zst0 input length with
    | done g => rw [hs] at hr; simp at hr
    | next g =>
      rw [hs] at hr
      have h0 := compress2_start_fits c h hacc hheap ret0 zst0 input length g hs
      obtain ⟨h1, h2⟩ := reach_inv (compress2_body c h length)
        (fun f => f.Fits ∧ (c.OkMeansFull → f.FitsExactly))
        (fun a b hI hb => ⟨(compress2_body_fits c h length hacc hheap hlength a b hb).1 hI.1,
          fun hfull => (compress2_body_fits c h length hacc hheap hlength a b hb).2 hfull
            (hI.2 hfull)⟩)
        n g f ⟨h0.fits, fun _ => h0⟩ hr
      refine ⟨?_, fun hfull => ?_⟩
      · rw [h1.2.1]; exact h1.2.2.2
      · rw [(h2 hfull).2.1]; exact (h2 hfull).2.2.2
  · intro fuel out hrun herr
    unfold c_compress2 at hrun
    cases hs : compress2_start c h ret0 zst0 input length with
    | done g =>
      rw [hs] at hrun
      simp only [Option.some.injEq] at hrun
      subst hrun
      have := compress2_start_spec c h ret0 zst0 input length
      rw [hs] at this
      exact absurd herr this.1
    | next g =>
      rw [hs] at hrun
      obtain ⟨n, f, _, hr, hd⟩ := run_loop_last _ fuel g out hrun
      have h0 := compress2_start_fits c h hacc hheap ret0 zst0 input length g hs
      have hfit : f.Fits := reach_inv (compress2_body c h length) (fun f => f.Fits)
        (fun a b hI hb => (compress2_body_fits c h length hacc hheap hlength a b hb).1 hI)
        n g f h0.fits hr
      obtain ⟨_, _, hz, hstr, hlen⟩ := compress2_body_success c h length f out hd herr
      obtain ⟨ha, ht⟩ := hacc.deflate_counts f.zst Z_FINISH
      have he := hacc.deflateEnd_counts (c.deflate f.zst Z_FINISH).2.1
      obtain ⟨_, hcap, hlt, hle⟩ := hfit
      have htot : out.zst.total_out ≤ f.ret.len := by rw [hz, he, ht]; omega
      have hmod : out.zst.total_out % UINT_MOD = out.zst.total_out := by
        unfold UINT_MOD; omega
      rw [hlen, hmod]
      refine ⟨rfl, n, f, ?_, hd, ?_⟩
      · unfold compress2_reach; rw [hs]; exact hr
      · rw [hcap]; exact htot
theorem forcedCodec_accounting (si ss se : Int) : (forcedCodec si ss se).Accounting where
  inflateInit2_counts := fun _ _ => ⟨rfl, rfl⟩
  deflateInit_counts := fun _ _ => ⟨rfl, rfl⟩
  deflateInit2_counts := fun _ _ _ _ _ _ => ⟨rfl, rfl⟩
  inflate_counts := fun z _ => ⟨le_refl _, by simp [forcedCodec]⟩
  deflate_counts := fun z _ => ⟨le_refl _, by simp [forcedCodec]⟩
  inflateEnd_counts := fun _ => rfl
  deflateEnd_counts := fun _ => rfl

theorem storedCodec_accounting : storedCodec.Accounting where
  inflateInit2_counts := fun _ _ => ⟨rfl, rfl⟩
  deflateInit_counts := fun _ _ => ⟨rfl, rfl⟩
  deflateInit2_counts := fun _ _ _ _ _ _ => ⟨rfl, rfl⟩
  inflate_counts := fun z _ => by
    simp only [storedCodec, List.length_take]
    omega
  deflate_counts := fun z _ => by
    simp only [storedCodec, List.length_take]
    omega
  inflateEnd_counts := fun _ => rfl
  deflateEnd_counts := fun _ => rfl

theorem storedCodec_okMeansFull : storedCodec.OkMeansFull := by
  constructor
  · intro z fl hz
    simp only [storedCodec] at hz
    split_ifs at hz <;> simp [Z_STREAM_END, Z_BUF_ERROR, Z_OK] at hz
  · intro z fl hz
    simp only [storedCodec] at hz ⊢
    split_ifs at hz with h1
    · simp [Z_STREAM_END, Z_OK] at hz
    · simp only [List.length_take]
      omega

theorem below2G_ok (i n : Nat) (hk : Heap.below2G.ok i n = true) : n < 2 ^ 31 := by
  simpa [Heap.below2G] using hk

theorem reach_one {α : Type} (body : α → Flow α) (f g : α) (hr : reach body 1 f = some g) :
    body f = Flow.next g := by
  unfold reach at hr
  cases hb : body f with
  | next k =>
    rw [hb] at hr
    simp only [reach, Option.some.injEq] at hr
    rw [hr]
  | done k => rw [hb] at hr; simp at hr

/-- Counterexample to C4 as stated: a codec double whose `inflate` returns OK
without producing output keeps the counters exactly (it lowers `avail_out` by
the zero bytes it adds to `total_out`), yet after the first growth of
`c_decompress` the capacity is 32768 while `total_out + avail_out` is
`0 + 16384`. -/
theorem capacity_invariant_counterexample :
    (forcedCodec Z_OK Z_OK Z_OK).Accounting ∧
    ∃ f, decompress_reach (forcedCodec Z_OK Z_OK Z_OK) Heap.below2G ByteArray.zero
        (z_stream.zero ()) [] 0 1 = some f ∧
      f.ret.str.cap = 32768 ∧ f.zst.total_out = 0 ∧ f.zst.avail_out = 16384 ∧
      f.ret.str.cap ≠ f.zst.total_out + f.zst.avail_out := by
  refine ⟨forcedCodec_accounting _ _ _, ?_⟩
  obtain ⟨f, hf⟩ := Option.isSome_iff_exists.1 (by decide :
    (decompress_reach (forcedCodec Z_OK Z_OK Z_OK) Heap.below2G ByteArray.zero
        (z_stream.zero ()) [] 0 1).isSome = true)
  have ht : (decompress_reach (forcedCodec Z_OK Z_OK Z_OK) Heap.below2G ByteArray.zero
        (z_stream.zero ()) [] 0 1).map (fun f => (f.zst.total_out, f.zst.avail_out, f.ret.len))
        = some (0, 16384, 32768) := by decide
  rw [hf] at ht
  simp only [Option.map_some', Option.some.injEq, Prod.mk.injEq] at ht
  obtain ⟨ht1, ht2, ht3⟩ := ht
  have hcap : f.ret.str.cap = 32768 := by
    have hr := hf
    unfold decompress_reach at hr
    cases hs : decompress_start (forcedCodec Z_OK Z_OK Z_OK) Heap.below2G ByteArray.zero
        (z_stream.zero ()) [] 0 with
    | done g => rw [hs] at hr; simp at hr
    | next g =>
      rw [hs] at hr
      obtain ⟨_, hne, hg⟩ := decompress_body_next _ _ g f (reach_one _ g f hr)
      have hc := (realloc_cap _ _ _ _ hne).1
      have hlen : f.ret.len = (g.ret.len * 2) % UINT_MOD := by rw [hg]
      rw [hg]
      simp only
      rw [hc, ← hlen, ht3]
  refine ⟨f, hf, hcap, ht1, ht2, ?_⟩
  rw [hcap, ht1, ht2]
  decide

/-- Witness of C4 as amended: the storing codec double, an allocator that
grants every request below 2 GiB, three bytes of input. -/
theorem capacity_invariant_witness :
    (∃ f, decompress_reach storedCodec Heap.below2G ByteArray.zero (z_stream.zero [])
        [1, 2, 3] 3 0 = some f ∧
      f.zst.total_out + f.zst.avail_out = f.ret.str.cap) ∧
    (∃ out, c_decompress storedCodec Heap.below2G ByteArray.zero (z_stream.zero [])
        [1, 2, 3] 3 1 = some out ∧ out.ret.err = none ∧
      out.ret.len = out.zst.total_out ∧ out.ret.len ≤ out.ret.str.cap) ∧
    (∃ f, compress_start storedCodec Heap.below2G ByteArray.zero (z_stream.zero [])
        [1, 2, 3] 3 = Flow.next f ∧
      f.zst.total_out + f.zst.avail_out = f.ret.str.cap ∧
      (c_compress storedCodec Heap.below2G ByteArray.zero (z_stream.zero []) [1, 2, 3] 3).ret.len
        = (c_compress storedCodec Heap.below2G ByteArray.zero (z_stream.zero [])
            [1, 2, 3] 3).zst.total_out) ∧
    (∃ f, compress2_reach storedCodec Heap.below2G ByteArray.zero (z_stream.zero [])
        [1, 2, 3] 3 0 = some f ∧
      f.zst.total_out + f.zst.avail_out = f.ret.str.cap) ∧
    (∃ out, c_compress2 storedCodec Heap.below2G ByteArray.zero (z_stream.zero [])
        [1, 2, 3] 3 1 = some out ∧ out.ret.err = none ∧ out.ret.len = out.zst.total_out) := by
  have key := capacity_invariant storedCodec Heap.below2G storedCodec_accounting below2G_ok
    ByteArray.zero (z_stream.zero []) [1, 2, 3] 3 (by decide)
  obtain ⟨k1, k2, k3, k4⟩ := key
  obtain ⟨k1a, k1b⟩ := k1 (by decide)
  refine ⟨?_, ?_, ?_, ?_, ?_⟩
  · obtain ⟨f, hf⟩ := Option.isSome_iff_exists.1 (by decide :
      (decompress_reach storedCodec Heap.below2G ByteArray.zero (z_stream.zero [])
        [1, 2, 3] 3 0).isSome = true)
    exact ⟨f, hf, (k1a 0 f hf).2 storedCodec_okMeansFull⟩
  · obtain ⟨out, hout⟩ := Option.isSome_iff_exists.1 (by decide :
      (c_decompress storedCodec Heap.below2G ByteArray.zero (z_stream.zero [])
        [1, 2, 3] 3 1).isSome = true)
    have herr : (c_decompress storedCodec Heap.below2G ByteArray.zero (z_stream.zero [])
        [1, 2, 3] 3 1).map (fun f => f.ret.err) = some none := by decide
    rw [hout] at herr
    simp only [Option.map_some', Option.some.injEq] at herr
    exact ⟨out, hout, herr, k1b 1 out hout herr⟩
  · have herr : (c_compress storedCodec Heap.below2G ByteArray.zero (z_stream.zero [])
        [1, 2, 3] 3).ret.err = none := by decide
    exact ⟨_, rfl, (k2 _ rfl).1, ((k2 _ rfl).2 herr).1⟩
  · obtain ⟨f, hf⟩ := Option.isSome_iff_exists.1 (by decide :
      (compress2_reach storedCodec Heap.below2G ByteArray.zero (z_stream.zero [])
        [1, 2, 3] 3 0).isSome = true)
    exact ⟨f, hf, (k3 0 f hf).2 storedCodec_okMeansFull⟩
  · obtain ⟨out, hout⟩ := Option.isSome_iff_exists.1 (by decide :
      (c_compress2 storedCodec Heap.below2G ByteArray.zero (z_stream.zero [])
        [1, 2, 3] 3 1).isSome = true)
    have herr : (c_compress2 storedCodec Heap.below2G ByteArray.zero (z_stream.zero [])
        [1, 2, 3] 3 1).map (fun f => f.ret.err) = some none := by decide
    rw [hout] at herr
    simp only [Option.map_some', Option.some.injEq] at herr
    exact ⟨out, hout, herr, (k4 1 out hout herr).1⟩

theorem take_min_length {α : Type} (l : List α) (a : Nat) :
    l.take (min a l.length) = l.take a := by
  rcases Nat.le_total a l.length with h | h
  · rw [Nat.min_eq_left h]
  · rw [Nat.min_eq_right h, List.take_length, List.take_of_length_le h]

/-- Storing the next pending bytes right behind the part of `data` that a
block already holds makes the block hold that much more of `data`. -/
theorem store_holds (block data : List Byte) (t a : Nat)
    (hblk : block.take t = data.take t) (hcap : t + a ≤ block.length) :
    ∃ b2, (Ptr.live block).store (some t) ((data.drop t).take a) = Ptr.live b2 ∧
      b2.length = block.length ∧
      b2.take (t + ((data.drop t).take a).length)
        = data.take (t + ((data.drop t).take a).length) := by
  refine ⟨_, rfl, ?_, ?_⟩
  · simp only [List.length_take, List.length_append, List.length_drop]
    omega
  · have hw : ((data.drop t).take a).length ≤ a := by
      rw [List.length_take]; exact Nat.min_le_left _ _
    have ht : (block.take t).length = t := by
      rw [List.length_take]; omega
    rw [List.take_take, Nat.min_eq_left (by omega), List.append_assoc,
      List.take_append_eq_append_take, ht, List.take_of_length_le (by omega : (block.take t).length ≤ _),
      List.take_append_eq_append_take]
    have h1 : t + ((data.drop t).take a).length - t = ((data.drop t).take a).length := by omega
    rw [h1, List.take_length, Nat.sub_self, List.take_zero, List.append_nil, hblk, List.take_add]
    congr 1
    rw [List.length_take, take_min_length]

theorem realloc_take (h : Heap) (i : Nat) (block : List Byte) (n t : Nat)
    (hok : h.ok i n = true) (ht : t ≤ n) (htb : t ≤ block.length) :
    ∃ b2, h.realloc i (Ptr.live block) n = Ptr.live b2 ∧ b2.length = n ∧
      b2.take t = block.take t := by
  unfold Heap.realloc
  rw [hok]
  refine ⟨_, rfl, ?_, ?_⟩
  · rw [List.length_append, List.length_take, fresh_length]
    omega
  · rw [List.take_append_eq_append_take, List.take_take, Nat.min_eq_left ht]
    have : t - (block.take n).length = 0 := by
      rw [List.length_take]; omega
    rw [this, List.take_zero, List.append_nil]
/-- The last pass of the `c_decompress` loop when the step returns
stream-ended and `inflateEnd` returns OK. -/
theorem decompress_body_end {σ : Type} (c : Codec σ) (h : Heap) (f : Frame σ)
    (hst : (c.inflate f.zst Z_FINISH).1 = Z_STREAM_END)
    (hend : (c.inflateEnd (c.inflate f.zst Z_FINISH).2.1).1 = Z_OK) :
    decompress_body c h f = Flow.done
      { ret := { str := f.ret.str.store f.zst.next_out (c.inflate f.zst Z_FINISH).2.2,
                 len := (c.inflateEnd (c.inflate f.zst Z_FINISH).2.1).2.total_out % UINT_MOD,
                 err := none },
        zst := (c.inflateEnd (c.inflate f.zst Z_FINISH).2.1).2,
        nalloc := f.nalloc,
        trace := f.trace ++ [Event.step Z_STREAM_END] ++ [Event.finish Z_OK] } := by
  unfold decompress_body decompress_finish
  simp [hst, hend]

/-- A pass of the `c_decompress` loop that grows the buffer. -/
theorem decompress_body_grows {σ : Type} (c : Codec σ) (h : Heap) (f : Frame σ)
    (hst : (c.inflate f.zst Z_FINISH).1 = Z_OK ∨ (c.inflate f.zst Z_FINISH).1 = Z_BUF_ERROR)
    (hav : (c.inflate f.zst Z_FINISH).2.1.avail_out = 0)
    (hne : h.realloc f.nalloc (f.ret.str.store f.zst.next_out (c.inflate f.zst Z_FINISH).2.2)
      ((f.ret.len * 2) % UINT_MOD) ≠ Ptr.null) :
    decompress_body c h f = Flow.next
      { ret := { str := h.realloc f.nalloc
                      (f.ret.str.store f.zst.next_out (c.inflate f.zst Z_FINISH).2.2)
                      ((f.ret.len * 2) % UINT_MOD),
                 len := (f.ret.len * 2) % UINT_MOD, err := f.ret.err },
        zst := { (c.inflate f.zst Z_FINISH).2.1 with
                 next_out := (h.realloc f.nalloc
                    (f.ret.str.store f.zst.next_out (c.inflate f.zst Z_FINISH).2.2)
                    ((f.ret.len * 2) % UINT_MOD)).cursor f.ret.len,
                 avail_out := f.ret.len },
        nalloc := f.nalloc + 1,
        trace := f.trace ++ [Event.step (c.inflate f.zst Z_FINISH).1] ++
          [Event.realloc ((f.ret.len * 2) % UINT_MOD)
            (h.ok f.nalloc ((f.ret.len * 2) % UINT_MOD))] } := by
  unfold decompress_body decompress_grow
  simp only
  generalize c.inflate f.zst Z_FINISH = r at hst hav hne ⊢
  rcases hst with h1 | h1
  · have e1 : ¬ r.1 = Z_STREAM_END := by rw [h1]; decide
    have e2 : ¬ r.1 = Z_BUF_ERROR := by rw [h1]; decide
    simp only [if_neg e1, if_neg e2, if_pos h1, if_neg hne]
  · have e1 : ¬ r.1 = Z_STREAM_END := by rw [h1]; decide
    have e3 : ¬ r.2.1.avail_out > 0 := by omega
    simp only [if_neg e1, if_pos h1, if_neg e3, if_neg hne]

/-- The last pass of the `c_compress2` loop when the step returns stream-ended
and `deflateEnd` returns OK. -/
theorem compress2_body_end {σ : Type} (c : Codec σ) (h : Heap) (length : Nat) (f : Frame σ)
    (hst : (c.deflate f.zst Z_FINISH).1 = Z_STREAM_END)
    (hend : (c.deflateEnd (c.deflate f.zst Z_FINISH).2.1).1 = Z_OK) :
    compress2_body c h length f = Flow.done
      { ret := { str := h.realloc f.nalloc
                    (f.ret.str.store f.zst.next_out (c.deflate f.zst Z_FINISH).2.2)
                    (c.deflateEnd (c.deflate f.zst Z_FINISH).2.1).2.total_out,
                 len := (c.deflateEnd (c.deflate f.zst Z_FINISH).2.1).2.total_out % UINT_MOD,
                 err := none },
        zst := (c.deflateEnd (c.deflate f.zst Z_FINISH).2.1).2,
        nalloc := f.nalloc + 1,
        trace := f.trace ++ [Event.step Z_STREAM_END] ++ [Event.finish Z_OK] ++
          [Event.realloc (c.deflateEnd (c.deflate f.zst Z_FINISH).2.1).2.total_out
            (h.ok f.nalloc (c.deflateEnd (c.deflate f.zst Z_FINISH).2.1).2.total_out)] } := by
  unfold compress2_body compress2_finish
  simp [hst, hend]

/-- A pass of the `c_compress2` loop that grows the buffer. -/
theorem compress2_body_grows {σ : Type} (c : Codec σ) (h : Heap) (length : Nat) (f : Frame σ)
    (hst : (c.deflate f.zst Z_FINISH).1 = Z_OK ∨ (c.deflate f.zst Z_FINISH).1 = Z_BUF_ERROR)
    (hav : (c.deflate f.zst Z_FINISH).2.1.avail_out = 0)
    (hne : h.realloc f.nalloc (f.ret.str.store f.zst.next_out (c.deflate f.zst Z_FINISH).2.2)
      (int_to_size_t ((f.ret.len + length / 8) % UINT_MOD)) ≠ Ptr.null) :
    compress2_body c h length f = Flow.next
      { ret := { str := h.realloc f.nalloc
                      (f.ret.str.store f.zst.next_out (c.deflate f.zst Z_FINISH).2.2)
                      (int_to_size_t ((f.ret.len + length / 8) % UINT_MOD)),
                 len := (f.ret.len + length / 8) % UINT_MOD, err := f.ret.err },
        zst := { (c.deflate f.zst Z_FINISH).2.1 with
                 next_out := (h.realloc f.nalloc
                    (f.ret.str.store f.zst.next_out (c.deflate f.zst Z_FINISH).2.2)
                    (int_to_size_t ((f.ret.len + length / 8) % UINT_MOD))).cursor f.ret.len,
                 avail_out := ((f.ret.len + length / 8) % UINT_MOD + UINT_MOD - f.ret.len)
                    % UINT_MOD },
        nalloc := f.nalloc + 1,
        trace := f.trace ++ [Event.step (c.deflate f.zst Z_FINISH).1] ++
          [Event.realloc (int_to_size_t ((f.ret.len + length / 8) % UINT_MOD))
            (h.ok f.nalloc (int_to_size_t ((f.ret.len + length / 8) % UINT_MOD)))] } := by
  unfold compress2_body compress2_grow
  simp only
  generalize c.deflate f.zst Z_FINISH = r at hst hav hne ⊢
  rcases hst with h1 | h1
  · have e1 : ¬ r.1 = Z_STREAM_END := by rw [h1]; decide
    have e2 : ¬ r.1 = Z_BUF_ERROR := by rw [h1]; decide
    simp only [if_neg e1, if_neg e2, if_pos h1, if_neg hne]
  · have e1 : ¬ r.1 = Z_STREAM_END := by rw [h1]; decide
    have e3 : ¬ r.2.1.avail_out > 0 := by omega
    simp only [if_neg e1, if_pos h1, if_neg e3, if_neg hne]
/-- The pass of the `c_decompress` loop in which all pending bytes fit: it
returns the whole of `b`. -/
theorem decompress_last_pass {σ : Type} (c : Codec σ) (enc : List Byte → List Byte)
    (dpend ipend : z_stream σ → List Byte) (hc : c.Lawful enc dpend ipend)
    (h : Heap) (b : List Byte) (hb : b.length ≤ 2 ^ 31) (f : Frame σ)
    (hH : f.Holds b (ipend f.zst)) (hfin : (ipend f.zst).length ≤ f.zst.avail_out) :
    ∃ out, decompress_body c h f = Flow.done out ∧
      out.ret.err = none ∧ out.ret.len = b.length ∧ out.ret.data = b := by
  obtain ⟨block, hstr, hno, hsum, htake, hpend, hT, hav⟩ := hH
  obtain ⟨o1, o2, o3, o4, o5, o6⟩ := hc.inflate_ok f.zst
  have hplen : (ipend f.zst).length = b.length - f.zst.total_out := by
    rw [hpend, List.length_drop]
  obtain ⟨b2, hs2, hl2, ht2⟩ := store_holds block b f.zst.total_out f.zst.avail_out htake
    (by omega)
  have hwlen : (c.inflate f.zst Z_FINISH).2.2.length
      = min f.zst.avail_out (b.length - f.zst.total_out) := by
    rw [o1, List.length_take, hplen]
  have hstore : f.ret.str.store f.zst.next_out (c.inflate f.zst Z_FINISH).2.2 = Ptr.live b2 := by
    rw [hstr, hno, o1, hpend]; exact hs2
  rw [← hpend, ← o1] at ht2
  have hst := o5 hfin
  have hp2 : ipend (c.inflate f.zst Z_FINISH).2.1 = [] := by
    rw [o2]; exact List.drop_eq_nil_of_le hfin
  obtain ⟨e1, e2⟩ := hc.inflateEnd_ok _ hp2
  rw [decompress_body_end c h f hst e1]
  have htot : f.zst.total_out + (c.inflate f.zst Z_FINISH).2.2.length = b.length := by
    rw [hwlen]; omega
  have hmod : b.length % UINT_MOD = b.length := by unfold UINT_MOD; omega
  rw [htot] at ht2
  refine ⟨_, rfl, rfl, ?_, ?_⟩
  · simp only
    rw [e2, o4, htot, hmod]
  · unfold ByteArray.data
    simp only
    rw [hstore, e2, o4, htot, hmod]
    simp only
    rw [ht2, List.take_length]

/-- From a frame whose buffer holds the output so far, the `c_decompress` loop
of a lawful codec returns, given fuel for one pass per pending byte, and its
result is the whole of `b`. -/
theorem decompress_loop_holds {σ : Type} (c : Codec σ) (enc : List Byte → List Byte)
    (dpend ipend : z_stream σ → List Byte) (hc : c.Lawful enc dpend ipend)
    (h : Heap) (hh : ∀ i n, h.ok i n = true) (b : List Byte) (hb : b.length ≤ 2 ^ 31) :
    ∀ (p : Nat) (f : Frame σ), f.Holds b (ipend f.zst) → f.ret.str.cap = f.ret.len →
      (ipend f.zst).length ≤ p →
      ∀ fuel, p < fuel → ∃ out, run_loop (decompress_body c h) fuel f = some out ∧
        out.ret.err = none ∧ out.ret.len = b.length ∧ out.ret.data = b := by
  intro p
  induction p with
  | zero =>
    intro f hH hS hp fuel hfuel
    obtain ⟨k, rfl⟩ : ∃ k, fuel = k + 1 := ⟨fuel - 1, by omega⟩
    obtain ⟨out, hout, hres⟩ := decompress_last_pass c enc dpend ipend hc h b hb f hH (by omega)
    unfold run_loop
    rw [hout]
    exact ⟨out, rfl, hres⟩
  | succ p ih =>
    intro f hH hS hp fuel hfuel
    obtain ⟨k, rfl⟩ : ∃ k, fuel = k + 1 := ⟨fuel - 1, by omega⟩
    unfold run_loop
    by_cases hfin : (ipend f.zst).length ≤ f.zst.avail_out
    · obtain ⟨out, hout, hres⟩ := decompress_last_pass c enc dpend ipend hc h b hb f hH hfin
      rw [hout]
      exact ⟨out, rfl, hres⟩
    · obtain ⟨block, hstr, hno, hsum, htake, hpend, hT, hav⟩ := hH
      obtain ⟨o1, o2, o3, o4, o5, o6⟩ := hc.inflate_ok f.zst
      have hlen : block.length = f.ret.len := by rw [hstr] at hS; exact hS
      have hplen : (ipend f.zst).length = b.length - f.zst.total_out := by
        rw [hpend, List.length_drop]
      obtain ⟨b2, hs2, hl2, ht2⟩ := store_holds block b f.zst.total_out f.zst.avail_out htake
        (by omega)
      have hwlen : (c.inflate f.zst Z_FINISH).2.2.length
          = min f.zst.avail_out (b.length - f.zst.total_out) := by
        rw [o1, List.length_take, hplen]
      have hstore : f.ret.str.store f.zst.next_out (c.inflate f.zst Z_FINISH).2.2
          = Ptr.live b2 := by
        rw [hstr, hno, o1, hpend]; exact hs2
      rw [← hpend, ← o1] at ht2
      have hgt : f.zst.avail_out < (ipend f.zst).length := by omega
      have hst := o6 hgt
      have hwa : (c.inflate f.zst Z_FINISH).2.2.length = f.zst.avail_out := by
        rw [hwlen]; omega
      have hav0 : (c.inflate f.zst Z_FINISH).2.1.avail_out = 0 := by rw [o3, hwa]; omega
      have hsmall : f.ret.len < 2 ^ 31 := by omega
      have hmod : (f.ret.len * 2) % UINT_MOD = f.ret.len * 2 := by unfold UINT_MOD; omega
      obtain ⟨b3, hr3, hl3, ht3⟩ := realloc_take h f.nalloc b2 (f.ret.len * 2) f.ret.len
        (hh _ _) (by omega) (by omega)
      have hne : h.realloc f.nalloc
          (f.ret.str.store f.zst.next_out (c.inflate f.zst Z_FINISH).2.2)
          ((f.ret.len * 2) % UINT_MOD) ≠ Ptr.null := by
        rw [hstore, hmod, hr3]; simp
      rw [decompress_body_grows c h f hst hav0 hne]
      simp only
      apply ih
      · simp only
        rw [hstore, hmod, hr3]
        refine ⟨b3, rfl, ?_, ?_, ?_, ?_, ?_, ?_⟩
        · simp only [Ptr.cursor]
          rw [o4, hwa, hsum, hlen]
        · simp only
          rw [o4, hwa, hsum, hl3]; omega
        · simp only
          rw [o4, hwa, hsum, hlen, ht3]
          rw [hwa, hsum, hlen] at ht2
          exact ht2
        · rw [(hc.pend_cursor _ _ _).2, o2, hpend, List.drop_drop]
          simp only
          rw [o4, hwa]
        · simp only
          rw [o4, hwa]; omega
        · simp only; omega
      · simp only
        rw [hstore, hmod, hr3]
        exact hl3
      · rw [(hc.pend_cursor _ _ _).2, o2, List.length_drop]
        omega
      · omega
/-- `c_decompress` reaches its loop when `inflateInit2` returns OK. -/
theorem decompress_start_ok {σ : Type} (c : Codec σ) (h : Heap) (ret0 : ByteArray)
    (zst0 : z_stream σ) (input : List Byte) (length : Nat)
    (hi : (c.inflateInit2 (decompress_setup h ret0 zst0 input length).zst MAX_WBITS).1 = Z_OK) :
    decompress_start c h ret0 zst0 input length = Flow.next
      { decompress_setup h ret0 zst0 input length with
        zst := (c.inflateInit2 (decompress_setup h ret0 zst0 input length).zst MAX_WBITS).2,
        trace := (decompress_setup h ret0 zst0 input length).trace ++ [Event.init Z_OK] } := by
  unfold decompress_start
  simp only [hi, if_true]

/-- `c_compress2` reaches its loop when the `malloc` is granted and
`deflateInit2` returns OK. -/
theorem compress2_start_ok {σ : Type} (c : Codec σ) (h : Heap) (ret0 : ByteArray)
    (zst0 : z_stream σ) (input : List Byte) (length : Nat) (f0 : Frame σ)
    (hs : compress2_setup h ret0 zst0 input length = Flow.next f0)
    (hi : (c.deflateInit2 f0.zst Z_DEFAULT_COMPRESSION Z_DEFLATED 15 8 Z_DEFAULT_STRATEGY).1
      = Z_OK) :
    compress2_start c h ret0 zst0 input length = Flow.next
      { f0 with zst := (c.deflateInit2 f0.zst Z_DEFAULT_COMPRESSION Z_DEFLATED 15 8
                          Z_DEFAULT_STRATEGY).2,
                trace := f0.trace ++ [Event.init Z_OK] } := by
  unfold compress2_start
  rw [hs]
  simp only
  unfold compress2_init_switch
  rw [hi]
  simp

theorem compress_setup_ok {σ : Type} (h : Heap) (ret0 : ByteArray) (zst0 : z_stream σ)
    (input : List Byte) (length : Nat)
    (hok : h.ok 0 ((length + length / 1000 + 12 + 1) % UINT_MOD) = true) :
    compress_setup h ret0 zst0 input length = Flow.next
      { ret := { ret0 with
            str := Ptr.live (h.fresh 0 ((length + length / 1000 + 12 + 1) % UINT_MOD)) },
        zst := { zst0 with avail_out := (length + length / 1000 + 12 + 1) % UINT_MOD,
                           next_out := some 0, next_in := input, avail_in := length },
        nalloc := 1,
        trace := [Event.malloc ((length + length / 1000 + 12 + 1) % UINT_MOD) true] } := by
  unfold compress_setup Heap.malloc
  simp [hok, Ptr.cursor]

theorem compress2_setup_ok {σ : Type} (h : Heap) (ret0 : ByteArray) (zst0 : z_stream σ)
    (input : List Byte) (length : Nat)
    (hok : h.ok 0 (compress2_initial length) = true) :
    compress2_setup h ret0 zst0 input length = Flow.next
      { ret := { ret0 with str := Ptr.live (h.fresh 0 (compress2_initial length)),
                           len := compress2_initial length },
        zst := { zst0 with avail_out := compress2_initial length,
                           next_out := some 0, next_in := input, avail_in := length },
        nalloc := 1,
        trace := [Event.malloc (compress2_initial length) true] } := by
  unfold compress2_setup Heap.malloc
  simp [hok, Ptr.cursor]

/-- `c_decompress` of the compressed form of `b`, with a lawful codec and an
allocator that grants every request, returns `b`. -/
theorem decompress_of_enc {σ : Type} (c : Codec σ) (enc : List Byte → List Byte)
    (dpend ipend : z_stream σ → List Byte) (hc : c.Lawful enc dpend ipend)
    (h : Heap) (hh : ∀ i n, h.ok i n = true) (b : List Byte) (hb : b.length ≤ 2 ^ 31)
    (ret0 : ByteArray) (zst0 : z_stream σ) (input : List Byte) (length : Nat)
    (hin : input.take length = enc b) :
    ∀ fuel, b.length < fuel → ∃ out, c_decompress c h ret0 zst0 input length fuel = some out ∧
      out.ret.err = none ∧ out.ret.len = b.length ∧ out.ret.data = b := by
  intro fuel hfuel
  have hz : (decompress_setup h ret0 zst0 input length).zst.next_in.take
      (decompress_setup h ret0 zst0 input length).zst.avail_in = enc b := hin
  obtain ⟨i1, i2, i3, i4, i5⟩ := hc.inflateInit2_ok _ b hz
  unfold c_decompress
  rw [decompress_start_ok c h ret0 zst0 input length i1]
  simp only
  apply decompress_loop_holds c enc dpend ipend hc h hh b hb b.length _ _ _ _ fuel hfuel
  · refine ⟨h.fresh 0 DEFAULTALLOC, ?_, ?_, ?_, ?_, ?_, ?_, ?_⟩
    · simp [decompress_setup, Heap.malloc, hh]
    · simp only
      rw [i4, i5]
      simp [decompress_setup, Heap.malloc, hh, Ptr.cursor]
    · simp only
      rw [i3, i5]
      simp [decompress_setup, fresh_length]
    · simp only
      rw [i5]
      rfl
    · simp only
      rw [i2, i5]
      rfl
    · simp only
      rw [i5]
      exact Nat.zero_le _
    · simp only
      rw [i3]
      simp [decompress_setup, DEFAULTALLOC]
  · simp [decompress_setup, Heap.malloc, hh, Ptr.cap, fresh_length]
  · simp only
    rw [i2]
/-- The pass of the `c_compress2` loop in which all pending bytes fit: it
returns the whole of `e`, in a buffer resized to its length. -/
theorem compress2_last_pass {σ : Type} (c : Codec σ) (enc : List Byte → List Byte)
    (dpend ipend : z_stream σ → List Byte) (hc : c.Lawful enc dpend ipend)
    (h : Heap) (hh : ∀ i n, h.ok i n = true) (length : Nat) (e : List Byte)
    (he : e.length < 2 ^ 32) (f : Frame σ)
    (hH : f.Holds e (dpend f.zst)) (hfin : (dpend f.zst).length ≤ f.zst.avail_out) :
    ∃ out, compress2_body c h length f = Flow.done out ∧
      out.ret.err = none ∧ out.ret.len = e.length ∧ out.ret.data = e := by
  obtain ⟨block, hstr, hno, hsum, htake, hpend, hT, hav⟩ := hH
  obtain ⟨o1, o2, o3, o4, o5, o6⟩ := hc.deflate_ok f.zst
  have hplen : (dpend f.zst).length = e.length - f.zst.total_out := by
    rw [hpend, List.length_drop]
  obtain ⟨b2, hs2, hl2, ht2⟩ := store_holds block e f.zst.total_out f.zst.avail_out htake
    (by omega)
  have hwlen : (c.deflate f.zst Z_FINISH).2.2.length
      = min f.zst.avail_out (e.length - f.zst.total_out) := by
    rw [o1, List.length_take, hplen]
  have hstore : f.ret.str.store f.zst.next_out (c.deflate f.zst Z_FINISH).2.2 = Ptr.live b2 := by
    rw [hstr, hno, o1, hpend]; exact hs2
  rw [← hpend, ← o1] at ht2
  have hst := o5 hfin
  have hp2 : dpend (c.deflate f.zst Z_FINISH).2.1 = [] := by
    rw [o2]; exact List.drop_eq_nil_of_le hfin
  obtain ⟨e1, e2⟩ := hc.deflateEnd_ok _ hp2
  rw [compress2_body_end c h length f hst e1]
  have htot : f.zst.total_out + (c.deflate f.zst Z_FINISH).2.2.length = e.length := by
    rw [hwlen]; omega
  have hmod : e.length % UINT_MOD = e.length := by unfold UINT_MOD; omega
  rw [htot] at ht2
  obtain ⟨b3, hr3, hl3, ht3⟩ := realloc_take h f.nalloc b2 e.length e.length
    (hh _ _) (le_refl _) (by omega)
  refine ⟨_, rfl, rfl, ?_, ?_⟩
  · simp only
    rw [e2, o4, htot, hmod]
  · unfold ByteArray.data
    simp only
    rw [hstore, e2, o4, htot, hmod, hr3]
    simp only
    rw [ht3, ht2, List.take_length]

/-- From a frame whose buffer holds the output so far, the `c_compress2` loop
of a lawful codec returns, given fuel for one pass per pending byte, and its
result is the whole compressed form. -/
theorem compress2_loop_holds {σ : Type} (c : Codec σ) (enc : List Byte → List Byte)
    (dpend ipend : z_stream σ → List Byte) (hc : c.Lawful enc dpend ipend)
    (h : Heap) (hh : ∀ i n, h.ok i n = true) (length : Nat)
    (hlength : 9 * (length / 8) < 2 ^ 31)
    (e : List Byte) (he : e.length ≤ length + length / 1000 + 13) :
    ∀ (p : Nat) (f : Frame σ), f.Holds e (dpend f.zst) → f.ret.str.cap = f.ret.len →
      (e.length ≤ f.ret.len ∨ 16384 ≤ length) →
      (length < 131080 ∨ ∃ m, f.ret.len = m * (length / 8)) → (dpend f.zst).length ≤ p →
      ∀ fuel, p < fuel → ∃ out, run_loop (compress2_body c h length) fuel f = some out ∧
        out.ret.err = none ∧ out.ret.len = e.length ∧ out.ret.data = e := by
  intro p
  induction p with
  | zero =>
    intro f hH hS hbig hmul hp fuel hfuel
    obtain ⟨k, rfl⟩ : ∃ k, fuel = k + 1 := ⟨fuel - 1, by omega⟩
    obtain ⟨out, hout, hres⟩ := compress2_last_pass c enc dpend ipend hc h hh length e
      (by omega) f hH (by omega)
    unfold run_loop
    rw [hout]
    exact ⟨out, rfl, hres⟩
  | succ p ih =>
    intro f hH hS hbig hmul hp fuel hfuel
    obtain ⟨k, rfl⟩ : ∃ k, fuel = k + 1 := ⟨fuel - 1, by omega⟩
    unfold run_loop
    by_cases hfin : (dpend f.zst).length ≤ f.zst.avail_out
    · obtain ⟨out, hout, hres⟩ := compress2_last_pass c enc dpend ipend hc h hh length e
        (by omega) f hH hfin
      rw [hout]
      exact ⟨out, rfl, hres⟩
    · obtain ⟨block, hstr, hno, hsum, htake, hpend, hT, hav⟩ := hH
      obtain ⟨o1, o2, o3, o4, o5, o6⟩ := hc.deflate_ok f.zst
      have hlen : block.length = f.ret.len := by rw [hstr] at hS; exact hS
      have hplen : (dpend f.zst).length = e.length - f.zst.total_out := by
        rw [hpend, List.length_drop]
      obtain ⟨b2, hs2, hl2, ht2⟩ := store_holds block e f.zst.total_out f.zst.avail_out htake
        (by omega)
      have hwlen : (c.deflate f.zst Z_FINISH).2.2.length
          = min f.zst.avail_out (e.length - f.zst.total_out) := by
        rw [o1, List.length_take, hplen]
      have hstore : f.ret.str.store f.zst.next_out (c.deflate f.zst Z_FINISH).2.2
          = Ptr.live b2 := by
        rw [hstr, hno, o1, hpend]; exact hs2
      rw [← hpend, ← o1] at ht2
      have hgt : f.zst.avail_out < (dpend f.zst).length := by omega
      have hst := o6 hgt
      have hwa : (c.deflate f.zst Z_FINISH).2.2.length = f.zst.avail_out := by
        rw [hwlen]; omega
      have hav0 : (c.deflate f.zst Z_FINISH).2.1.avail_out = 0 := by rw [o3, hwa]; omega
      have hn : 16384 ≤ length := by
        rcases hbig with h1 | h1
        · omega
        · exact h1
      have hsmall : f.ret.len + length / 8 < 2 ^ 31 := by
        rcases hmul with h1 | ⟨m, hm⟩
        · omega
        · by_cases hm8 : m ≤ 8
          · have := Nat.mul_le_mul_right (length / 8) hm8
            omega
          · have := Nat.mul_le_mul_right (length / 8) (by omega : 9 ≤ m)
            omega
      have hmod : (f.ret.len + length / 8) % UINT_MOD = f.ret.len + length / 8 := by
        unfold UINT_MOD; omega
      have hsize : int_to_size_t (f.ret.len + length / 8) = f.ret.len + length / 8 := by
        unfold int_to_size_t; rw [if_pos hsmall]
      have hroom : (f.ret.len + length / 8 + UINT_MOD - f.ret.len) % UINT_MOD = length / 8 := by
        unfold UINT_MOD; omega
      obtain ⟨b3, hr3, hl3, ht3⟩ := realloc_take h f.nalloc b2 (f.ret.len + length / 8)
        f.ret.len (hh _ _) (by omega) (by omega)
      have hne : h.realloc f.nalloc
          (f.ret.str.store f.zst.next_out (c.deflate f.zst Z_FINISH).2.2)
          (int_to_size_t ((f.ret.len + length / 8) % UINT_MOD)) ≠ Ptr.null := by
        rw [hstore, hmod, hsize, hr3]; simp
      rw [compress2_body_grows c h length f hst hav0 hne]
      simp only
      apply ih
      · simp only
        rw [hstore, hmod, hsize, hroom, hr3]
        refine ⟨b3, rfl, ?_, ?_, ?_, ?_, ?_, ?_⟩
        · simp only [Ptr.cursor]
          rw [o4, hwa, hsum, hlen]
        · simp only
          rw [o4, hwa, hsum, hl3]; omega
        · simp only
          rw [o4, hwa, hsum, hlen, ht3]
          rw [hwa, hsum, hlen] at ht2
          exact ht2
        · rw [(hc.pend_cursor _ _ _).1, o2, hpend, List.drop_drop]
          simp only
          rw [o4, hwa]
        · simp only
          rw [o4, hwa]; omega
        · simp only; omega
      · simp only
        rw [hstore, hmod, hsize, hr3]
        exact hl3
      · exact Or.inr hn
      · simp only
        rw [hmod]
        rcases hmul with h1 | ⟨m, hm⟩
        · exact Or.inl h1
        · exact Or.inr ⟨m + 1, by rw [hm, Nat.succ_mul]⟩
      · rw [(hc.pend_cursor _ _ _).1, o2, List.length_drop]
        omega
      · omega
/-- The step of `c_compress` when `deflate` returns stream-ended and
`deflateEnd` returns OK. -/
theorem compress_step_end {σ : Type} (c : Codec σ) (h : Heap) (f : Frame σ)
    (hst : (c.deflate f.zst Z_FINISH).1 = Z_STREAM_END)
    (hend : (c.deflateEnd (c.deflate f.zst Z_FINISH).2.1).1 = Z_OK) :
    compress_step c h f =
      { ret := { str := h.realloc f.nalloc
                    (f.ret.str.store f.zst.next_out (c.deflate f.zst Z_FINISH).2.2)
                    (c.deflateEnd (c.deflate f.zst Z_FINISH).2.1).2.total_out,
                 len := (c.deflateEnd (c.deflate f.zst Z_FINISH).2.1).2.total_out % UINT_MOD,
                 err := none },
        zst := (c.deflateEnd (c.deflate f.zst Z_FINISH).2.1).2,
        nalloc := f.nalloc + 1,
        trace := f.trace ++ [Event.step Z_STREAM_END] ++ [Event.finish Z_OK] ++
          [Event.realloc (c.deflateEnd (c.deflate f.zst Z_FINISH).2.1).2.total_out
            (h.ok f.nalloc (c.deflateEnd (c.deflate f.zst Z_FINISH).2.1).2.total_out)] } := by
  unfold compress_step
  simp [hst, hend]

/-- The step of `c_compress` when all pending bytes fit: it returns the whole
of `e`, in a buffer resized to its length. -/
theorem compress_step_holds {σ : Type} (c : Codec σ) (enc : List Byte → List Byte)
    (dpend ipend : z_stream σ → List Byte) (hc : c.Lawful enc dpend ipend)
    (h : Heap) (hh : ∀ i n, h.ok i n = true) (e : List Byte)
    (he : e.length < 2 ^ 32) (f : Frame σ)
    (hH : f.Holds e (dpend f.zst)) (hfin : (dpend f.zst).length ≤ f.zst.avail_out) :
    (compress_step c h f).ret.err = none ∧ (compress_step c h f).ret.len = e.length ∧
    (compress_step c h f).ret.data = e := by
  obtain ⟨block, hstr, hno, hsum, htake, hpend, hT, hav⟩ := hH
  obtain ⟨o1, o2, o3, o4, o5, o6⟩ := hc.deflate_ok f.zst
  have hplen : (dpend f.zst).length = e.length - f.zst.total_out := by
    rw [hpend, List.length_drop]
  obtain ⟨b2, hs2, hl2, ht2⟩ := store_holds block e f.zst.total_out f.zst.avail_out htake
    (by omega)
  have hwlen : (c.deflate f.zst Z_FINISH).2.2.length
      = min f.zst.avail_out (e.length - f.zst.total_out) := by
    rw [o1, List.length_take, hplen]
  have hstore : f.ret.str.store f.zst.next_out (c.deflate f.zst Z_FINISH).2.2 = Ptr.live b2 := by
    rw [hstr, hno, o1, hpend]; exact hs2
  rw [← hpend, ← o1] at ht2
  have hst := o5 hfin
  have hp2 : dpend (c.deflate f.zst Z_FINISH).2.1 = [] := by
    rw [o2]; exact List.drop_eq_nil_of_le hfin
  obtain ⟨e1, e2⟩ := hc.deflateEnd_ok _ hp2
  rw [compress_step_end c h f hst e1]
  have htot : f.zst.total_out + (c.deflate f.zst Z_FINISH).2.2.length = e.length := by
    rw [hwlen]; omega
  have hmod : e.length % UINT_MOD = e.length := by unfold UINT_MOD; omega
  rw [htot] at ht2
  obtain ⟨b3, hr3, hl3, ht3⟩ := realloc_take h f.nalloc b2 e.length e.length
    (hh _ _) (le_refl _) (by omega)
  refine ⟨rfl, ?_, ?_⟩
  · simp only
    rw [e2, o4, htot, hmod]
  · unfold ByteArray.data
    simp only
    rw [hstore, e2, o4, htot, hmod, hr3]
    simp only
    rw [ht3, ht2, List.take_length]

/-- `c_compress` of `b`, with a lawful codec and an allocator that grants every
request, returns the compressed form of `b`. -/
theorem compress_of {σ : Type} (c : Codec σ) (enc : List Byte → List Byte)
    (dpend ipend : z_stream σ → List Byte) (hc : c.Lawful enc dpend ipend)
    (h : Heap) (hh : ∀ i n, h.ok i n = true) (b : List Byte) (hb : b.length ≤ 4290676606)
    (ret0 : ByteArray) (zst0 : z_stream σ) :
    (c_compress c h ret0 zst0 b b.length).ret.err = none ∧
    (c_compress c h ret0 zst0 b b.length).ret.len = (enc b).length ∧
    (c_compress c h ret0 zst0 b b.length).ret.data = enc b := by
  have hbound := hc.enc_bound b
  have hsz : (b.length + b.length / 1000 + 12 + 1) % UINT_MOD
      = b.length + b.length / 1000 + 13 := by
    unfold UINT_MOD; omega
  have hset := compress_setup_ok h ret0 zst0 b b.length (hh _ _)
  obtain ⟨i1, i2, i3, i4, i5⟩ := hc.deflateInit_ok
    { zst0 with avail_out := (b.length + b.length / 1000 + 12 + 1) % UINT_MOD,
                next_out := some 0, next_in := b, avail_in := b.length }
  simp only at i2 i3 i4 i5
  unfold c_compress
  rw [compress_start_next c h ret0 zst0 b b.length _ hset i1]
  simp only
  apply compress_step_holds c enc dpend ipend hc h hh (enc b) (by omega)
  · refine ⟨h.fresh 0 ((b.length + b.length / 1000 + 12 + 1) % UINT_MOD), rfl, ?_, ?_, ?_, ?_,
      ?_, ?_⟩
    · simp only
      rw [i4, i5]
    · simp only
      rw [i3, i5, fresh_length]
      simp
    · simp only
      rw [i5]
      rfl
    · simp only
      rw [i2, i5, List.take_length]
      rfl
    · simp only
      rw [i5]
      exact Nat.zero_le _
    · simp only
      rw [i3, hsz]
      omega
  · simp only
    rw [i2, i3, List.take_length, hsz]
    exact hbound

/-- `c_compress2` of `b`, with a lawful codec and an allocator that grants
every request, returns the compressed form of `b`, given fuel for one pass per
compressed byte. -/
theorem compress2_of {σ : Type} (c : Codec σ) (enc : List Byte → List Byte)
    (dpend ipend : z_stream σ → List Byte) (hc : c.Lawful enc dpend ipend)
    (h : Heap) (hh : ∀ i n, h.ok i n = true) (b : List Byte)
    (hb : 9 * (b.length / 8) < 2 ^ 31)
    (ret0 : ByteArray) (zst0 : z_stream σ) :
    ∀ fuel, (enc b).length < fuel → ∃ out,
      c_compress2 c h ret0 zst0 b b.length fuel = some out ∧
      out.ret.err = none ∧ out.ret.len = (enc b).length ∧ out.ret.data = enc b := by
  intro fuel hfuel
  have hbound := hc.enc_bound b
  have hini := compress2_initial_eq b.length
  have hset := compress2_setup_ok h ret0 zst0 b b.length (hh _ _)
  obtain ⟨i1, i2, i3, i4, i5⟩ := hc.deflateInit2_ok
    { zst0 with avail_out := compress2_initial b.length,
                next_out := some 0, next_in := b, avail_in := b.length }
  simp only at i2 i3 i4 i5
  unfold c_compress2
  rw [compress2_start_ok c h ret0 zst0 b b.length _ hset i1]
  simp only
  apply compress2_loop_holds c enc dpend ipend hc h hh b.length hb (enc b) hbound
    (enc b).length _ _ _ _ _ _ fuel hfuel
  · refine ⟨h.fresh 0 (compress2_initial b.length), rfl, ?_, ?_, ?_, ?_, ?_, ?_⟩
    · simp only
      rw [i4, i5]
    · simp only
      rw [i3, i5, fresh_length]
      simp
    · simp only
      rw [i5]
      rfl
    · simp only
      rw [i2, i5, List.take_length]
      rfl
    · simp only
      rw [i5]
      exact Nat.zero_le _
    · simp only
      rw [i3, hini]
      split_ifs <;> omega
  · simp only [Ptr.cap, fresh_length]
  · simp only
    rw [hini]
    split_ifs with h1
    · left; exact hbound
    · right; omega
    · right; omega
  · simp only
    rw [hini]
    split_ifs with h1 h2
    · left; omega
    · right; exact ⟨1, by rw [Nat.one_mul]⟩
    · left; omega
  · simp only
    rw [i2, List.take_length]
/-- The storing codec double is lawful: its compressed form is the input
itself and what is pending is its state. -/
theorem storedCodec_lawful :
    storedCodec.Lawful (fun b => b) (fun z => z.state) (fun z => z.state) where
  enc_bound := fun b => by omega
  deflateInit_ok := fun _ => ⟨rfl, rfl, rfl, rfl, rfl⟩
  deflateInit2_ok := fun _ => ⟨rfl, rfl, rfl, rfl, rfl⟩
  deflate_ok := fun z => by
    refine ⟨rfl, rfl, rfl, rfl, ?_, ?_⟩
    · intro hle
      simp only [storedCodec, if_pos hle]
    · intro hlt
      left
      simp only [storedCodec, if_neg (by omega : ¬ z.state.length ≤ z.avail_out)]
  deflateEnd_ok := fun _ _ => ⟨rfl, rfl⟩
  inflateInit2_ok := fun z b hz => ⟨rfl, hz, rfl, rfl, rfl⟩
  inflate_ok := fun z => by
    refine ⟨rfl, rfl, rfl, rfl, ?_, ?_⟩
    · intro hle
      simp only [storedCodec, if_pos hle]
    · intro hlt
      right
      simp only [storedCodec, if_neg (by omega : ¬ z.state.length ≤ z.avail_out)]
  inflateEnd_ok := fun _ _ => ⟨rfl, rfl⟩
  pend_cursor := fun _ _ _ => ⟨rfl, rfl⟩

theorem always_ok (i n : Nat) : Heap.always.ok i n = true := rfl

theorem compress_step_fail {σ : Type} (c : Codec σ) (h : Heap) (f : Frame σ)
    (hst : (c.deflate f.zst Z_FINISH).1 ≠ Z_STREAM_END) :
    (compress_step c h f).ret.err
      = some (zlib_error (c.deflate f.zst Z_FINISH).2.1 (c.deflate f.zst Z_FINISH).1
          "while compressing data") := by
  unfold compress_step compress_error
  simp only [if_pos hst]
  rw [free_str_err]

/-- C1, as the code has it: for every byte sequence `b` of at most `2 ^ 31`
bytes (the empty one included), with an allocator that grants every request
and a lawful codec (its inflate inverts its deflate, its steps write only at
the output cursor within the declared room, its compressed form fits the bound
`c_compress` allocates), `c_compress(b)` succeeds and `c_decompress` of the
bytes `str[0:len]` it returns succeeds and returns exactly `b` with
`len = |b|`; likewise for `c_compress2(b)` when `9 * (|b| / 8) < 2 ^ 31`, the
lengths for which the `int` sum `ret.len + length/8` of its growth step stays
below `2 ^ 31`.  Fuel for one loop pass per byte is enough. -/
theorem roundtrip {σ : Type} (c : Codec σ) (enc : List Byte → List Byte)
    (dpend ipend : z_stream σ → List Byte) (hc : c.Lawful enc dpend ipend)
    (h : Heap) (hh : ∀ i n, h.ok i n = true) (b : List Byte) (hb : b.length ≤ 2 ^ 31)
    (ret0 ret1 : ByteArray) (zst0 zst1 : z_stream σ) :
    ((c_compress c h ret0 zst0 b b.length).ret.err = none ∧
      ∀ fuel, b.length < fuel → ∃ out,
        c_decompress c h ret1 zst1 (c_compress c h ret0 zst0 b b.length).ret.data
          (c_compress c h ret0 zst0 b b.length).ret.len fuel = some out ∧
        out.ret.err = none ∧ out.ret.len = b.length ∧ out.ret.data = b) ∧
    (9 * (b.length / 8) < 2 ^ 31 → ∀ fuel, (enc b).length < fuel → ∃ mid,
      c_compress2 c h ret0 zst0 b b.length fuel = some mid ∧ mid.ret.err = none ∧
      ∀ fuel2, b.length < fuel2 → ∃ out,
        c_decompress c h ret1 zst1 mid.ret.data mid.ret.len fuel2 = some out ∧
        out.ret.err = none ∧ out.ret.len = b.length ∧ out.ret.data = b) := by
  constructor
  · obtain ⟨h1, h2, h3⟩ := compress_of c enc dpend ipend hc h hh b (by omega) ret0 zst0
    refine ⟨h1, ?_⟩
    intro fuel hfuel
    exact decompress_of_enc c enc dpend ipend hc h hh b hb ret1 zst1 _ _
      (by rw [h2, h3, List.take_length]) fuel hfuel
  · intro hgrow fuel hfuel
    obtain ⟨mid, hm, h1, h2, h3⟩ := compress2_of c enc dpend ipend hc h hh b hgrow ret0 zst0
      fuel hfuel
    refine ⟨mid, hm, h1, ?_⟩
    intro fuel2 hfuel2
    exact decompress_of_enc c enc dpend ipend hc h hh b hb ret1 zst1 _ _
      (by rw [h2, h3, List.take_length]) fuel2 hfuel2

/-- Witness of C1 as amended: the storing codec double on four bytes. -/
theorem roundtrip_witness :
    ((c_compress storedCodec Heap.always ByteArray.zero (z_stream.zero [])
        [104, 105, 33, 10] 4).ret.err = none ∧
      ∃ out, c_decompress storedCodec Heap.always ByteArray.zero (z_stream.zero [])
          (c_compress storedCodec Heap.always ByteArray.zero (z_stream.zero [])
            [104, 105, 33, 10] 4).ret.data
          (c_compress storedCodec Heap.always ByteArray.zero (z_stream.zero [])
            [104, 105, 33, 10] 4).ret.len 5 = some out ∧
        out.ret.err = none ∧ out.ret.len = 4 ∧ out.ret.data = [104, 105, 33, 10]) ∧
    (∃ mid, c_compress2 storedCodec Heap.always ByteArray.zero (z_stream.zero [])
        [104, 105, 33, 10] 4 5 = some mid ∧ mid.ret.err = none ∧
      ∃ out, c_decompress storedCodec Heap.always ByteArray.zero (z_stream.zero [])
          mid.ret.data mid.ret.len 5 = some out ∧
        out.ret.err = none ∧ out.ret.len = 4 ∧ out.ret.data = [104, 105, 33, 10]) := by
  have key := roundtrip storedCodec (fun b => b) (fun z => z.state) (fun z => z.state)
    storedCodec_lawful Heap.always always_ok [104, 105, 33, 10] (by decide)
    ByteArray.zero ByteArray.zero (z_stream.zero []) (z_stream.zero [])
  refine ⟨⟨key.1.1, key.1.2 5 (by decide)⟩, ?_⟩
  obtain ⟨mid, hm, h1, h2⟩ := key.2 (by decide) 5 (by decide)
  exact ⟨mid, hm, h1, h2 5 (by decide)⟩

theorem free_str_data {σ : Type} (f : Frame σ) : (free_str f).ret.data = [] := by
  unfold ByteArray.data
  rcases free_str_str f with h1 | h1 <;> rw [h1]

theorem compress_step_fail_data {σ : Type} (c : Codec σ) (h : Heap) (f : Frame σ)
    (hst : (c.deflate f.zst Z_FINISH).1 ≠ Z_STREAM_END) :
    (compress_step c h f).ret.data = [] ∧ (compress_step c h f).ret.len = f.ret.len := by
  unfold compress_step compress_error
  simp only [if_pos hst]
  exact ⟨free_str_data _, by rw [free_str_len]⟩

/-- With the storing codec double, `c_compress` fails whenever the input is
longer than the size it computed for the output buffer, and hands no bytes to
the caller. -/
theorem compress_stored_fail (b : List Byte) (length : Nat)
    (hlt : (length + length / 1000 + 12 + 1) % UINT_MOD < (b.take length).length) :
    (c_compress storedCodec Heap.always ByteArray.zero (z_stream.zero []) b length).ret.err
      ≠ none ∧
    (c_compress storedCodec Heap.always ByteArray.zero (z_stream.zero []) b length).ret.data
      = [] ∧
    (c_compress storedCodec Heap.always ByteArray.zero (z_stream.zero []) b length).ret.len
      = 0 := by
  have hset := compress_setup_ok Heap.always ByteArray.zero (z_stream.zero ([] : List Byte))
    b length rfl
  have hst : (storedCodec.deflate
      { z_stream.zero ([] : List Byte) with
        avail_out := (length + length / 1000 + 12 + 1) % UINT_MOD,
        next_out := some 0, next_in := b, avail_in := length,
        total_out := 0, msg := none, state := b.take length } Z_FINISH).1 ≠ Z_STREAM_END := by
    simp only [storedCodec]
    rw [if_neg (by omega)]
    decide
  unfold c_compress
  rw [compress_start_next storedCodec Heap.always ByteArray.zero (z_stream.zero [])
    b length _ hset rfl]
  simp only
  refine ⟨?_, ?_, ?_⟩
  · rw [compress_step_fail _ _ _ hst]
    simp
  · exact (compress_step_fail_data _ _ _ hst).1
  · rw [(compress_step_fail_data _ _ _ hst).2]
    rfl

/-- With the storing codec double, whatever `c_decompress` returns for an
empty input holds no bytes. -/
theorem decompress_stored_empty (fuel : Nat) (out : Frame (List Byte))
    (hrun : c_decompress storedCodec Heap.always ByteArray.zero (z_stream.zero []) [] 0 fuel
      = some out) : out.ret.data = [] := by
  cases fuel with
  | zero =>
    unfold c_decompress at hrun
    rw [decompress_start_ok storedCodec Heap.always ByteArray.zero (z_stream.zero []) [] 0 rfl]
      at hrun
    simp [run_loop] at hrun
  | succ k =>
    obtain ⟨o, ho, _, _, hd⟩ := decompress_of_enc storedCodec (fun b => b) (fun z => z.state)
      (fun z => z.state) storedCodec_lawful Heap.always always_ok [] (by simp)
      ByteArray.zero (z_stream.zero []) [] 0 rfl (k + 1) (by simp)
    rw [ho] at hrun
    simp only [Option.some.injEq] at hrun
    rw [← hrun]
    exact hd

/-- Counterexample to C1 as stated: with an allocator that refuses the
`malloc` of `c_compress`, the call checks the NULL (lines 148-151) and returns
the out-of-memory error and no bytes for the three-byte input `b`; whatever
`c_decompress` returns for those no bytes, even with every request granted, is
not `b`.  The codec is the (lawful) storing codec double. -/
theorem roundtrip_counterexample :
    storedCodec.Lawful (fun b => b) (fun z => z.state) (fun z => z.state) ∧
    (c_compress storedCodec Heap.after_first ByteArray.zero (z_stream.zero [])
      [1, 2, 3] 3).trace = [Event.malloc 16 false] ∧
    (c_compress storedCodec Heap.after_first ByteArray.zero (z_stream.zero [])
      [1, 2, 3] 3).ret.err = some "Error: -4 Out of memory while compressing data." ∧
    (c_compress storedCodec Heap.after_first ByteArray.zero (z_stream.zero [])
      [1, 2, 3] 3).ret.data = [] ∧
    ∀ fuel out, c_decompress storedCodec Heap.always ByteArray.zero (z_stream.zero [])
        (c_compress storedCodec Heap.after_first ByteArray.zero (z_stream.zero [])
          [1, 2, 3] 3).ret.data
        (c_compress storedCodec Heap.after_first ByteArray.zero (z_stream.zero [])
          [1, 2, 3] 3).ret.len fuel = some out →
      out.ret.data ≠ [1, 2, 3] := by
  have h2 : (c_compress storedCodec Heap.after_first ByteArray.zero (z_stream.zero [])
      [1, 2, 3] 3).ret.data = [] := by decide
  have h3 : (c_compress storedCodec Heap.after_first ByteArray.zero (z_stream.zero [])
      [1, 2, 3] 3).ret.len = 0 := by decide
  refine ⟨storedCodec_lawful, by decide, by decide, h2, ?_⟩
  intro fuel out hrun
  rw [h2, h3] at hrun
  rw [decompress_stored_empty fuel out hrun]
  decide

/-! ## Sizes -/

theorem compressBound_eq (n : Nat) :
    compressBound n = n + n / 4096 + n / 16384 + n / 33554432 + 13 := by
  unfold compressBound
  simp only [Nat.shiftRight_eq_div_pow]

theorem compressBound_le (n : Nat) : compressBound n ≤ n + n / 1000 + 13 := by
  rw [compressBound_eq]
  omega

theorem compress_size_exact_iff (n : Nat) (hn : n < 2 ^ 32) :
    (n + n / 1000 + 12 + 1) % UINT_MOD = n + n / 1000 + 13 ↔ n ≤ 4290676606 := by
  unfold UINT_MOD
  omega

/-- C11, the failing input: for `length = 2 ^ 32 - 1` the `uint` sum
`length + length/1000 + 12 + 1` of line 145 wraps: `c_compress` requests
4294979 bytes from `malloc` and hands 4294979 to the codec as `avail_out`,
not the exact 4299262275, and that capacity is smaller than the input. -/
theorem compress_size_wraps :
    (4294967295 + 4294967295 / 1000 + 12 + 1) % UINT_MOD = 4294979 ∧
    4294967295 + 4294967295 / 1000 + 13 = 4299262275 ∧
    (∃ f, compress_setup Heap.always ByteArray.zero (z_stream.zero ()) [] 4294967295
        = Flow.next f ∧
      f.zst.avail_out = 4294979 ∧ f.ret.str.cap = 4294979 ∧
      f.trace = [Event.malloc 4294979 true] ∧ f.ret.str.cap < 4294967295) := by
  have hsz : (4294967295 + 4294967295 / 1000 + 12 + 1) % UINT_MOD = 4294979 := by decide
  refine ⟨hsz, by decide, _, compress_setup_ok Heap.always ByteArray.zero (z_stream.zero ())
    [] 4294967295 rfl, ?_, ?_, ?_, ?_⟩
  · exact hsz
  · show (Heap.always.fresh 0 ((4294967295 + 4294967295 / 1000 + 12 + 1) % UINT_MOD)).length
      = 4294979
    rw [fresh_length, hsz]
  · show [Event.malloc ((4294967295 + 4294967295 / 1000 + 12 + 1) % UINT_MOD) true] = _
    rw [hsz]
  · show (Heap.always.fresh 0 ((4294967295 + 4294967295 / 1000 + 12 + 1) % UINT_MOD)).length
      < 4294967295
    rw [fresh_length, hsz]
    decide

/-! ## A failing `inflateEnd` after the stream ended -/

/-- C12: in every execution of `c_decompress` in which an `inflate` (the one
numbered `n`) returns stream-ended and `inflateEnd` then returns a status `e`
other than OK, the call returns a failure: `err` is
`zlib_error(&zst, e, "while decompressing data")` on the stream as
`inflateEnd` left it, the buffer is freed when it was allocated (the trace ends
with that `free`, and `str` is left dangling), no bytes are handed out, and
`len` is left at the capacity, not set to `total_out`. -/
theorem decompress_end_failure {σ : Type} (c : Codec σ) (h : Heap) (ret0 : ByteArray)
    (zst0 : z_stream σ) (input : List Byte) (length : Nat) (n : Nat) (f : Frame σ) (e : Int)
    (hreach : decompress_reach c h ret0 zst0 input length n = some f)
    (hst : (c.inflate f.zst Z_FINISH).1 = Z_STREAM_END)
    (he : (c.inflateEnd (c.inflate f.zst Z_FINISH).2.1).1 = e)
    (hne : e ≠ Z_OK) :
    ∀ fuel, n < fuel → ∃ out, c_decompress c h ret0 zst0 input length fuel = some out ∧
      out.ret.err = some (zlib_error (c.inflateEnd (c.inflate f.zst Z_FINISH).2.1).2 e
        "while decompressing data") ∧
      out.trace = f.trace ++ [Event.step Z_STREAM_END, Event.finish e]
        ++ (if f.ret.str = Ptr.null then [] else [Event.free]) ∧
      out.ret.str = (if f.ret.str = Ptr.null then Ptr.null else Ptr.dangling) ∧
      out.ret.data = [] ∧
      out.ret.len = f.ret.len := by
  intro fuel hfuel
  unfold decompress_reach at hreach
  unfold c_decompress
  cases hs : decompress_start c h ret0 zst0 input length with
  | done g => rw [hs] at hreach; simp at hreach
  | next g =>
    rw [hs] at hreach
    simp only at hreach ⊢
    obtain ⟨k, rfl⟩ : ∃ k, fuel = n + (k + 1) := ⟨fuel - n - 1, by omega⟩
    rw [run_loop_of_reach _ n g f hreach (k + 1)]
    unfold run_loop decompress_body
    simp only [hst, if_true]
    unfold decompress_finish
    simp only [he, if_pos hne]
    refine ⟨_, rfl, ?_, ?_, ?_, ?_, ?_⟩
    · unfold decompress_error
      simp only
      rw [free_str_zst]
    · unfold decompress_error free_str
      simp only [store_eq_null_iff]
      by_cases hnull : f.ret.str = Ptr.null
      · simp [hnull]
      · simp [hnull]
    · unfold decompress_error free_str
      simp only [store_eq_null_iff]
      by_cases hnull : f.ret.str = Ptr.null
      · simp [hnull, Ptr.store]
      · simp [hnull]
    · unfold decompress_error
      unfold ByteArray.data
      simp only
      rcases free_str_str (σ := σ) _ with h1 | h1 <;> rw [h1]
    · unfold decompress_error
      simp only
      rw [free_str_len]

/-- Witness of C12: a codec double whose `inflate` reports stream-ended at once
and whose `inflateEnd` then reports a data error. -/
theorem decompress_end_failure_witness :
    ∃ out, c_decompress (forcedCodec Z_OK Z_STREAM_END Z_DATA_ERROR) Heap.always ByteArray.zero
        (z_stream.zero ()) [120, 156] 2 1 = some out ∧
      out.ret.err = some "Error -3 while decompressing data: invalid input data" ∧
      out.trace = [Event.malloc DEFAULTALLOC true, Event.init Z_OK,
        Event.step Z_STREAM_END, Event.finish Z_DATA_ERROR, Event.free] ∧
      out.ret.str = Ptr.dangling ∧
      out.ret.data = [] ∧
      out.ret.len = DEFAULTALLOC := by
  obtain ⟨out, h1, h2, h3, h4, h5, h6⟩ :=
    decompress_end_failure (forcedCodec Z_OK Z_STREAM_END Z_DATA_ERROR) Heap.always
      ByteArray.zero (z_stream.zero ()) [120, 156] 2 0 _ Z_DATA_ERROR rfl rfl rfl (by decide)
      1 (by decide)
  refine ⟨out, h1, ?_, ?_, ?_, h5, ?_⟩
  · rw [h2]; decide
  · rw [h3]; rfl
  · rw [h4]; rfl
  · rw [h6]; rfl

/-! ## The initial-size branches of `c_compress2` -/

theorem compress2_branch_worst_iff (n : Nat) :
    compress2_branch n = SizeClass.worst_case ↔ n < 16384 := by
  unfold compress2_branch DEFAULTALLOC
  split_ifs <;> simp <;> omega

theorem compress2_branch_default_iff (n : Nat) :
    compress2_branch n = SizeClass.default_chunk ↔ 16384 ≤ n ∧ n < 131080 := by
  unfold compress2_branch DEFAULTALLOC
  split_ifs <;> simp <;> omega

theorem compress2_branch_eighth_iff (n : Nat) :
    compress2_branch n = SizeClass.eighth ↔ 131080 ≤ n := by
  unfold compress2_branch DEFAULTALLOC
  split_ifs <;> simp <;> omega

theorem compress2_initial_branch (n : Nat) :
    compress2_initial n =
      match compress2_branch n with
      | SizeClass.worst_case => (n + n / 1000 + 12 + 1) % UINT_MOD
      | SizeClass.eighth => n / 8
      | SizeClass.default_chunk => DEFAULTALLOC := by
  unfold compress2_initial compress2_branch
  split_ifs <;> rfl

/-- Counterexample to C13 as stated: the lengths `16*1024` and `16*1024 + 1`
select the same branch of the initial-size policy, the default chunk size,
and `c_compress2` requests the same 16384 bytes for both; the three lengths
are not pairwise in different branches. -/
theorem compress2_branch_counterexample :
    compress2_branch 16384 = compress2_branch 16385 ∧
    compress2_initial 16384 = 16384 ∧ compress2_initial 16385 = 16384 ∧
    ¬ (compress2_branch 16383 ≠ compress2_branch 16384 ∧
       compress2_branch 16384 ≠ compress2_branch 16385 ∧
       compress2_branch 16383 ≠ compress2_branch 16385) := by
  refine ⟨by decide, by decide, by decide, ?_⟩
  intro hx
  exact hx.2.1 (by decide)

/-- C13, amended: for `c_compress2`, the length `16*1024 - 1` selects the
worst-case bound and both `16*1024` and `16*1024 + 1` select the default
chunk size; the `length/8` branch is selected exactly by the lengths from
131080 on (the first with `length/8 > 16384`), the worst-case branch exactly
by the lengths below 16384 and the default chunk by those in between, so
16383, 16384 and 131080 are in three pairwise different branches; and the size
`c_compress2` requests is the one of the selected branch. -/
theorem compress2_branch_boundary :
    compress2_branch 16383 = SizeClass.worst_case ∧
    compress2_branch 16384 = SizeClass.default_chunk ∧
    compress2_branch 16385 = SizeClass.default_chunk ∧
    compress2_branch 131079 = SizeClass.default_chunk ∧
    compress2_branch 131080 = SizeClass.eighth ∧
    (∀ n, compress2_branch n = SizeClass.worst_case ↔ n < 16384) ∧
    (∀ n, compress2_branch n = SizeClass.default_chunk ↔ 16384 ≤ n ∧ n < 131080) ∧
    (∀ n, compress2_branch n = SizeClass.eighth ↔ 131080 ≤ n) ∧
    (∀ n, compress2_initial n =
      match compress2_branch n with
      | SizeClass.worst_case => (n + n / 1000 + 12 + 1) % UINT_MOD
      | SizeClass.eighth => n / 8
      | SizeClass.default_chunk => DEFAULTALLOC) :=
  ⟨by decide, by decide, by decide, by decide, by decide, compress2_branch_worst_iff,
    compress2_branch_default_iff, compress2_branch_eighth_iff, compress2_initial_branch⟩

/-! ## The worst-case bound against `compressBound` -/

theorem compress_size_bound (n : Nat) (hn : n ≤ 4290676606) :
    n < (n + n / 1000 + 12 + 1) % UINT_MOD ∧
    compressBound n ≤ (n + n / 1000 + 12 + 1) % UINT_MOD := by
  rw [compressBound_eq, (compress_size_exact_iff n (by omega)).2 hn]
  omega

theorem compress2_initial_bound (n : Nat) (hn : n < DEFAULTALLOC) :
    compress2_initial n = n + n / 1000 + 13 ∧ compressBound n ≤ compress2_initial n := by
  rw [compressBound_eq]
  unfold compress2_initial
  rw [if_pos hn]
  unfold DEFAULTALLOC at hn
  rw [(compress_size_exact_iff n (by omega)).2 (by omega)]
  omega

/-- For every length up to 4290676606 the buffer `c_compress` sets up holds
`compressBound(length)` bytes and more than `length` bytes. -/
theorem compress_setup_bound {σ : Type} (h : Heap) (ret0 : ByteArray) (zst0 : z_stream σ)
    (input : List Byte) (n : Nat) (f : Frame σ) (hn : n ≤ 4290676606)
    (hf : compress_setup h ret0 zst0 input n = Flow.next f) :
    f.zst.avail_out = n + n / 1000 + 13 ∧ f.ret.str.cap = n + n / 1000 + 13 ∧
    compressBound f.zst.avail_in ≤ f.zst.avail_out := by
  have hsz : (n + n / 1000 + 12 + 1) % UINT_MOD = n + n / 1000 + 13 :=
    (compress_size_exact_iff n (by omega)).2 hn
  have hb := (compress_size_bound n hn).2
  by_cases hok : h.ok 0 ((n + n / 1000 + 12 + 1) % UINT_MOD) = true
  · rw [compress_setup_ok h ret0 zst0 input n hok] at hf
    cases hf
    refine ⟨hsz, ?_, ?_⟩
    · show (h.fresh 0 ((n + n / 1000 + 12 + 1) % UINT_MOD)).length = _
      rw [fresh_length, hsz]
    · exact hb
  · exfalso
    unfold compress_setup Heap.malloc at hf
    simp [hok] at hf

/-- C17, the failing input: `n + n/1000 + 13` is at least
`compressBound(n) = n + (n >> 12) + (n >> 14) + (n >> 25) + 13` for every `n`,
but for `length = 2 ^ 32 - 1` the `uint` sum of line 145 wraps to 4294979, so
the single-shot buffer of `c_compress` and the `avail_out` handed to the codec
are smaller than `compressBound(length) = 4296278153`. -/
theorem compress_bound_wrapped :
    (∀ n, compressBound n ≤ n + n / 1000 + 13) ∧
    (∀ n, n / 4096 + n / 16384 + n / 2 ^ 25 ≤ n / 1000) ∧
    compressBound 4294967295 = 4296278153 ∧
    (∃ f, compress_setup Heap.always ByteArray.zero (z_stream.zero ()) [] 4294967295
        = Flow.next f ∧
      f.zst.avail_in = 4294967295 ∧
      f.zst.avail_out < compressBound f.zst.avail_in ∧
      f.ret.str.cap < compressBound f.zst.avail_in) := by
  have hsz : (4294967295 + 4294967295 / 1000 + 12 + 1) % UINT_MOD = 4294979 := by decide
  have hcb : compressBound 4294967295 = 4296278153 := by
    rw [compressBound_eq]
  refine ⟨compressBound_le, fun n => by omega, hcb, _,
    compress_setup_ok Heap.always ByteArray.zero (z_stream.zero ()) [] 4294967295 rfl,
    rfl, ?_, ?_⟩
  · show (4294967295 + 4294967295 / 1000 + 12 + 1) % UINT_MOD < compressBound 4294967295
    rw [hsz, hcb]
    decide
  · show (Heap.always.fresh 0 ((4294967295 + 4294967295 / 1000 + 12 + 1) % UINT_MOD)).length
      < compressBound 4294967295
    rw [fresh_length, hsz, hcb]
    decide

/-! ## The error text of `c_compress2` -/

/-- The `error:` label of `c_compress2` keeps a non-NULL `ret.err`. -/
theorem compress2_error_stale {σ : Type} (f : Frame σ) (err : Int) (s : String)
    (hs : f.ret.err = some s) : (compress2_error f err).ret.err = some s := by
  unfold compress2_error
  simp only
  rw [if_neg (by rw [free_str_err, hs]; simp), free_str_err, hs]

/-- The `error:` label of `c_compress2` translates the status when `ret.err`
is NULL. -/
theorem compress2_error_fresh {σ : Type} (f : Frame σ) (err : Int)
    (hs : f.ret.err = none) :
    (compress2_error f err).ret.err = some (zlib_error f.zst err "while compressing data") := by
  unfold compress2_error
  simp only
  rw [if_pos (by rw [free_str_err, hs]), free_str_zst]

/-- C16, the failing runs: `c_compress2` entered with a non-NULL indeterminate
`ret.err` (here "stale") returns that pointer, untranslated, on each of the
four failures of its loop and finalize - a step status outside stream-ended /
OK / buffer-error, a buffer-error with `avail_out > 0`, a refused growth
`realloc`, and a non-OK `deflateEnd` - where the same runs entered with
`ret.err` NULL return `zlib_error(&zst, status, "while compressing data")`. -/
theorem compress2_error_depends_on_garbage :
    ((c_compress2 (forcedCodec Z_OK Z_DATA_ERROR Z_OK) Heap.always
        { str := Ptr.null, len := 0, err := some "stale" } (z_stream.zero ()) [1, 2, 3, 4, 5] 5 1).map
        (fun f => f.ret.err) = some (some "stale") ∧
     (c_compress2 (forcedCodec Z_OK Z_DATA_ERROR Z_OK) Heap.always
        { str := Ptr.null, len := 0, err := none } (z_stream.zero ()) [1, 2, 3, 4, 5] 5 1).map
        (fun f => f.ret.err)
       = some (some "Error -3 while compressing data: invalid input data")) ∧
    ((c_compress2 (forcedCodec Z_OK Z_BUF_ERROR Z_OK) Heap.always
        { str := Ptr.null, len := 0, err := some "stale" } (z_stream.zero ()) [1, 2, 3, 4, 5] 5 1).map
        (fun f => f.ret.err) = some (some "stale") ∧
     (c_compress2 (forcedCodec Z_OK Z_BUF_ERROR Z_OK) Heap.always
        { str := Ptr.null, len := 0, err := none } (z_stream.zero ()) [1, 2, 3, 4, 5] 5 1).map
        (fun f => f.ret.err)
       = some (some "Error -5 while compressing data: incomplete or truncated stream")) ∧
    ((c_compress2 (forcedCodec Z_OK Z_OK Z_OK) Heap.once
        { str := Ptr.null, len := 0, err := some "stale" } (z_stream.zero ()) [1, 2, 3, 4, 5] 5 1).map
        (fun f => f.ret.err) = some (some "stale") ∧
     (c_compress2 (forcedCodec Z_OK Z_OK Z_OK) Heap.once
        { str := Ptr.null, len := 0, err := none } (z_stream.zero ()) [1, 2, 3, 4, 5] 5 1).map
        (fun f => f.ret.err) = some (some "Error: 0 while compressing data")) ∧
    ((c_compress2 (forcedCodec Z_OK Z_STREAM_END Z_DATA_ERROR) Heap.always
        { str := Ptr.null, len := 0, err := some "stale" } (z_stream.zero ()) [1, 2, 3, 4, 5] 5 1).map
        (fun f => f.ret.err) = some (some "stale") ∧
     (c_compress2 (forcedCodec Z_OK Z_STREAM_END Z_DATA_ERROR) Heap.always
        { str := Ptr.null, len := 0, err := none } (z_stream.zero ()) [1, 2, 3, 4, 5] 5 1).map
        (fun f => f.ret.err)
       = some (some "Error -3 while compressing data: invalid input data")) ∧
    (∀ (z : z_stream Unit) (e : Int), zlib_error z e "while compressing data" ≠ "stale") := by
  refine ⟨⟨by decide, by decide⟩, ⟨by decide, by decide⟩, ⟨by decide, by decide⟩,
    ⟨by decide, by decide⟩, ?_⟩
  intro z e hz
  have := zlib_error_head z e "while compressing data"
  rw [hz] at this
  exact absurd this (by decide)

/-! ## The growth step of `c_compress2` -/

/-- The arithmetic of lines 297-306 when the `realloc` is granted by an
allocator that grants nothing of `2 ^ 63` bytes or more: the `int` sum does
not wrap. -/
theorem compress2_grow_arith (L n : Nat) (hL : L < 2 ^ 31) (hn : n < 2 ^ 32)
    (hsz : int_to_size_t ((L + n / 8) % UINT_MOD) < 2 ^ 63) :
    (L + n / 8) % UINT_MOD = L + n / 8 ∧
    int_to_size_t ((L + n / 8) % UINT_MOD) = L + n / 8 ∧
    L + n / 8 < 2 ^ 31 ∧
    ((L + n / 8) % UINT_MOD + UINT_MOD - L) % UINT_MOD = n / 8 := by
  have h1 : (L + n / 8) % UINT_MOD = L + n / 8 := by
    unfold UINT_MOD; omega
  rw [h1] at hsz ⊢
  unfold int_to_size_t at hsz ⊢
  split_ifs at hsz ⊢ with h2
  · refine ⟨rfl, rfl, h2, ?_⟩
    unfold UINT_MOD; omega
  · omega

/-- A pass of the `c_compress2` loop that goes round again, entered with a
live buffer of `ret.len` bytes. -/
theorem compress2_body_sized {σ : Type} (c : Codec σ) (h : Heap)
    (hheap : ∀ i n, h.ok i n = true → n < 2 ^ 63) (length : Nat) (hlength : length < 2 ^ 32)
    (f g : Frame σ) (hb : compress2_body c h length f = Flow.next g)
    (hI : (∃ block, f.ret.str = Ptr.live block) ∧ f.ret.str.cap = f.ret.len ∧
      f.ret.len < 2 ^ 31) :
    g.ret.len = f.ret.len + length / 8 ∧
    g.zst.avail_out = length / 8 ∧
    g.zst.next_out = some f.ret.len ∧
    g.trace = f.trace ++ [Event.step (c.deflate f.zst Z_FINISH).1,
      Event.realloc (f.ret.len + length / 8) true] ∧
    f.ret.len + length / 8 < 2 ^ 31 ∧
    ∃ b1 b2, f.ret.str.store f.zst.next_out (c.deflate f.zst Z_FINISH).2.2 = Ptr.live b1 ∧
      b1.length = f.ret.len ∧ g.ret.str = Ptr.live b2 ∧
      b2.length = f.ret.len + length / 8 ∧ b2.take f.ret.len = b1 := by
  obtain ⟨⟨block, hblock⟩, hcapf, hlen⟩ := hI
  obtain ⟨_, hne, hg⟩ := compress2_body_next c h length f g hb
  obtain ⟨_, hok⟩ := realloc_cap h _ _ _ hne
  obtain ⟨g1, g2, g3, g4⟩ := compress2_grow_arith f.ret.len length hlen hlength (hheap _ _ hok)
  rw [g2] at hok
  rw [g2, g4, g1, hok] at hg
  obtain ⟨b1, hb1, hl1⟩ := store_live block f.zst.next_out (c.deflate f.zst Z_FINISH).2.2
  rw [hblock] at hcapf
  have hl1b : b1.length = f.ret.len := by rw [hl1]; exact hcapf
  rw [hblock, hb1] at hg
  obtain ⟨b2, hb2, hl2, ht2⟩ := realloc_take h f.nalloc b1 (f.ret.len + length / 8) f.ret.len
    hok (by omega) (by omega)
  rw [hb2] at hg
  rw [hg]
  refine ⟨rfl, rfl, rfl, by simp, g3, b1, b2, ?_, hl1b, rfl, hl2, ?_⟩
  · rw [hblock, hb1]
  · rw [ht2, ← hl1b, List.take_length]

/-- Every frame of the `c_compress2` loop has a live buffer of `ret.len`
bytes, below 2 GiB. -/
theorem compress2_reach_sized {σ : Type} (c : Codec σ) (h : Heap)
    (hheap : ∀ i n, h.ok i n = true → n < 2 ^ 63) (ret0 : ByteArray) (zst0 : z_stream σ)
    (input : List Byte) (length : Nat) (hlength : length < 2 ^ 32) (k : Nat) (f : Frame σ)
    (hreach : compress2_reach c h ret0 zst0 input length k = some f) :
    (∃ block, f.ret.str = Ptr.live block) ∧ f.ret.str.cap = f.ret.len ∧ f.ret.len < 2 ^ 31 := by
  unfold compress2_reach at hreach
  cases hs : compress2_start c h ret0 zst0 input length with
  | done g => rw [hs] at hreach; simp at hreach
  | next f1 =>
    rw [hs] at hreach
    simp only at hreach
    obtain ⟨f0, hset, _, hf1⟩ := compress2_start_next c h ret0 zst0 input length f1 hs
    obtain ⟨_, hf0⟩ := compress2_setup_next h ret0 zst0 input length f0 hset
    refine reach_inv (compress2_body c h length)
      (fun f => (∃ block, f.ret.str = Ptr.live block) ∧ f.ret.str.cap = f.ret.len ∧
        f.ret.len < 2 ^ 31) ?_ k f1 f ?_ hreach
    · intro a b hI hab
      obtain ⟨e1, _, _, _, e5, b1, b2, _, _, e8, e9, _⟩ :=
        compress2_body_sized c h hheap length hlength a b hab hI
      refine ⟨⟨b2, e8⟩, ?_, ?_⟩
      · rw [e8, e1]; exact e9
      · rw [e1]; exact e5
    · rw [hf1, hf0]
      refine ⟨⟨_, rfl⟩, fresh_length _ _ _, ?_⟩
      show compress2_initial length < 2 ^ 31
      rw [compress2_initial_eq]
      split_ifs <;> omega

/-- Consecutive frames of a loop are one pass of its body apart. -/
theorem reach_step {α : Type} (body : α → Flow α) :
    ∀ (n : Nat) (f g g2 : α), reach body n f = some g → reach body (n + 1) f = some g2 →
      body g = Flow.next g2 := by
  intro n
  induction n with
  | zero =>
    intro f g g2 h1 h2
    simp only [reach, Option.some.injEq] at h1
    subst h1
    exact reach_one body f g2 h2
  | succ n ih =>
    intro f g g2 h1 h2
    unfold reach at h1 h2
    cases hb : body f with
    | next m =>
      rw [hb] at h1 h2
      exact ih m g g2 h1 h2
    | done m =>
      rw [hb] at h1
      simp at h1

/-- Counterexample to C15 as stated: for an input of 3 bytes `length/8` is 0.
With a codec double whose `deflate` returns OK, the growth step of
`c_compress2` leaves the capacity at the 16 bytes it had and gives the stream
no output room. -/
theorem compress2_growth_step_counterexample :
    ∃ f g, compress2_reach (forcedCodec Z_OK Z_OK Z_OK) Heap.below2G ByteArray.zero
        (z_stream.zero ()) [1, 2, 3] 3 0 = some f ∧
      compress2_reach (forcedCodec Z_OK Z_OK Z_OK) Heap.below2G ByteArray.zero
        (z_stream.zero ()) [1, 2, 3] 3 1 = some g ∧
      f.ret.str.cap = 16 ∧ g.ret.str.cap = 16 ∧ g.ret.len = 16 ∧ g.zst.avail_out = 0 ∧
      ¬ (f.ret.str.cap < g.ret.str.cap) ∧ ¬ (0 < 3 / 8) := by
  obtain ⟨f, hf⟩ := Option.isSome_iff_exists.1 (by decide :
    (compress2_reach (forcedCodec Z_OK Z_OK Z_OK) Heap.below2G ByteArray.zero
      (z_stream.zero ()) [1, 2, 3] 3 0).isSome = true)
  obtain ⟨g, hg⟩ := Option.isSome_iff_exists.1 (by decide :
    (compress2_reach (forcedCodec Z_OK Z_OK Z_OK) Heap.below2G ByteArray.zero
      (z_stream.zero ()) [1, 2, 3] 3 1).isSome = true)
  have tf : (compress2_reach (forcedCodec Z_OK Z_OK Z_OK) Heap.below2G ByteArray.zero
      (z_stream.zero ()) [1, 2, 3] 3 0).map (fun f => f.ret.str.cap) = some 16 := by decide
  have tg : (compress2_reach (forcedCodec Z_OK Z_OK Z_OK) Heap.below2G ByteArray.zero
      (z_stream.zero ()) [1, 2, 3] 3 1).map
        (fun f => (f.ret.str.cap, f.ret.len, f.zst.avail_out)) = some (16, 16, 0) := by decide
  rw [hf] at tf
  rw [hg] at tg
  simp only [Option.map_some', Option.some.injEq, Prod.mk.injEq] at tf tg
  obtain ⟨t1, t2, t3⟩ := tg
  refine ⟨f, g, hf, hg, tf, t1, t2, t3, ?_, by decide⟩
  rw [tf, t1]
  decide

/-- C15, amended: in `c_compress2`, for every 32-bit input length `n` and an
allocator that grants nothing of `2 ^ 63` bytes or more, every growth step
whose `realloc` is granted (the pass from frame `k` to frame `k + 1`) starts
with a live buffer of `L = ret.len` bytes and raises the capacity to
`L + n/8`, below 2 GiB, gives the stream exactly `n/8` bytes of room at offset
`L`, and keeps the `L` bytes the buffer held after the step; the capacity
rises, and the stream gets room, exactly when `n ≥ 8`. -/
theorem compress2_growth_step {σ : Type} (c : Codec σ) (h : Heap)
    (hheap : ∀ i n, h.ok i n = true → n < 2 ^ 63) (ret0 : ByteArray) (zst0 : z_stream σ)
    (input : List Byte) (length : Nat) (hlength : length < 2 ^ 32) (k : Nat) (f g : Frame σ)
    (hreach : compress2_reach c h ret0 zst0 input length k = some f)
    (hnext : compress2_reach c h ret0 zst0 input length (k + 1) = some g) :
    f.ret.str.cap = f.ret.len ∧
    g.ret.str.cap = f.ret.len + length / 8 ∧
    g.ret.len = f.ret.len + length / 8 ∧
    g.ret.len < 2 ^ 31 ∧
    g.zst.avail_out = length / 8 ∧
    g.zst.next_out = some f.ret.len ∧
    g.trace = f.trace ++ [Event.step (c.deflate f.zst Z_FINISH).1,
      Event.realloc (f.ret.len + length / 8) true] ∧
    (∃ b1 b2, f.ret.str.store f.zst.next_out (c.deflate f.zst Z_FINISH).2.2 = Ptr.live b1 ∧
      b1.length = f.ret.len ∧ g.ret.str = Ptr.live b2 ∧ b2.take f.ret.len = b1) ∧
    (f.ret.str.cap < g.ret.str.cap ↔ 8 ≤ length) ∧
    (0 < g.zst.avail_out ↔ 8 ≤ length) := by
  have hI := compress2_reach_sized c h hheap ret0 zst0 input length hlength k f hreach
  have hb : compress2_body c h length f = Flow.next g := by
    unfold compress2_reach at hreach hnext
    cases hs : compress2_start c h ret0 zst0 input length with
    | done m => rw [hs] at hreach; simp at hreach
    | next m =>
      rw [hs] at hreach hnext
      exact reach_step _ k m f g hreach hnext
  obtain ⟨e1, e2, e3, e4, e5, b1, b2, e6, e7, e8, e9, e10⟩ :=
    compress2_body_sized c h hheap length hlength f g hb hI
  have hcapg : g.ret.str.cap = f.ret.len + length / 8 := by rw [e8]; exact e9
  refine ⟨hI.2.1, hcapg, e1, by rw [e1]; exact e5, e2, e3, e4, ⟨b1, b2, e6, e7, e8, e10⟩, ?_, ?_⟩
  · rw [hcapg, hI.2.1]; omega
  · rw [e2]; omega

/-- Witness of C15: an input of 8 bytes and a codec double whose `deflate`
returns OK; the growth step raises the capacity from 21 to 22 bytes and gives
the stream one byte of room at offset 21. -/
theorem compress2_growth_step_witness :
    ∃ f g, compress2_reach (forcedCodec Z_OK Z_OK Z_OK) Heap.below2G ByteArray.zero
        (z_stream.zero ()) [1, 2, 3, 4, 5, 6, 7, 8] 8 0 = some f ∧
      compress2_reach (forcedCodec Z_OK Z_OK Z_OK) Heap.below2G ByteArray.zero
        (z_stream.zero ()) [1, 2, 3, 4, 5, 6, 7, 8] 8 1 = some g ∧
      f.ret.len = 21 ∧ f.ret.str.cap = 21 ∧ g.ret.str.cap = 22 ∧ g.ret.len = 22 ∧
      g.zst.avail_out = 1 ∧ g.zst.next_out = some 21 ∧ f.ret.str.cap < g.ret.str.cap := by
  obtain ⟨f, hf⟩ := Option.isSome_iff_exists.1 (by decide :
    (compress2_reach (forcedCodec Z_OK Z_OK Z_OK) Heap.below2G ByteArray.zero
      (z_stream.zero ()) [1, 2, 3, 4, 5, 6, 7, 8] 8 0).isSome = true)
  obtain ⟨g, hg⟩ := Option.isSome_iff_exists.1 (by decide :
    (compress2_reach (forcedCodec Z_OK Z_OK Z_OK) Heap.below2G ByteArray.zero
      (z_stream.zero ()) [1, 2, 3, 4, 5, 6, 7, 8] 8 1).isSome = true)
  have tf : (compress2_reach (forcedCodec Z_OK Z_OK Z_OK) Heap.below2G ByteArray.zero
      (z_stream.zero ()) [1, 2, 3, 4, 5, 6, 7, 8] 8 0).map (fun f => f.ret.len) = some 21 := by
    decide
  rw [hf] at tf
  simp only [Option.map_some', Option.some.injEq] at tf
  obtain ⟨e0, e1, e2, _, e4, e5, _, _, e8, _⟩ :=
    compress2_growth_step (forcedCodec Z_OK Z_OK Z_OK) Heap.below2G
      (fun i n hok => Nat.lt_trans (below2G_ok i n hok) (by decide)) ByteArray.zero
      (z_stream.zero ()) [1, 2, 3, 4, 5, 6, 7, 8] 8 (by decide) 0 f g hf hg
  rw [tf] at e0 e1 e2 e5
  exact ⟨f, g, hf, hg, tf, e0, e1, e2, e4, e5, e8.2 (by decide)⟩

/-! ## The growth step of `c_decompress` -/

/-- Storing `bytes` at offset `t` of a block with room for them. -/
theorem store_append (block : List Byte) (t : Nat) (bytes : List Byte)
    (hcap : t + bytes.length ≤ block.length) :
    ∃ b2, (Ptr.live block).store (some t) bytes = Ptr.live b2 ∧
      b2.length = block.length ∧
      b2.take (t + bytes.length) = block.take t ++ bytes := by
  refine ⟨_, rfl, ?_, ?_⟩
  · simp only [List.length_take, List.length_append, List.length_drop]
    omega
  · have ht : (block.take t ++ bytes).length = t + bytes.length := by
      rw [List.length_append, List.length_take]; omega
    rw [List.take_take, Nat.min_eq_left hcap, ← ht, List.take_left']
    rfl

theorem fillCodec_accounting : fillCodec.Accounting := by
  constructor <;> intros <;> simp [fillCodec]

theorem fillCodec_okMeansFull : fillCodec.OkMeansFull := by
  constructor <;> intros <;> rfl

theorem fillCodec_inflateStores : fillCodec.InflateStores := by
  constructor <;> intros <;> simp [fillCodec]

theorem storedCodec_inflateStores : storedCodec.InflateStores := by
  constructor
  · intros; rfl
  · intro z fl
    simp only [storedCodec, List.length_take]
    omega

/-- The frame before the first `inflate` of `c_decompress`: nothing written,
the cursor at the start of the 16 KiB buffer. -/
theorem decompress_start_wrote {σ : Type} (c : Codec σ) (h : Heap) (hacc : c.Accounting)
    (hsto : c.InflateStores) (ret0 : ByteArray) (zst0 : z_stream σ) (input : List Byte)
    (length : Nat) (f : Frame σ) (hmalloc : h.ok 0 DEFAULTALLOC = true)
    (hs : decompress_start c h ret0 zst0 input length = Flow.next f) :
    f.Wrote [] ∧ f.ret.len = DEFAULTALLOC := by
  obtain ⟨_, hf⟩ := decompress_start_next c h ret0 zst0 input length f hs
  obtain ⟨h1, h2⟩ := hacc.inflateInit2_counts (decompress_setup h ret0 zst0 input length).zst
    MAX_WBITS
  have h3 := hsto.init_cursor (decompress_setup h ret0 zst0 input length).zst MAX_WBITS
  rw [hf]
  unfold Frame.Wrote
  simp only [h1, h2, h3]
  unfold decompress_setup Heap.malloc
  simp only [hmalloc, if_true]
  exact ⟨⟨_, rfl, fresh_length _ _ _, rfl, by simp, by simp⟩, trivial⟩

/-- A pass of the `c_decompress` loop that goes round again, for a codec that
stores what it counts and returns OK only with its room used up: the chunk
fills the room, the buffer is doubled with its bytes kept, and the cursor
stands at `total_out`, the old capacity, with the old capacity as room. -/
theorem decompress_body_wrote {σ : Type} (c : Codec σ) (h : Heap) (hacc : c.Accounting)
    (hfull : c.OkMeansFull) (hsto : c.InflateStores) (f g : Frame σ) (acc : List Byte)
    (hW : f.Wrote acc) (hlen : f.ret.len < 2 ^ 31)
    (hb : decompress_body c h f = Flow.next g) :
    g.Wrote (acc ++ (c.inflate f.zst Z_FINISH).2.2) ∧
    g.ret.len = 2 * f.ret.len ∧
    g.zst.total_out = f.ret.len ∧
    g.zst.avail_out = f.ret.len ∧
    g.trace = f.trace ++ [Event.step (c.inflate f.zst Z_FINISH).1,
      Event.realloc (2 * f.ret.len) true] ∧
    ∃ b1 b2, f.ret.str.store f.zst.next_out (c.inflate f.zst Z_FINISH).2.2 = Ptr.live b1 ∧
      b1.length = f.ret.len ∧ g.ret.str = Ptr.live b2 ∧ b2.length = 2 * f.ret.len ∧
      b2.take f.ret.len = b1 := by
  obtain ⟨block, hstr, hbl, hno, hsum, htake⟩ := hW
  obtain ⟨hstat, hne, hg⟩ := decompress_body_next c h f g hb
  obtain ⟨ha, ht⟩ := hacc.inflate_counts f.zst Z_FINISH
  have hl := hsto.step_stored f.zst Z_FINISH
  have h0 : (c.inflate f.zst Z_FINISH).2.1.avail_out = 0 := by
    rcases hstat with h1 | ⟨_, h2⟩
    · exact hfull.1 _ _ h1
    · exact h2
  rw [h0] at ht hl
  simp only [Nat.sub_zero] at ht hl
  obtain ⟨b1, hb1, hl1, ht1⟩ := store_append block f.zst.total_out
    (c.inflate f.zst Z_FINISH).2.2 (by omega)
  have hsz : (f.ret.len * 2) % UINT_MOD = 2 * f.ret.len := by
    unfold UINT_MOD; omega
  obtain ⟨_, hok⟩ := realloc_cap h _ _ _ hne
  rw [hsz] at hok
  rw [hsz, hok, hstr, hno, hb1] at hg
  obtain ⟨b2, hb2, hl2, ht2⟩ := realloc_take h f.nalloc b1 (2 * f.ret.len) f.ret.len hok
    (by omega) (by omega)
  rw [hb2] at hg
  have hb1len : b1.length = f.ret.len := by rw [hl1, hbl]
  have hb1all : b2.take f.ret.len = b1 := by
    rw [ht2, ← hb1len, List.take_length]
  have htot : (c.inflate f.zst Z_FINISH).2.1.total_out = f.ret.len := by omega
  rw [hg]
  refine ⟨⟨b2, rfl, hl2, ?_, ?_, ?_⟩, rfl, htot, rfl, by simp, b1, b2, ?_, hb1len, rfl, hl2,
    hb1all⟩
  · show some f.ret.len = some (c.inflate f.zst Z_FINISH).2.1.total_out
    rw [htot]
  · show (c.inflate f.zst Z_FINISH).2.1.total_out + f.ret.len = 2 * f.ret.len
    omega
  · show b2.take (c.inflate f.zst Z_FINISH).2.1.total_out = _
    rw [htot, hb1all, ← htake, ← ht1]
    have : f.zst.total_out + (c.inflate f.zst Z_FINISH).2.2.length = b1.length := by omega
    rw [this, List.take_length]
  · rw [hstr, hno, hb1]

/-- A successful return of the `c_decompress` loop hands out what the buffer
held, followed by the last chunk. -/
theorem decompress_body_done_wrote {σ : Type} (c : Codec σ) (h : Heap) (hacc : c.Accounting)
    (hsto : c.InflateStores) (f out : Frame σ) (acc : List Byte)
    (hW : f.Wrote acc) (hlen : f.ret.len < 2 ^ 32)
    (hb : decompress_body c h f = Flow.done out) (herr : out.ret.err = none) :
    out.ret.data = acc ++ (c.inflate f.zst Z_FINISH).2.2 ∧
    out.ret.len = (acc ++ (c.inflate f.zst Z_FINISH).2.2).length := by
  obtain ⟨block, hstr, hbl, hno, hsum, htake⟩ := hW
  obtain ⟨_, _, hz, hs, hl⟩ := decompress_body_success c h f out hb herr
  obtain ⟨ha, ht⟩ := hacc.inflate_counts f.zst Z_FINISH
  have hl2 := hsto.step_stored f.zst Z_FINISH
  have he := hacc.inflateEnd_counts (c.inflate f.zst Z_FINISH).2.1
  obtain ⟨b1, hb1, hl1, ht1⟩ := store_append block f.zst.total_out
    (c.inflate f.zst Z_FINISH).2.2 (by omega)
  have hacclen : acc.length = f.zst.total_out := by
    rw [← htake, List.length_take]; omega
  have htot : out.zst.total_out = f.zst.total_out + (c.inflate f.zst Z_FINISH).2.2.length := by
    rw [hz, he, ht, hl2]
  have hmod : out.zst.total_out % UINT_MOD = out.zst.total_out := by
    unfold UINT_MOD; omega
  rw [hmod, htot] at hl
  rw [hstr, hno, hb1] at hs
  constructor
  · unfold ByteArray.data
    rw [hs, hl]
    show b1.take (f.zst.total_out + (c.inflate f.zst Z_FINISH).2.2.length) = _
    rw [ht1, htake]
  · rw [hl, List.length_append, hacclen]

/-- After `k` growths of `c_decompress`, `k ≤ 17`, the buffer has
`16384 * 2 ^ k` bytes and holds, up to the cursor, the chunks of the `k` steps
in order. -/
theorem decompress_reach_wrote {σ : Type} (c : Codec σ) (h : Heap) (hacc : c.Accounting)
    (hfull : c.OkMeansFull) (hsto : c.InflateStores) :
    ∀ (k : Nat) (f0 f : Frame σ) (acc : List Byte) (j : Nat), f0.Wrote acc →
      f0.ret.len = 16384 * 2 ^ j → j + k ≤ 17 →
      reach (decompress_body c h) k f0 = some f →
      f.Wrote (acc ++ decompress_chunks c h k f0) ∧ f.ret.len = 16384 * 2 ^ (j + k) := by
  intro k
  induction k with
  | zero =>
    intro f0 f acc j hW hlen _ hr
    simp only [reach, Option.some.injEq] at hr
    subst hr
    simp only [decompress_chunks, List.append_nil, Nat.add_zero]
    exact ⟨hW, hlen⟩
  | succ k ih =>
    intro f0 f acc j hW hlen hjk hr
    unfold reach at hr
    unfold decompress_chunks
    cases hb : decompress_body c h f0 with
    | done m => rw [hb] at hr; simp at hr
    | next m =>
      rw [hb] at hr
      simp only at hr ⊢
      have hp : 2 ^ j ≤ 2 ^ 16 := Nat.pow_le_pow_right (by decide) (by omega)
      have hlt : f0.ret.len < 2 ^ 31 := by rw [hlen]; omega
      obtain ⟨w1, w2, _, _, _, _⟩ :=
        decompress_body_wrote c h hacc hfull hsto f0 m acc hW hlt hb
      have hm : m.ret.len = 16384 * 2 ^ (j + 1) := by
        rw [w2, hlen, Nat.pow_succ]; omega
      obtain ⟨i1, i2⟩ := ih m f (acc ++ (c.inflate f0.zst Z_FINISH).2.2) (j + 1) w1 hm
        (by omega) hr
      refine ⟨?_, ?_⟩
      · rw [← List.append_assoc]; exact i1
      · rw [i2]; congr 2; omega

/-- The chunks of `k + 1` passes are those of `k` passes and the chunk of
pass `k`. -/
theorem decompress_chunks_succ {σ : Type} (c : Codec σ) (h : Heap) :
    ∀ (k : Nat) (f0 f : Frame σ), reach (decompress_body c h) k f0 = some f →
      decompress_chunks c h (k + 1) f0
        = decompress_chunks c h k f0 ++ (c.inflate f.zst Z_FINISH).2.2 := by
  intro k
  induction k with
  | zero =>
    intro f0 f hr
    simp only [reach, Option.some.injEq] at hr
    subst hr
    unfold decompress_chunks
    cases decompress_body c h f0 <;> simp [decompress_chunks]
  | succ k ih =>
    intro f0 f hr
    unfold reach at hr
    cases hb : decompress_body c h f0 with
    | done m => rw [hb] at hr; simp at hr
    | next m =>
      rw [hb] at hr
      have e1 : decompress_chunks c h (k + 1 + 1) f0
          = (c.inflate f0.zst Z_FINISH).2.2 ++ decompress_chunks c h (k + 1) m := by
        rw [decompress_chunks, hb]
      have e2 : decompress_chunks c h (k + 1) f0
          = (c.inflate f0.zst Z_FINISH).2.2 ++ decompress_chunks c h k m := by
        rw [decompress_chunks, hb]
      rw [e1, e2, ih m f hr, List.append_assoc]

/-- The frame before a pass of a loop came out of the pass before it. -/
theorem reach_pred {α : Type} (body : α → Flow α) :
    ∀ (n : Nat) (f g : α), reach body (n + 1) f = some g →
      ∃ m, reach body n f = some m ∧ body m = Flow.next g := by
  intro n
  induction n with
  | zero =>
    intro f g hr
    exact ⟨f, rfl, reach_one body f g hr⟩
  | succ n ih =>
    intro f g hr
    unfold reach at hr
    cases hb : body f with
    | done m => rw [hb] at hr; simp at hr
    | next m =>
      rw [hb] at hr
      obtain ⟨m2, h1, h2⟩ := ih m g hr
      refine ⟨m2, ?_, h2⟩
      unfold reach
      rw [hb]
      exact h1

/-- Counterexample to C14 as stated.  A codec double whose `inflate` returns OK
with its room unused: after the first growth the cursor stands at offset 16384
while `total_out` is 0, so the cursor is not at `total_out`.  And the doubling
is 32-bit: with an allocator that grants every request, after 18 growths
`ret.len` and the capacity are 0, not `16384 * 2 ^ 18`, while the stream is
given `2 ^ 31` bytes of room. -/
theorem decompress_growth_step_counterexample :
    (∃ g, decompress_reach (forcedCodec Z_OK Z_OK Z_OK) Heap.always ByteArray.zero
        (z_stream.zero ()) [] 0 1 = some g ∧
      g.zst.next_out = some 16384 ∧ g.zst.total_out = 0 ∧
      g.zst.next_out ≠ some g.zst.total_out) ∧
    (∃ g, decompress_reach (forcedCodec Z_OK Z_OK Z_OK) Heap.always ByteArray.zero
        (z_stream.zero ()) [] 0 18 = some g ∧
      g.ret.len = 0 ∧ g.ret.str.cap = 0 ∧ g.zst.avail_out = 2147483648 ∧
      g.ret.str.cap ≠ 16384 * 2 ^ 18) := by
  constructor
  · obtain ⟨g, hg⟩ := Option.isSome_iff_exists.1 (by decide :
      (decompress_reach (forcedCodec Z_OK Z_OK Z_OK) Heap.always ByteArray.zero
        (z_stream.zero ()) [] 0 1).isSome = true)
    have t : (decompress_reach (forcedCodec Z_OK Z_OK Z_OK) Heap.always ByteArray.zero
        (z_stream.zero ()) [] 0 1).map (fun f => (f.zst.next_out, f.zst.total_out))
        = some (some 16384, 0) := by decide
    rw [hg] at t
    simp only [Option.map_some', Option.some.injEq, Prod.mk.injEq] at t
    refine ⟨g, hg, t.1, t.2, ?_⟩
    rw [t.1, t.2]
    decide
  · obtain ⟨g, hg⟩ := Option.isSome_iff_exists.1 (by decide :
      (decompress_reach (forcedCodec Z_OK Z_OK Z_OK) Heap.always ByteArray.zero
        (z_stream.zero ()) [] 0 18).isSome = true)
    have t : (decompress_reach (forcedCodec Z_OK Z_OK Z_OK) Heap.always ByteArray.zero
        (z_stream.zero ()) [] 0 18).map (fun f => (f.ret.len, f.zst.avail_out))
        = some (0, 2147483648) := by decide
    rw [hg] at t
    simp only [Option.map_some', Option.some.injEq, Prod.mk.injEq] at t
    have hcap : g.ret.str.cap = g.ret.len := by
      have hr := hg
      unfold decompress_reach at hr
      cases hs : decompress_start (forcedCodec Z_OK Z_OK Z_OK) Heap.always ByteArray.zero
          (z_stream.zero ()) [] 0 with
      | done m => rw [hs] at hr; simp at hr
      | next m =>
        rw [hs] at hr
        obtain ⟨m2, _, hb⟩ := reach_pred _ 17 m g hr
        obtain ⟨_, hne, hgm⟩ := decompress_body_next _ _ m2 g hb
        have hc := (realloc_cap _ _ _ _ hne).1
        rw [hgm]
        exact hc
    refine ⟨g, hg, t.1, by rw [hcap, t.1], t.2, ?_⟩
    rw [hcap, t.1]
    decide

/-- C14, amended: in `c_decompress`, let the initial `malloc` be granted and
let the codec keep its counters, store exactly the bytes it counts, and return
OK only with its room used up.  Then every growth step up to the 17th whose
`realloc` is granted (the pass from frame `k` to frame `k + 1`, `k ≤ 16`)
doubles the capacity from `16384 * 2 ^ k` to `16384 * 2 ^ (k + 1)`, keeps the
bytes the buffer held after the step, and leaves the cursor at offset
`total_out`, the old capacity, with `avail_out` the added capacity; the buffer
then holds, up to the cursor, the chunks of the `k + 1` steps in order.  And
every successful return after at most 17 growths hands out the chunks of all
its steps concatenated in order, `len` bytes of them. -/
theorem decompress_growth_step {σ : Type} (c : Codec σ) (h : Heap) (hacc : c.Accounting)
    (hfull : c.OkMeansFull) (hsto : c.InflateStores) (ret0 : ByteArray) (zst0 : z_stream σ)
    (input : List Byte) (length : Nat) (hmalloc : h.ok 0 DEFAULTALLOC = true)
    (k : Nat) (hk : k ≤ 16) (f g : Frame σ)
    (hreach : decompress_reach c h ret0 zst0 input length k = some f)
    (hnext : decompress_reach c h ret0 zst0 input length (k + 1) = some g) :
    f.ret.str.cap = 16384 * 2 ^ k ∧
    g.ret.str.cap = 16384 * 2 ^ (k + 1) ∧
    g.ret.str.cap = 2 * f.ret.str.cap ∧
    g.ret.len = g.ret.str.cap ∧
    (∃ b1 b2, f.ret.str.store f.zst.next_out (c.inflate f.zst Z_FINISH).2.2 = Ptr.live b1 ∧
      b1.length = f.ret.str.cap ∧ g.ret.str = Ptr.live b2 ∧ b2.take f.ret.str.cap = b1) ∧
    g.zst.next_out = some g.zst.total_out ∧
    g.zst.total_out = f.ret.str.cap ∧
    g.zst.avail_out = g.ret.str.cap - f.ret.str.cap ∧
    (∃ b2, g.ret.str = Ptr.live b2 ∧
      b2.take g.zst.total_out = decompress_written c h ret0 zst0 input length (k + 1)) ∧
    (∀ m fm out, m ≤ 17 → decompress_reach c h ret0 zst0 input length m = some fm →
      decompress_body c h fm = Flow.done out → out.ret.err = none →
      out.ret.data = decompress_written c h ret0 zst0 input length (m + 1) ∧
      out.ret.len = (decompress_written c h ret0 zst0 input length (m + 1)).length) := by
  unfold decompress_reach at hreach hnext
  unfold decompress_reach decompress_written
  cases hs : decompress_start c h ret0 zst0 input length with
  | done m => rw [hs] at hreach; simp at hreach
  | next f0 =>
    rw [hs] at hreach hnext
    simp only at hreach hnext ⊢
    obtain ⟨hW0, hlen0⟩ := decompress_start_wrote c h hacc hsto ret0 zst0 input length f0
      hmalloc hs
    have hlen0b : f0.ret.len = 16384 * 2 ^ 0 := by rw [hlen0]; rfl
    obtain ⟨hWf, hlenf⟩ := decompress_reach_wrote c h hacc hfull hsto k f0 f [] 0 hW0 hlen0b
      (by omega) hreach
    simp only [List.nil_append, Nat.zero_add] at hWf hlenf
    have hb := reach_step _ k f0 f g hreach hnext
    have hp : 2 ^ k ≤ 2 ^ 16 := Nat.pow_le_pow_right (by decide) hk
    have hlt : f.ret.len < 2 ^ 31 := by rw [hlenf]; omega
    obtain ⟨w1, w2, w3, w4, _, b1, b2, w6, w7, w8, w9, w10⟩ :=
      decompress_body_wrote c h hacc hfull hsto f g _ hWf hlt hb
    have hcapf : f.ret.str.cap = f.ret.len := by
      obtain ⟨block, hstr, hbl, _⟩ := hWf
      rw [hstr]; exact hbl
    have hcapg : g.ret.str.cap = 2 * f.ret.len := by rw [w8]; exact w9
    obtain ⟨blockg, hstrg, _, hnog, _, htakeg⟩ := w1
    refine ⟨by rw [hcapf, hlenf], ?_, by rw [hcapg, hcapf], by rw [hcapg, w2],
      ⟨b1, b2, w6, by rw [hcapf]; exact w7, w8, by rw [hcapf]; exact w10⟩, hnog,
      by rw [w3, hcapf], by rw [w4, hcapg, hcapf]; omega, ⟨blockg, hstrg, ?_⟩, ?_⟩
    · rw [hcapg, hlenf, Nat.pow_succ]; omega
    · rw [htakeg, decompress_chunks_succ c h k f0 f hreach]
    · intro m fm out hm hrm hbm herr
      obtain ⟨hWm, hlenm⟩ := decompress_reach_wrote c h hacc hfull hsto m f0 fm [] 0 hW0
        hlen0b (by omega) hrm
      simp only [List.nil_append, Nat.zero_add] at hWm hlenm
      have hpm : 2 ^ m ≤ 2 ^ 17 := Nat.pow_le_pow_right (by decide) hm
      have hltm : fm.ret.len < 2 ^ 32 := by rw [hlenm]; omega
      rw [decompress_chunks_succ c h m f0 fm hrm]
      exact decompress_body_done_wrote c h hacc hsto fm out _ hWm hltm hbm herr

/-- Witness of C14: the filling codec double and an allocator that grants
every request; the first growth doubles the 16 KiB buffer and leaves the cursor
at offset 16384 with 16384 bytes of room. -/
theorem decompress_growth_step_witness :
    ∃ f g, decompress_reach fillCodec Heap.always ByteArray.zero (z_stream.zero ())
        [120, 156] 2 0 = some f ∧
      decompress_reach fillCodec Heap.always ByteArray.zero (z_stream.zero ())
        [120, 156] 2 1 = some g ∧
      f.ret.str.cap = 16384 ∧ g.ret.str.cap = 32768 ∧ g.ret.len = 32768 ∧
      g.zst.next_out = some 16384 ∧ g.zst.total_out = 16384 ∧ g.zst.avail_out = 16384 := by
  obtain ⟨f, hf⟩ := Option.isSome_iff_exists.1 (by decide :
    (decompress_reach fillCodec Heap.always ByteArray.zero (z_stream.zero ())
      [120, 156] 2 0).isSome = true)
  obtain ⟨g, hg⟩ := Option.isSome_iff_exists.1 (by decide :
    (decompress_reach fillCodec Heap.always ByteArray.zero (z_stream.zero ())
      [120, 156] 2 1).isSome = true)
  obtain ⟨e1, e2, _, e4, _, e6, e7, e8, _, _⟩ :=
    decompress_growth_step fillCodec Heap.always fillCodec_accounting fillCodec_okMeansFull
      fillCodec_inflateStores ByteArray.zero (z_stream.zero ()) [120, 156] 2 rfl 0 (by decide)
      f g hf hg
  have h1 : f.ret.str.cap = 16384 := by rw [e1]; rfl
  have h2 : g.ret.str.cap = 32768 := by rw [e2]; rfl
  refine ⟨f, g, hf, hg, h1, h2, by rw [e4, h2], ?_, by rw [e7, h1], by rw [e8, h1, h2]⟩
  rw [e6, e7, h1]

/-- Every successful return of `c_decompress` after at most 17 growths, none
included, hands out the chunks of all its steps concatenated in order, `len`
bytes of them. -/
theorem decompress_returns_chunks {σ : Type} (c : Codec σ) (h : Heap) (hacc : c.Accounting)
    (hfull : c.OkMeansFull) (hsto : c.InflateStores) (ret0 : ByteArray) (zst0 : z_stream σ)
    (input : List Byte) (length : Nat) (hmalloc : h.ok 0 DEFAULTALLOC = true)
    (m : Nat) (hm : m ≤ 17) (fm out : Frame σ)
    (hreach : decompress_reach c h ret0 zst0 input length m = some fm)
    (hdone : decompress_body c h fm = Flow.done out) (herr : out.ret.err = none) :
    out.ret.data = decompress_written c h ret0 zst0 input length (m + 1) ∧
    out.ret.len = (decompress_written c h ret0 zst0 input length (m + 1)).length := by
  unfold decompress_reach at hreach
  unfold decompress_written
  cases hs : decompress_start c h ret0 zst0 input length with
  | done g => rw [hs] at hreach; simp at hreach
  | next f0 =>
    rw [hs] at hreach
    simp only at hreach ⊢
    obtain ⟨hW0, hlen0⟩ := decompress_start_wrote c h hacc hsto ret0 zst0 input length f0
      hmalloc hs
    have hlen0b : f0.ret.len = 16384 * 2 ^ 0 := by rw [hlen0]; rfl
    obtain ⟨hWm, hlenm⟩ := decompress_reach_wrote c h hacc hfull hsto m f0 fm [] 0 hW0
      hlen0b (by omega) hreach
    simp only [List.nil_append, Nat.zero_add] at hWm hlenm
    have hpm : 2 ^ m ≤ 2 ^ 17 := Nat.pow_le_pow_right (by decide) hm
    have hltm : fm.ret.len < 2 ^ 32 := by rw [hlenm]; omega
    rw [decompress_chunks_succ c h m f0 fm hreach]
    exact decompress_body_done_wrote c h hacc hsto fm out _ hWm hltm hdone herr

/-! ## `zlib_error` and its unchecked `malloc` -/

/-- The call returns the formatted text exactly when its `malloc` is granted. -/
theorem zlib_error_alloc_eq {σ : Type} (h : Heap) (i : Nat) (zst : z_stream σ) (err : Int)
    (msg : String) :
    zlib_error_alloc h i zst err msg
      = if h.ok i ERRMSG_MAX = true then some (zlib_error zst err msg) else none := by
  unfold zlib_error_alloc zlib_error
  simp only
  cases hk : h.ok i ERRMSG_MAX
  · have hn : h.malloc i ERRMSG_MAX = Ptr.null := (malloc_eq_null_iff h i ERRMSG_MAX).2 hk
    simp only [hn, if_true]
    split <;> simp
  · have hn : ¬ h.malloc i ERRMSG_MAX = Ptr.null := by
      rw [malloc_eq_null_iff, hk]; simp
    simp only [if_neg hn, if_true]
    split <;> simp_all

/-- C9, the failing input: `zlib_error` formats its message into a
`malloc(ERRMSG_MAX)` that it does not check (lines 44 and 48).  When that
request is refused, for every status code, codec message and context phrase
`snprintf` is handed NULL and the call returns no string at all; this is what
happens on the out-of-memory path of `c_compress` (lines 148-150) with an
allocator that refuses every request, the path on which `c_compress` itself
has just checked its own `malloc`.  When the request is granted, the call
returns, for every `int` status code, a non-empty string of at most 2047 bytes
that begins with "Error", contains the decimal rendering of the code and is
not that rendering alone. -/
theorem zlib_error_alloc_unchecked :
    (∀ (h : Heap) (i : Nat) (z : z_stream Unit) (e : Int) (m : String),
      h.ok i ERRMSG_MAX = false → zlib_error_alloc h i z e m = none) ∧
    zlib_error_alloc Heap.never 1 (z_stream.zero ()) Z_MEM_ERROR
      "Out of memory while compressing data." = none ∧
    (c_compress (forcedCodec Z_OK Z_STREAM_END Z_OK) Heap.never ByteArray.zero
      (z_stream.zero ()) [1, 2, 3] 3).trace = [Event.malloc 16 false] ∧
    zlib_error_alloc Heap.after_first 1 (z_stream.zero ()) Z_MEM_ERROR
      "Out of memory while compressing data."
      = some "Error: -4 Out of memory while compressing data." ∧
    (∀ (h : Heap) (i : Nat) (z : z_stream Unit) (e : Int) (m : String),
      h.ok i ERRMSG_MAX = true → -(2 : Int) ^ 31 ≤ e → e < (2 : Int) ^ 31 →
      ∃ s, zlib_error_alloc h i z e m = some s ∧ s ≠ "" ∧ s.length ≤ 2047 ∧
        s.data.take 5 = "Error".data ∧
        (∃ pre post : List Char, s.data = pre ++ (fmt_d e).data ++ post) ∧
        s ≠ fmt_d e) := by
  refine ⟨?_, by decide, by decide, by decide, ?_⟩
  · intro h i z e m hk
    rw [zlib_error_alloc_eq, hk]
    simp
  · intro h i z e m hk hlo hhi
    refine ⟨zlib_error z e m, ?_, zlib_error_shape z e m hlo hhi⟩
    rw [zlib_error_alloc_eq, hk]
    simp
end Czlib
